import Mathlib

/-!
# Structured grid geometry, hybrid elements and field creation of atlas: embedding and
verified properties

Sources: `src/atlas/grid/detail/grid/Structured.h`, `src/atlas/mesh/HybridElements.cc`
and `src/atlas/field/FieldCreatorArraySpec.cc`.  The conventions of the last two are
given where their definitions start.

Conventions of the embedding of the structured grid.

* `idx_t` (a signed machine integer) is `Int` throughout.  The cursors of the iterators
  only count upwards from `0` and are compared with row counts, so no arithmetic here
  wraps for grids whose sizes fit the index type.  Statements about repeated increments
  of an iterator bound their number by `size()`.
* `double` is an arbitrary type `R` carrying the operations the code uses (`+`, `*`, the
  conversion from `idx_t`).  Statements that need exact arithmetic ask for a ring
  structure on `R`; the concrete grids are over `ℚ`.
* `std::vector::operator[]` outside the bounds of the vector is undefined behaviour;
  reads are `Option`-valued and `none` stands for such a read.
* An iterator holds a reference to its grid; here the grid is an argument of each
  operation of the iterator.
* Loops whose number of iterations is not bounded by their text take a bound on the
  number of iterations and return `none` when it is exhausted.
* `Projection` is an external collaborator and is a field of function type;
  `Predicate` is a function from the linear index to `bool`.
-/

namespace Atlas

/-- Read `v[j]` of a `std::vector` with a signed index; `none` when the index
is outside of the vector. -/
def vecAt {α : Type} (v : List α) (j : Int) : Option α :=
  if j < 0 then none else v[j.toNat]?

/-- Planar point `PointXY`. -/
structure PointXY (R : Type) where
  x : R
  y : R
deriving DecidableEq, Repr

/-- Geographic point `PointLonLat`. -/
structure PointLonLat (R : Type) where
  lon : R
  lat : R
deriving DecidableEq, Repr

/-- External `Projection`: only the map from planar to geographic points is used. -/
structure Projection (R : Type) where
  lonlat : PointXY R → PointLonLat R

/-- Data members of `class Structured` (with the projection inherited from `Grid`). -/
structure Structured (R : Type) where
  nxmin_ : Int
  nxmax_ : Int
  npts_ : Int
  y_ : List R
  nx_ : List Int
  xmin_ : List R
  xmax_ : List R
  dx_ : List R
  periodic_x_ : Bool
  projection_ : Projection R

namespace Structured

variable {R : Type}

/-- `idx_t size() const { return npts_; }` -/
def size (g : Structured R) : Int := g.npts_

/-- `idx_t ny() const { return static_cast<idx_t>( y_.size() ); }` -/
def ny (g : Structured R) : Int := (g.y_.length : Int)

/-- `idx_t nx( idx_t j ) const { return static_cast<idx_t>( nx_[j] ); }` -/
def nx (g : Structured R) (j : Int) : Option Int := vecAt g.nx_ j

/-- `idx_t nxmax() const { return nxmax_; }` -/
def nxmax (g : Structured R) : Int := g.nxmax_

/-- `idx_t nxmin() const { return nxmin_; }` -/
def nxmin (g : Structured R) : Int := g.nxmin_

/-- `double dx( idx_t j ) const { return dx_[j]; }` -/
def dx (g : Structured R) (j : Int) : Option R := vecAt g.dx_ j

/-- `double x( idx_t i, idx_t j ) const { return xmin_[j] + static_cast<double>( i ) * dx_[j]; }` -/
def x [Add R] [Mul R] [IntCast R] (g : Structured R) (i j : Int) : Option R := do
  let a ← vecAt g.xmin_ j
  let d ← vecAt g.dx_ j
  pure (a + (i : R) * d)

/-- `double y( idx_t j ) const { return y_[j]; }` -/
def y (g : Structured R) (j : Int) : Option R := vecAt g.y_ j

/-- `PointXY xy( idx_t i, idx_t j ) const { return PointXY( x( i, j ), y( j ) ); }` -/
def xy [Add R] [Mul R] [IntCast R] (g : Structured R) (i j : Int) : Option (PointXY R) := do
  let a ← g.x i j
  let b ← g.y j
  pure ⟨a, b⟩

/-- `void xy( idx_t i, idx_t j, double crd[] ) const`: stores `x(i,j)` in `crd[0]`
and `y(j)` in `crd[1]`; the caller's buffer must hold two values. -/
def xy_crd [Add R] [Mul R] [IntCast R] (g : Structured R) (i j : Int) (crd : List R) :
    Option (List R) := do
  let a ← g.x i j
  let b ← g.y j
  if crd.length < 2 then none else pure ((crd.set 0 a).set 1 b)

/-- `PointLonLat lonlat( idx_t i, idx_t j ) const { return projection_.lonlat( xy( i, j ) ); }` -/
def lonlat [Add R] [Mul R] [IntCast R] (g : Structured R) (i j : Int) :
    Option (PointLonLat R) := do
  let p ← g.xy i j
  pure (g.projection_.lonlat p)

/-- `bool reduced() const { return nxmax() != nxmin(); }` -/
def reduced (g : Structured R) : Bool := g.nxmax != g.nxmin

end Structured

/-- Cursor of `Structured::IteratorXY` (the grid reference is passed to each operation). -/
structure IteratorXY where
  i_ : Int
  j_ : Int
deriving DecidableEq, Repr

namespace IteratorXY

variable {R : Type}

/-- Constructor `IteratorXY( grid, begin )`: `i_( 0 ), j_( begin ? 0 : grid.ny() )`. -/
def ctor (g : Structured R) (begin : Bool) : IteratorXY :=
  ⟨0, if begin then 0 else g.ny⟩

/-- `bool next( PointXY& xy )`.  The first component is `some xy` when the call
returns `true` (and then `xy` is the point written through the reference) and
`none` when it returns `false`; the second component is the cursor afterwards. -/
def next [Add R] [Mul R] [IntCast R] (g : Structured R) (it : IteratorXY) :
    Option (Option (PointXY R) × IteratorXY) :=
  if it.j_ < g.ny then do
    let n ← g.nx it.j_
    if it.i_ < n then do
      let xy ← g.xy it.i_ it.j_
      let i := it.i_ + 1
      let m ← g.nx it.j_
      if i = m then pure (some xy, ⟨0, it.j_ + 1⟩)
      else pure (some xy, ⟨i, it.j_⟩)
    else pure (none, it)
  else pure (none, it)

/-- `const PointXY operator*() const { return grid_.xy( i_, j_ ); }` -/
def deref [Add R] [Mul R] [IntCast R] (g : Structured R) (it : IteratorXY) :
    Option (PointXY R) :=
  g.xy it.i_ it.j_

/-- `operator++()`: `++i_; if ( i_ == grid_.nx( j_ ) ) { ++j_; i_ = 0; }`. -/
def incr (g : Structured R) (it : IteratorXY) : Option IteratorXY := do
  let i := it.i_ + 1
  let m ← g.nx it.j_
  if i = m then pure ⟨0, it.j_ + 1⟩ else pure ⟨i, it.j_⟩

/-- `operator==`: `j_ == other.j_ && i_ == other.i_`. -/
def eq (a b : IteratorXY) : Bool := a.j_ == b.j_ && a.i_ == b.i_

/-- `operator!=`: `i_ != other.i_ || j_ != other.j_`. -/
def ne (a b : IteratorXY) : Bool := a.i_ != b.i_ || a.j_ != b.j_

end IteratorXY

/-- State of `Structured::IteratorXYPredicated` (the grid reference is passed to each
operation); `Predicate` is a function from the linear index to `bool`. -/
structure IteratorXYPredicated where
  p_ : Int → Bool
  i_ : Int
  j_ : Int
  n_ : Int
  size_ : Int

namespace IteratorXYPredicated

variable {R : Type}

/-- The loop of the constructor,
`while ( not p_( n_ ) && n_ < size_ ) { ++i_; if ( i_ == grid_.nx( j_ ) ) { ++j_; i_ = 0; } ++n_; }`,
with a bound on the number of iterations; `none` when the bound is exhausted or a
read is out of bounds. -/
def ctorLoop (g : Structured R) : Nat → IteratorXYPredicated → Option IteratorXYPredicated
  | 0, it => if (!it.p_ it.n_ && decide (it.n_ < it.size_)) then none else some it
  | fuel + 1, it =>
    if (!it.p_ it.n_ && decide (it.n_ < it.size_)) then do
      let i := it.i_ + 1
      let m ← g.nx it.j_
      let it1 : IteratorXYPredicated :=
        if i = m then { it with i_ := 0, j_ := it.j_ + 1 } else { it with i_ := i }
      ctorLoop g fuel { it1 with n_ := it.n_ + 1 }
    else some it

/-- Member initialisers of the constructor `IteratorXYPredicated( grid, p, begin )`:
`p_( p ), i_( 0 ), j_( begin ? 0 : grid.ny() ), n_( 0 ), size_( grid.size() )`. -/
def ctorInit (g : Structured R) (p : Int → Bool) (begin : Bool) : IteratorXYPredicated :=
  { p_ := p, i_ := 0, j_ := if begin then 0 else g.ny, n_ := 0, size_ := g.size }

/-- Constructor `IteratorXYPredicated( grid, p, begin )`: the member initialisers, followed
by the loop when `begin` is set. -/
def ctor (g : Structured R) (fuel : Nat) (p : Int → Bool) (begin : Bool) :
    Option IteratorXYPredicated :=
  if begin then ctorLoop g fuel (ctorInit g p begin) else some (ctorInit g p begin)

/-- `const PointXY operator*() const { return grid_.xy( i_, j_ ); }` -/
def deref [Add R] [Mul R] [IntCast R] (g : Structured R) (it : IteratorXYPredicated) :
    Option (PointXY R) :=
  g.xy it.i_ it.j_

/-- `operator++()`:
`do { ++i_; if ( i_ == grid_.nx( j_ ) ) { ++j_; i_ = 0; } ++n_; if ( n_ == size_ ) return *this; } while ( not p_( n_ ) );`
with a bound on the number of iterations. -/
def incr (g : Structured R) : Nat → IteratorXYPredicated → Option IteratorXYPredicated
  | 0, _ => none
  | fuel + 1, it => do
    let i := it.i_ + 1
    let m ← g.nx it.j_
    let it1 : IteratorXYPredicated :=
      if i = m then { it with i_ := 0, j_ := it.j_ + 1 } else { it with i_ := i }
    let it2 : IteratorXYPredicated := { it1 with n_ := it.n_ + 1 }
    if it2.n_ = it2.size_ then pure it2
    else if !it2.p_ it2.n_ then incr g fuel it2
    else pure it2

/-- `operator==`: `j_ == other.j_ && i_ == other.i_`. -/
def eq (a b : IteratorXYPredicated) : Bool := a.j_ == b.j_ && a.i_ == b.i_

/-- `operator!=`: `i_ != other.i_ || j_ != other.j_`. -/
def ne (a b : IteratorXYPredicated) : Bool := a.i_ != b.i_ || a.j_ != b.j_

end IteratorXYPredicated

/-- Cursor of `Structured::IteratorLonLat`. -/
structure IteratorLonLat where
  i_ : Int
  j_ : Int
deriving DecidableEq, Repr

namespace IteratorLonLat

variable {R : Type}

/-- Constructor `IteratorLonLat( grid, begin )`: `i_( 0 ), j_( begin ? 0 : grid.ny() )`. -/
def ctor (g : Structured R) (begin : Bool) : IteratorLonLat :=
  ⟨0, if begin then 0 else g.ny⟩

/-- `bool next( PointLonLat& lonlat )`, with the result convention of `IteratorXY.next`. -/
def next [Add R] [Mul R] [IntCast R] (g : Structured R) (it : IteratorLonLat) :
    Option (Option (PointLonLat R) × IteratorLonLat) :=
  if it.j_ < g.ny then do
    let n ← g.nx it.j_
    if it.i_ < n then do
      let ll ← g.lonlat it.i_ it.j_
      let i := it.i_ + 1
      let m ← g.nx it.j_
      if i = m then pure (some ll, ⟨0, it.j_ + 1⟩)
      else pure (some ll, ⟨i, it.j_⟩)
    else pure (none, it)
  else pure (none, it)

/-- `const PointLonLat operator*() const { return grid_.lonlat( i_, j_ ); }` -/
def deref [Add R] [Mul R] [IntCast R] (g : Structured R) (it : IteratorLonLat) :
    Option (PointLonLat R) :=
  g.lonlat it.i_ it.j_

/-- `operator++()`: `++i_; if ( i_ == grid_.nx( j_ ) ) { ++j_; i_ = 0; }`. -/
def incr (g : Structured R) (it : IteratorLonLat) : Option IteratorLonLat := do
  let i := it.i_ + 1
  let m ← g.nx it.j_
  if i = m then pure ⟨0, it.j_ + 1⟩ else pure ⟨i, it.j_⟩

/-- `operator==`: `j_ == other.j_ && i_ == other.i_`. -/
def eq (a b : IteratorLonLat) : Bool := a.j_ == b.j_ && a.i_ == b.i_

/-- `operator!=`: `i_ != other.i_ || j_ != other.j_`. -/
def ne (a b : IteratorLonLat) : Bool := a.i_ != b.i_ || a.j_ != b.j_

end IteratorLonLat

namespace Structured

variable {R : Type}

/-- `xy_begin()`: `new IteratorXY( *this )`. -/
def xy_begin (g : Structured R) : IteratorXY := IteratorXY.ctor g true

/-- `xy_end()`: `new IteratorXY( *this, false )`. -/
def xy_end (g : Structured R) : IteratorXY := IteratorXY.ctor g false

/-- `lonlat_begin()`: `new IteratorLonLat( *this )`. -/
def lonlat_begin (g : Structured R) : IteratorLonLat := IteratorLonLat.ctor g true

/-- `lonlat_end()`: `new IteratorLonLat( *this, false )`. -/
def lonlat_end (g : Structured R) : IteratorLonLat := IteratorLonLat.ctor g false

/-- `xy_begin( Predicate p )`: `new IteratorXYPredicated( *this, p )`. -/
def xy_begin_p (g : Structured R) (fuel : Nat) (p : Int → Bool) :
    Option IteratorXYPredicated :=
  IteratorXYPredicated.ctor g fuel p true

/-- `xy_end( Predicate p )`: `new IteratorXYPredicated( *this, p, false )`; with `begin`
unset the constructor consists of its member initialisers only. -/
def xy_end_p (g : Structured R) (p : Int → Bool) : IteratorXYPredicated :=
  IteratorXYPredicated.ctorInit g p false

end Structured

/-! ## Client loops over the iterators -/

namespace IteratorXY

variable {R : Type} [Add R] [Mul R] [IntCast R]

/-- The outcomes of `k` successive calls of `next` (`some xy` for `true`, `none` for
`false`) and the cursor after them. -/
def nextN (g : Structured R) : Nat → IteratorXY → Option (List (Option (PointXY R)) × IteratorXY)
  | 0, it => some ([], it)
  | k + 1, it => do
    let r ← next g it
    let rs ← nextN g k r.2
    pure (r.1 :: rs.1, rs.2)

/-- Apply `operator++` `k` times. -/
def incrN (g : Structured R) : Nat → IteratorXY → Option IteratorXY
  | 0, it => some it
  | k + 1, it => do
    let it1 ← incr g it
    incrN g k it1

/-- The loop `for ( ; it != last; ++it ) out.push_back( *it );` bounded by `fuel` steps. -/
def range (g : Structured R) : Nat → IteratorXY → IteratorXY → Option (List (PointXY R))
  | 0, _, _ => none
  | fuel + 1, it, last =>
    if ne it last then do
      let pt ← deref g it
      let it1 ← incr g it
      let rest ← range g fuel it1 last
      pure (pt :: rest)
    else pure []

end IteratorXY

namespace IteratorLonLat

variable {R : Type} [Add R] [Mul R] [IntCast R]

/-- The outcomes of `k` successive calls of `next` and the cursor after them. -/
def nextN (g : Structured R) :
    Nat → IteratorLonLat → Option (List (Option (PointLonLat R)) × IteratorLonLat)
  | 0, it => some ([], it)
  | k + 1, it => do
    let r ← next g it
    let rs ← nextN g k r.2
    pure (r.1 :: rs.1, rs.2)

/-- Apply `operator++` `k` times. -/
def incrN (g : Structured R) : Nat → IteratorLonLat → Option IteratorLonLat
  | 0, it => some it
  | k + 1, it => do
    let it1 ← incr g it
    incrN g k it1

/-- The loop `for ( ; it != last; ++it ) out.push_back( *it );` bounded by `fuel` steps. -/
def range (g : Structured R) :
    Nat → IteratorLonLat → IteratorLonLat → Option (List (PointLonLat R))
  | 0, _, _ => none
  | fuel + 1, it, last =>
    if ne it last then do
      let pt ← deref g it
      let it1 ← incr g it
      let rest ← range g fuel it1 last
      pure (pt :: rest)
    else pure []

end IteratorLonLat

namespace IteratorXYPredicated

variable {R : Type} [Add R] [Mul R] [IntCast R]

/-- The loop `for ( ; it != last; ++it ) out.push_back( *it );` bounded by `fuel` steps,
each `operator++` being given `incrFuel` iterations of its loop. -/
def range (g : Structured R) (incrFuel : Nat) :
    Nat → IteratorXYPredicated → IteratorXYPredicated → Option (List (PointXY R))
  | 0, _, _ => none
  | fuel + 1, it, last =>
    if ne it last then do
      let pt ← deref g it
      let it1 ← incr g incrFuel it
      let rest ← range g incrFuel fuel it1 last
      pure (pt :: rest)
    else pure []

end IteratorXYPredicated

/-! ## Reference notions used in the statements -/

/-- Row-major enumeration of the index pairs `(i, j)` of a table of row counts: rows `j`
in ascending order starting at `j0`, and within a row `i = 0, ..., nx[j] - 1`. -/
def rowMajorFrom (j0 : Nat) (nx : List Int) : List (Int × Int) :=
  (nx.enumFrom j0).flatMap fun jn =>
    (List.range jn.2.toNat).map fun (i : Nat) => ((i : Int), (jn.1 : Int))

/-- Row-major enumeration of all index pairs of a table of row counts. -/
def rowMajor (nx : List Int) : List (Int × Int) := rowMajorFrom 0 nx

/-- The members of a list whose position `n`, counted from `n0`, satisfies the predicate
`p`, in the order of the list. -/
def restrictFrom {α : Type} (p : Int → Bool) (n0 : Nat) (l : List α) : List α :=
  ((l.enumFrom n0).filter fun e => p (e.1 : Int)).map Prod.snd

/-- Class invariant of a structured grid with rows of at least one point: the per-row
tables have one entry per row, every row count is at least `1`, and `npts_` is the sum
of the row counts. -/
structure Structured.WellFormed {R : Type} (g : Structured R) : Prop where
  nx_len : g.nx_.length = g.y_.length
  xmin_len : g.xmin_.length = g.y_.length
  dx_len : g.dx_.length = g.y_.length
  nx_pos : ∀ n ∈ g.nx_, 1 ≤ n
  npts_eq : g.npts_ = g.nx_.sum

/-- Row-major linear index of the cursor `(i, j)`: the number of points of the rows
before `j`, plus `i`. -/
def Structured.linearIndex {R : Type} (g : Structured R) (i j : Int) : Int :=
  (g.nx_.take j.toNat).sum + i

/-- The cursor `(i, j)` addresses a point of the grid: `0 ≤ j < ny()` and
`0 ≤ i < nx(j)`, the read of `nx_[j]` being within bounds. -/
def Structured.InRow {R : Type} (g : Structured R) (i j : Int) : Prop :=
  0 ≤ j ∧ j < g.ny ∧ 0 ≤ i ∧ ∃ m, g.nx j = some m ∧ i < m

/-- The cursor `c` is the position of the linear index `n`: a point of the grid with that
row-major index, or the end position `(0, ny())` with `n = size()`. -/
def Structured.CursorAt {R : Type} (g : Structured R) (c : Int × Int) (n : Int) : Prop :=
  (g.InRow c.1 c.2 ∧ n = g.linearIndex c.1 c.2) ∨ (c = (0, g.ny) ∧ n = g.size)

/-- Reduced grid with row counts `{2, 4, 2}` over exact rationals: rows at latitudes
`45, 0, -45`, each starting at longitude `0` and closing the circle. -/
def reducedExample : Structured ℚ :=
  { nxmin_ := 2, nxmax_ := 4, npts_ := 8,
    y_ := [45, 0, -45], nx_ := [2, 4, 2],
    xmin_ := [0, 0, 0], xmax_ := [180, 270, 180], dx_ := [180, 90, 180],
    periodic_x_ := true, projection_ := ⟨fun p => ⟨p.x, p.y⟩⟩ }

/-- Data members of `Structured::XSpace::Implementation`, the per-row table. -/
structure XSpace (R : Type) where
  ny_ : Int
  nxmin_ : Int
  nxmax_ : Int
  nx_ : List Int
  xmin_ : List R
  xmax_ : List R
  dx_ : List R
  min_ : R
  max_ : R

/-- Modelled from the spec: the constructor `Structured( XSpace, YSpace, Projection, Domain )`,
which is declared in `Structured.h` while its body (in `Structured.cc`) is not among the
sources.  Following the spec, construction from a per-row table and the values of the row
axis fails when the row axis has no value, when the declared row count or the length of a
per-row array disagrees with the length of the row axis, or when a row has a non-positive
point count; otherwise the tables are taken over, `npts` is the sum of the row counts and
`nxmin`, `nxmax` are the least and the greatest row count.  The domain is global (nothing
is cropped) and the periodicity flag is passed in. -/
def Structured.construct {R : Type} (xspace : XSpace R) (yspace : List R)
    (projection : Projection R) (periodic_x : Bool) : Option (Structured R) :=
  if yspace.length < 1 then none
  else if xspace.ny_ ≠ (yspace.length : Int) ∨ xspace.nx_.length ≠ yspace.length ∨
      xspace.xmin_.length ≠ yspace.length ∨ xspace.xmax_.length ≠ yspace.length ∨
      xspace.dx_.length ≠ yspace.length then none
  else if xspace.nx_.any (fun n => decide (n < 1)) then none
  else some
    { nxmin_ := xspace.nx_.foldl min (xspace.nx_.headD 0)
      nxmax_ := xspace.nx_.foldl max (xspace.nx_.headD 0)
      npts_ := xspace.nx_.sum
      y_ := yspace
      nx_ := xspace.nx_
      xmin_ := xspace.xmin_
      xmax_ := xspace.xmax_
      dx_ := xspace.dx_
      periodic_x_ := periodic_x
      projection_ := projection }

/-- Per-row table of the reduced grid with row counts `{2, 4, 2}`. -/
def reducedXSpace : XSpace ℚ :=
  { ny_ := 3, nxmin_ := 2, nxmax_ := 4, nx_ := [2, 4, 2],
    xmin_ := [0, 0, 0], xmax_ := [180, 270, 180], dx_ := [180, 90, 180],
    min_ := 0, max_ := 270 }

/-- The grid `reducedExample` with its middle row emptied (`nx[1] = 0`), as the claim
describes a row left by `crop`; `npts_` is the sum of the row counts. -/
def emptyRowExample : Structured ℚ :=
  { reducedExample with nx_ := [2, 0, 2], npts_ := 4, nxmin_ := 0, nxmax_ := 2 }

/-- The first `z` rows of a grid, as a grid of their own. -/
def Structured.firstRows {R : Type} (g : Structured R) (z : Nat) : Structured R :=
  { g with
    npts_ := (g.nx_.take z).sum
    y_ := g.y_.take z
    nx_ := g.nx_.take z
    xmin_ := g.xmin_.take z
    xmax_ := g.xmax_.take z
    dx_ := g.dx_.take z }

/-- The iterators obtained by constructing a begin `IteratorXYPredicated` for the predicate
`p` and then calling `operator++` any number of times, each call made while `n < size()`. -/
inductive IteratorXYPredicated.Reachable {R : Type} (g : Structured R) (p : Int → Bool) :
    IteratorXYPredicated → Prop
  | begin (fuel : Nat) (b : IteratorXYPredicated) :
      g.xy_begin_p fuel p = some b → Reachable g p b
  | incr (fuel : Nat) (it r : IteratorXYPredicated) :
      Reachable g p it → it.n_ < g.size → IteratorXYPredicated.incr g fuel it = some r →
      Reachable g p r

/-- The grid `reducedExample` with every row emptied (`nx[j] = 0` for all rows), so that
`size()` is `0` while `ny()` is `3`. -/
def allEmptyExample : Structured ℚ :=
  { reducedExample with nx_ := [0, 0, 0], npts_ := 0, nxmin_ := 0, nxmax_ := 0 }

/-- A grid without rows: every table is empty and `size()` is `0`. -/
def noRowsExample : Structured ℚ :=
  { nxmin_ := 0, nxmax_ := 0, npts_ := 0, y_ := [], nx_ := [], xmin_ := [], xmax_ := [],
    dx_ := [], periodic_x_ := false, projection_ := ⟨fun p => ⟨p.x, p.y⟩⟩ }

/-- `bool periodic() const { return periodic_x_; }` -/
def Structured.periodic {R : Type} (g : Structured R) : Bool := g.periodic_x_

/-- Modelled from the spec: `Structured::computeTruePeriodicity`, which is declared in
`Structured.h` while its body is not among the sources.  Following the spec, for each row
the gap that would close the ring, `360` minus the span from `xmin[j]` to `xmax[j]`, is
compared with `dx[j]` within the tolerance `eps`, and the grid is periodic in x only if
this holds for every row; a row whose tables have no entry counts as failing.  Arithmetic
is exact and "within the tolerance" is `|gap - dx[j]| ≤ eps`. -/
def Structured.computeTruePeriodicity {R : Type} [LinearOrderedField R] (eps : R)
    (g : Structured R) : Structured R :=
  { g with
    periodic_x_ := (List.range g.y_.length).all fun j =>
      match g.xmin_[j]?, g.xmax_[j]?, g.dx_[j]? with
      | some a, some b, some d => decide (|360 - (b - a) - d| ≤ eps)
      | _, _, _ => false }

/-- Modelled from the spec: the values of an `AxisSpacing` (the spacing classes are not
among the sources).  Following the spec, `(lo, hi, count, endpoint)` gives the `count`
values `v[i] = lo + i * step` with `v[0] = lo`, the uniform step being `(hi - lo)` divided
by `count - 1` segments when the right endpoint is included (so that `v[count-1] = hi`)
and by `count` segments when it is not; construction fails if `count < 1` or if
`lo == hi` with `count > 1`. -/
def AxisSpacing.step {R : Type} [LinearOrderedField R] (lo hi : R) (count : Int)
    (endpoint : Bool) : R :=
  let segments : Int := if endpoint then count - 1 else count
  if segments = 0 then 0 else (hi - lo) / (segments : R)

/-- Modelled from the spec: see `AxisSpacing.step`. -/
def AxisSpacing.values {R : Type} [LinearOrderedField R] (lo hi : R) (count : Int)
    (endpoint : Bool) : Option (List R) :=
  if count < 1 ∨ (lo = hi ∧ 1 < count) then none
  else some ((List.range count.toNat).map fun (i : Nat) =>
    lo + ((i : Int) : R) * AxisSpacing.step lo hi count endpoint)

/-- Modelled from the spec: the regular construction mode of the per-row table (the
constructors of `XSpace` are declared in `Structured.h`, their bodies are not among the
sources).  Following the spec, one `AxisSpacing` is applied identically to each of the
`ny` rows of the row axis: `nx[j]` is its count, `xmin[j]`, `xmax[j]` its first and last
value and `dx[j]` its step, and `nxmin`, `nxmax`, `min`, `max` aggregate them. -/
def XSpace.regular {R : Type} [LinearOrderedField R] (lo hi : R) (count : Int)
    (endpoint : Bool) (ny : Nat) : Option (XSpace R) := do
  let v ← AxisSpacing.values lo hi count endpoint
  let first ← v.head?
  let last ← v.getLast?
  pure
    { ny_ := (ny : Int), nxmin_ := count, nxmax_ := count
      nx_ := List.replicate ny count
      xmin_ := List.replicate ny first
      xmax_ := List.replicate ny last
      dx_ := List.replicate ny (AxisSpacing.step lo hi count endpoint)
      min_ := min first last
      max_ := max first last }

/-- Modelled from the spec: construction of a grid with its periodicity derived, that is
`Structured.construct` followed by `Structured.computeTruePeriodicity` (the spec has
`periodic_x` precomputed at construction). -/
def Structured.constructGrid {R : Type} [LinearOrderedField R] (eps : R) (xspace : XSpace R)
    (yspace : List R) (projection : Projection R) : Option (Structured R) :=
  (Structured.construct xspace yspace projection false).map
    (Structured.computeTruePeriodicity eps)

/-- The interface of `ElementType` that `HybridElements` calls: `name()`, `nb_nodes()`
and `nb_edges()`. -/
structure ElementType where
  name : String
  nb_nodes : Nat
  nb_edges : Nat
deriving DecidableEq, Repr

/-- A `Field` as `HybridElements` sees it: its name, the element type it was created
for and its shape (`ArrayShape`, a vector of extents). -/
structure Field where
  name : String
  datatype : String
  shape : List Nat
deriving DecidableEq, Repr

/-- The two ways an operation of `HybridElements` raises: a failed `ASSERT` and a thrown
`eckit::Exception`. -/
inductive Raised where
  | assertion (condition : String)
  | exception (msg : String)
deriving DecidableEq, Repr

/-- The data members of `HybridElements`.  `fields_` is the `FieldMap`, a map from names
to fields, held as a list of entries with distinct keys. -/
structure HybridElements where
  size_ : Nat
  elements_size_ : List Nat
  elements_begin_ : List Nat
  node_connectivity_array_ : List Int
  nodes_begin_ : List Nat
  nb_nodes_ : List Nat
  nb_edges_ : List Nat
  type_idx_ : List Nat
  element_types_ : List ElementType
  fields_ : List (String × Field)
deriving DecidableEq, Repr

/-- `std::vector::resize( n )`: the first `n` entries are kept and the vector is filled
up to `n` entries with `fill`. -/
def vecResize {α : Type} (v : List α) (n : Nat) (fill : α) : List α :=
  v.take n ++ List.replicate (n - v.length) fill

/-- `fields_.erase( name )`. -/
def FieldMap.erase (m : List (String × Field)) (name : String) : List (String × Field) :=
  m.filter (fun e => e.1 != name)

/-- `fields_[name] = field`: the entry of `name` is created or overwritten. -/
def FieldMap.assign (m : List (String × Field)) (name : String) (field : Field) :
    List (String × Field) :=
  (name, field) :: FieldMap.erase m name

/-- `fields_.find( name )`, with `none` for `fields_.end()`. -/
def FieldMap.find (m : List (String × Field)) (name : String) : Option Field :=
  m.lookup name

/-- Modelled from the spec: `has_field` is defined in `HybridElements.h`, which is not
among the sources, and the spec does not describe it.  It is taken as the presence test
of the field map, `fields_.find( name ) != fields_.end()`, the reading the messages of
`add`, `remove_field` and `field` give it ("already has a field with this name"). -/
def HybridElements.has_field (he : HybridElements) (name : String) : Bool :=
  (FieldMap.find he.fields_ name).isSome

/-- Modelled from the spec: `size()` is defined in `HybridElements.h`; it is taken as the
accessor of `size_`, the member the constructor sets to `0` and `resize` sets. -/
def HybridElements.size (he : HybridElements) : Nat := he.size_

/-- Modelled from the spec: `nb_types()` is defined in `HybridElements.h`; it is taken as
`element_types_.size()`, the bound `add` gives to the loop over `elements_` right after
`elements_.resize( element_types_.size() )`. -/
def HybridElements.nb_types (he : HybridElements) : Nat := he.element_types_.length

/-- `Field::create<T>( name, shape )`, with the name of `T` kept as a label. -/
def Field.create (datatype : String) (name : String) (shape : List Nat) : Field :=
  { name := name, datatype := datatype, shape := shape }

/-- `HybridElements::add( Field* field )`; `none` is the null pointer.  The first
component is the object after the call, also when the call raises; the second is what
the call raises or the field the returned reference points to. -/
def HybridElements.add_field (he : HybridElements) (field : Option Field) :
    HybridElements × Except Raised Field :=
  match field with
  | none => (he, .error (.assertion "field != NULL"))
  | some f =>
    if f.name = "" then (he, .error (.assertion "! field->name().empty()"))
    else if he.has_field f.name then
      (he, .error (.exception ("Trying to add field '" ++ f.name ++
        "' to Nodes, but Nodes already has a field with this name.")))
    else ({ he with fields_ := FieldMap.assign he.fields_ f.name f }, .ok f)

/-- `HybridElements::remove_field( name )`.  The first component is the object after
the call, also when the call raises. -/
def HybridElements.remove_field (he : HybridElements) (name : String) :
    HybridElements × Except Raised Unit :=
  if !he.has_field name then
    (he, .error (.exception ("Trying to remove field `" ++ name ++
      "' in Nodes, but no field with this name is present in Nodes.")))
  else ({ he with fields_ := FieldMap.erase he.fields_ name }, .ok ())

/-- `HybridElements::field( name )`.  The last branch stands for dereferencing
`fields_.end()`; it is not reached, `has_field` being the same lookup. -/
def HybridElements.field (he : HybridElements) (name : String) : Except Raised Field :=
  if !he.has_field name then
    .error (.exception ("Trying to access field `" ++ name ++
      "' in Nodes, but no field with this name is present in Nodes."))
  else
    match FieldMap.find he.fields_ name with
    | some f => .ok f
    | none => .error (.assertion "fields_.find(name) != fields_.end()")

/-- The loop of `HybridElements::resize` over the field map: each field gets the shape
it had with `shape[0]` set to `size`.  `shape[0]` of a field without extents is a write
outside the vector, which is `none`. -/
def FieldMap.resize (size : Nat) : List (String × Field) → Option (List (String × Field))
  | [] => some []
  | (name, f) :: rest =>
    if f.shape = [] then none
    else
      match FieldMap.resize size rest with
      | none => none
      | some r => some ((name, { f with shape := f.shape.set 0 size }) :: r)

/-- `HybridElements::resize( size )`. -/
def HybridElements.resize (he : HybridElements) (size : Nat) : Option HybridElements :=
  match FieldMap.resize size he.fields_ with
  | none => none
  | some fs => some { he with size_ := size, fields_ := fs }

/-- The constructor `HybridElements::HybridElements()`: the member initialisers and the
four calls of `add( Field* )`; a call that raises ends the constructor. -/
def HybridElements.ctor : Except Raised HybridElements := do
  let h0 : HybridElements :=
    { size_ := 0, elements_size_ := [], elements_begin_ := [0],
      node_connectivity_array_ := [], nodes_begin_ := [0], nb_nodes_ := [],
      nb_edges_ := [], type_idx_ := [], element_types_ := [], fields_ := [] }
  let (h1, global_index) := h0.add_field (some (Field.create "gidx_t" "glb_idx" [h0.size, 1]))
  let _ ← global_index
  let (h2, remote_index) := h1.add_field (some (Field.create "int" "remote_idx" [h1.size, 1]))
  let _ ← remote_index
  let (h3, partition) := h2.add_field (some (Field.create "int" "partition" [h2.size, 1]))
  let _ ← partition
  let (h4, ghost) := h3.add_field (some (Field.create "int" "ghost" [h3.size, 1]))
  let _ ← ghost
  pure h4

/-- The macro `FORTRAN_BASE`: `1` when `ATLAS_HAVE_FORTRAN` is defined and `0` otherwise.
The definition of `ATLAS_HAVE_FORTRAN` belongs to the configuration of the build and is
the argument. -/
def FORTRAN_BASE (haveFortran : Bool) : Int := if haveFortran then 1 else 0

/-- The first loop of `add`, `for( size_t e=old_size; e<new_size; ++e )`, with `e` the
current element and the first argument the `new_size - e` iterations left. -/
def HybridElements.addLoop (nb_nodes nb_edges : Nat) :
    Nat → Nat → HybridElements → HybridElements
  | 0, _, he => he
  | k + 1, e, he =>
    HybridElements.addLoop nb_nodes nb_edges k (e + 1)
      { he with
        nb_nodes_ := he.nb_nodes_.set e nb_nodes
        nb_edges_ := he.nb_edges_.set e nb_edges
        type_idx_ := he.type_idx_.set e he.element_types_.length
        nodes_begin_ := he.nodes_begin_.set (e + 1) (he.nodes_begin_.getD e 0 + nb_nodes) }

/-- The second loop of `add`,
`for( size_t j=0; c<node_connectivity_array_.size(); ++c, ++j )`, on the array `conn`
points to, with the first argument the `node_connectivity_array_.size() - c` iterations
left.  `connectivity` is a pointer to the entries the caller provides; reading past them
is `none`. -/
def HybridElements.connLoop (connectivity : List Int) (add_base : Int) :
    Nat → Nat → Nat → List Int → Option (List Int)
  | 0, _, _, conn => some conn
  | k + 1, c, j, conn =>
    match connectivity[j]? with
    | none => none
    | some v =>
      HybridElements.connLoop connectivity add_base k (c + 1) (j + 1) (conn.set c (v + add_base))

/-- `HybridElements::add( element_type, nb_elements, connectivity, fortran_array )`.
Returns the object after the call and the returned index; `none` when the call reads
`connectivity` past its entries or resizes a field without extents. -/
def HybridElements.add (haveFortran : Bool) (he : HybridElements) (element_type : ElementType)
    (nb_elements : Nat) (connectivity : List Int) (fortran_array : Bool) :
    Option (HybridElements × Nat) :=
  let etype := element_type
  let old_size := he.size
  let new_size := old_size + nb_elements
  let nb_nodes := etype.nb_nodes
  let nb_edges := etype.nb_edges
  let c := he.node_connectivity_array_.length
  let h1 : HybridElements :=
    { he with
      node_connectivity_array_ :=
        vecResize he.node_connectivity_array_ (c + nb_elements * nb_nodes) 0
      nb_nodes_ := vecResize he.nb_nodes_ new_size 0
      nb_edges_ := vecResize he.nb_edges_ new_size 0
      type_idx_ := vecResize he.type_idx_ new_size 0
      nodes_begin_ := vecResize he.nodes_begin_ (new_size + 1) 0 }
  let h2 := HybridElements.addLoop nb_nodes nb_edges (new_size - old_size) old_size h1
  let add_base : Int := if fortran_array then 0 else FORTRAN_BASE haveFortran
  match HybridElements.connLoop connectivity add_base
      (h2.node_connectivity_array_.length - c) c 0 h2.node_connectivity_array_ with
  | none => none
  | some conn =>
    let h3 : HybridElements :=
      { h2 with
        node_connectivity_array_ := conn
        elements_begin_ := h2.elements_begin_ ++ [new_size]
        elements_size_ := h2.elements_size_ ++ [nb_elements]
        element_types_ := h2.element_types_ ++ [etype] }
    match h3.resize new_size with
    | none => none
    | some h4 => some (h4, h4.element_types_.length - 1)

/-- `HybridElements::add( element_type, nb_elements, connectivity )`, the overload that
passes `fortran_array = false`. -/
def HybridElements.add_c (haveFortran : Bool) (he : HybridElements)
    (element_type : ElementType) (nb_elements : Nat) (connectivity : List Int) :
    Option (HybridElements × Nat) :=
  HybridElements.add haveFortran he element_type nb_elements connectivity false

/-- A mesh-free example: the constructed object after a first `add` of two triangles
and a second of one quadrilateral, both with zero-based connectivity. -/
def hybridExample : Option (HybridElements × Nat) :=
  match HybridElements.ctor with
  | .error _ => none
  | .ok h0 =>
    match HybridElements.add true h0 ⟨"Triangle", 3, 3⟩ 2 [0, 1, 2, 1, 3, 2] false with
    | none => none
    | some (h1, _) => HybridElements.add true h1 ⟨"Quadrilateral", 4, 4⟩ 1 [4, 5, 6, 7] false

/-- The consistency of the offset tables of a `HybridElements` with its size, its
per-element vectors and its connectivity array.  Reads are `Option`-valued, so every
equation also says that the index is within the vector. -/
structure HybridElements.Consistent (he : HybridElements) : Prop where
  nb_nodes_len : he.nb_nodes_.length = he.size
  nb_edges_len : he.nb_edges_.length = he.size
  type_idx_len : he.type_idx_.length = he.size
  nodes_begin_len : he.nodes_begin_.length = he.size + 1
  nodes_begin_zero : he.nodes_begin_[0]? = some 0
  nodes_begin_step : ∀ e : Nat, e < he.size →
    ∃ a n : Nat, he.nodes_begin_[e]? = some a ∧ he.nb_nodes_[e]? = some n ∧
      he.nodes_begin_[e + 1]? = some (a + n)
  nodes_begin_last : he.nodes_begin_[he.size]? = some he.node_connectivity_array_.length
  elements_size_len : he.elements_size_.length = he.nb_types
  elements_begin_len : he.elements_begin_.length = he.nb_types + 1
  elements_begin_zero : he.elements_begin_[0]? = some 0
  elements_begin_step : ∀ t : Nat, t < he.nb_types →
    ∃ a n : Nat, he.elements_begin_[t]? = some a ∧ he.elements_size_[t]? = some n ∧
      he.elements_begin_[t + 1]? = some (a + n)
  elements_begin_last : he.elements_begin_[he.nb_types]? = some he.size

/-- Every field of the map has a first extent, the one `resize` writes. -/
def FieldMap.Sized (m : List (String × Field)) : Prop :=
  ∀ e ∈ m, e.2.shape ≠ []

/-- The objects obtained by the constructor followed by calls of `add` that return,
together with the `nb_elements` of the calls in their order. -/
inductive HybridElements.Built (haveFortran : Bool) : List Nat → HybridElements → Prop where
  | ctor (he : HybridElements) (h : HybridElements.ctor = .ok he) :
      HybridElements.Built haveFortran [] he
  | add (added : List Nat) (he he' : HybridElements) (element_type : ElementType)
      (nb_elements : Nat) (connectivity : List Int) (fortran_array : Bool) (idx : Nat)
      (hb : HybridElements.Built haveFortran added he)
      (h : HybridElements.add haveFortran he element_type nb_elements connectivity
        fortran_array = some (he', idx)) :
      HybridElements.Built haveFortran (added ++ [nb_elements]) he'

/-- The object the constructor returns. -/
def hybridConstructed : HybridElements :=
  { size_ := 0, elements_size_ := [], elements_begin_ := [0],
    node_connectivity_array_ := [], nodes_begin_ := [0], nb_nodes_ := [],
    nb_edges_ := [], type_idx_ := [], element_types_ := [],
    fields_ := [("ghost", Field.create "int" "ghost" [0, 1]),
      ("partition", Field.create "int" "partition" [0, 1]),
      ("remote_idx", Field.create "int" "remote_idx" [0, 1]),
      ("glb_idx", Field.create "gidx_t" "glb_idx" [0, 1])] }

/-- The constructed object after the `add` of two triangles with the zero-based
connectivity `0 1 2, 1 3 2`, in a build with `FORTRAN_BASE = 1`. -/
def hybridTriangles : HybridElements :=
  { size_ := 2, elements_size_ := [2], elements_begin_ := [0, 2],
    node_connectivity_array_ := [1, 2, 3, 2, 4, 3], nodes_begin_ := [0, 3, 6],
    nb_nodes_ := [3, 3], nb_edges_ := [3, 3], type_idx_ := [0, 0],
    element_types_ := [⟨"Triangle", 3, 3⟩],
    fields_ := [("ghost", Field.create "int" "ghost" [2, 1]),
      ("partition", Field.create "int" "partition" [2, 1]),
      ("remote_idx", Field.create "int" "remote_idx" [2, 1]),
      ("glb_idx", Field.create "gidx_t" "glb_idx" [2, 1])] }

/-- The object `hybridTriangles` after the `add` of one quadrilateral with the
zero-based connectivity `4 5 6 7`. -/
def hybridMesh : HybridElements :=
  { size_ := 3, elements_size_ := [2, 1], elements_begin_ := [0, 2, 3],
    node_connectivity_array_ := [1, 2, 3, 2, 4, 3, 5, 6, 7, 8],
    nodes_begin_ := [0, 3, 6, 10], nb_nodes_ := [3, 3, 4], nb_edges_ := [3, 3, 4],
    type_idx_ := [0, 0, 1],
    element_types_ := [⟨"Triangle", 3, 3⟩, ⟨"Quadrilateral", 4, 4⟩],
    fields_ := [("ghost", Field.create "int" "ghost" [3, 1]),
      ("partition", Field.create "int" "partition" [3, 1]),
      ("remote_idx", Field.create "int" "remote_idx" [3, 1]),
      ("glb_idx", Field.create "gidx_t" "glb_idx" [3, 1])] }

/-- The entries of the map have distinct keys and every field is stored under its own
name. -/
def FieldMap.Unique (m : List (String × Field)) : Prop :=
  (m.map Prod.fst).Nodup ∧ ∀ e ∈ m, e.1 = e.2.name

/-! ## Creation of a field from an array specification
(`src/atlas/field/FieldCreatorArraySpec.cc`)

Conventions of this part.

* `eckit::Parametrisation` is an external collaborator; `createField` asks it for five
  names, and it is the record of the five answers, `none` when `get` returns `false`.
* `array::DataType` is declared in a header that is not among the sources.  A data type
  is the kind it wraps; the kind of `double`, the validity test of kinds and the
  conversion of a name to a kind (which raises on a name it does not know) are the
  arguments of `createField`, collected in `DataTypeInterface`.
* `long` is `Int`.  `idx_t` is declared in a header that is not among the sources; it is
  a signed integer type, and the number of its bits is an argument of `createField`
  (`32` where `idx_t` is `int`).  `reverse_copy` and `assign` convert every extent from
  `long` to `idx_t`; the conversion is `idx_t_of_long`, which wraps a value that `idx_t`
  cannot hold.
* `FieldImpl::create` is external and is the record of its three arguments.
-/

/-- The answers of an `eckit::Parametrisation` to the five `get` of `createField`. -/
structure Parametrisation where
  shape : Option (List Int)
  fortran : Option Bool
  datatype : Option String
  kind : Option Int
  name : Option String
deriving DecidableEq, Repr

/-- The part of `array::DataType` that `createField` calls: `kind<double>()`,
`kind_valid( kind )` and the conversion of a name to a kind inside
`DataType( datatype_str )`, with `none` when that constructor raises. -/
structure DataTypeInterface where
  kind_double : Int
  kind_valid : Int → Bool
  str_to_kind : String → Option Int

/-- An `array::DataType`: the kind it wraps. -/
structure DataType where
  kind : Int
deriving DecidableEq, Repr

/-- `array::DataType::create<double>()`. -/
def DataType.create_double (dt : DataTypeInterface) : DataType := ⟨dt.kind_double⟩

/-- What `FieldImpl::create( name, datatype, shape )` is given. -/
structure FieldImpl where
  name : String
  datatype : DataType
  shape : List Int
deriving DecidableEq, Repr

/-- `FieldImpl::create( name, datatype, shape )`. -/
def FieldImpl.create (name : String) (datatype : DataType) (shape : List Int) : FieldImpl :=
  { name := name, datatype := datatype, shape := shape }

/-- What `createField` raises: an exception of `throw_Exception` with its message, or
the exception of `DataType( datatype_str )` for a name it does not know. -/
inductive CreateRaised where
  | exception (msg : String)
  | datatype (datatype_str : String)
deriving DecidableEq, Repr

/-- The conversion of a `long` to an `idx_t` of `idx_bits` bits: the value congruent
modulo `2 ^ idx_bits` that lies in `[-2 ^ idx_bits / 2, 2 ^ idx_bits / 2)`. -/
def idx_t_of_long (idx_bits : Nat) (v : Int) : Int :=
  (v + 2 ^ idx_bits / 2) % 2 ^ idx_bits - 2 ^ idx_bits / 2

/-- The values an `idx_t` of `idx_bits` bits holds. -/
@[reducible] def idx_t_holds (idx_bits : Nat) (v : Int) : Prop :=
  -(2 ^ idx_bits / 2) ≤ v ∧ v < 2 ^ idx_bits / 2

/-- `FieldCreatorArraySpec::createField( params )`, with `idx_t` of `idx_bits` bits.
`std::vector<idx_t> s` is filled from `std::vector<long> shape` by `reverse_copy` or by
`assign`, either of which converts entry by entry. -/
def FieldCreatorArraySpec.createField (idx_bits : Nat) (dt : DataTypeInterface)
    (params : Parametrisation) : Except CreateRaised FieldImpl :=
  match params.shape with
  | none => .error (.exception "Could not find parameter 'shape' in Parametrisation")
  | some shape =>
    let fortran : Bool := params.fortran.getD false
    let s : List Int :=
      if fortran then shape.reverse.map (idx_t_of_long idx_bits)
      else shape.map (idx_t_of_long idx_bits)
    let datatype : Except CreateRaised DataType :=
      match params.datatype with
      | some datatype_str =>
        match dt.str_to_kind datatype_str with
        | none => .error (.datatype datatype_str)
        | some k => .ok ⟨k⟩
      | none =>
        let kind : Int := params.kind.getD dt.kind_double
        if !dt.kind_valid kind then
          .error (.exception "Could not create field. kind parameter unrecognized")
        else .ok ⟨kind⟩
    match datatype with
    | .error e => .error e
    | .ok datatype =>
      let name : String := params.name.getD ""
      .ok (FieldImpl.create name datatype s)

/-- An instance of the interface of `DataType` with four kinds and their names. -/
def exampleDataTypes : DataTypeInterface :=
  { kind_double := 8
    kind_valid := fun k => k == -4 || k == -8 || k == 4 || k == 8
    str_to_kind := fun s =>
      if s = "int32" then some (-4)
      else if s = "int64" then some (-8)
      else if s = "real32" then some 4
      else if s = "real64" then some 8
      else none }

/-- Parameters asking for a field `f` of shape `(2, 3, 4)` in the Fortran order, with
neither `datatype` nor `kind`. -/
def fortranParams : Parametrisation :=
  { shape := some [2, 3, 4], fortran := some true, datatype := none, kind := none,
    name := some "f" }

/-- Parameters asking for a field of shape `(2147483653, 2)`, whose first extent is above
the largest `int`, in the given order. -/
def wideParams : Parametrisation :=
  { shape := some [2147483653, 2], fortran := none, datatype := none, kind := none,
    name := none }

/-- Parameters with a `kind` that is not valid and no `datatype`. -/
def badKindParams : Parametrisation :=
  { shape := some [2, 3], fortran := none, datatype := none, kind := some 3, name := none }

/-! ## Basic facts about vector reads and the row-major enumeration -/

theorem vecAt_natCast {α : Type} (v : List α) (j : Nat) : vecAt v (j : Int) = v[j]? := by
  simp [vecAt]

theorem vecAt_eq_some {α : Type} (v : List α) (j : Int) (a : α) :
    vecAt v j = some a ↔ 0 ≤ j ∧ v[j.toNat]? = some a := by
  unfold vecAt
  split
  · constructor
    · intro h; cases h
    · intro h; omega
  · constructor
    · intro h; exact ⟨by omega, h⟩
    · intro h; exact h.2

theorem vecAt_of_lt {α : Type} (v : List α) (j : Int) (h0 : 0 ≤ j) (h1 : j < (v.length : Int)) :
    ∃ a, vecAt v j = some a ∧ v[j.toNat]? = some a := by
  have hlt : j.toNat < v.length := by omega
  refine ⟨v[j.toNat], ?_, ?_⟩
  · rw [vecAt_eq_some]; exact ⟨h0, List.getElem?_eq_getElem hlt⟩
  · exact List.getElem?_eq_getElem hlt

theorem rowMajorFrom_nil (j0 : Nat) : rowMajorFrom j0 [] = [] := rfl

theorem rowMajorFrom_cons (j0 : Nat) (n : Int) (ns : List Int) :
    rowMajorFrom j0 (n :: ns) =
      ((List.range n.toNat).map fun (i : Nat) => ((i : Int), (j0 : Int))) ++
        rowMajorFrom (j0 + 1) ns := by
  simp [rowMajorFrom, List.enumFrom_cons, List.flatMap_cons]

theorem length_rowMajorFrom (l : List Int) (hpos : ∀ n ∈ l, 0 ≤ n) (j0 : Nat) :
    ((rowMajorFrom j0 l).length : Int) = l.sum := by
  induction l generalizing j0 with
  | nil => simp [rowMajorFrom_nil]
  | cons m l ih =>
    have hm : 0 ≤ m := hpos m (List.mem_cons_self _ _)
    have ih1 := ih (fun n hn => hpos n (List.mem_cons_of_mem _ hn)) (j0 + 1)
    rw [rowMajorFrom_cons]
    simp only [List.length_append, List.length_map, List.length_range, List.sum_cons]
    push_cast
    omega

theorem sum_nonneg_of_forall (l : List Int) (hpos : ∀ n ∈ l, 0 ≤ n) : 0 ≤ l.sum := by
  induction l with
  | nil => simp
  | cons m l ih =>
    have hm : 0 ≤ m := hpos m (List.mem_cons_self _ _)
    have := ih (fun n hn => hpos n (List.mem_cons_of_mem _ hn))
    simp only [List.sum_cons]
    omega

theorem getElem?_rowMajorFrom (l : List Int) (hpos : ∀ n ∈ l, 0 ≤ n) (j0 j i : Nat)
    (hj : j < l.length) (hi : (i : Int) < l[j]) :
    (rowMajorFrom j0 l)[((l.take j).sum).toNat + i]? = some ((i : Int), ((j0 + j : Nat) : Int)) := by
  induction l generalizing j0 j with
  | nil => simp at hj
  | cons m l ih =>
    have hm : 0 ≤ m := hpos m (List.mem_cons_self _ _)
    have hpos1 : ∀ n ∈ l, 0 ≤ n := fun n hn => hpos n (List.mem_cons_of_mem _ hn)
    rw [rowMajorFrom_cons]
    cases j with
    | zero =>
      simp only [List.getElem_cons_zero] at hi
      have hlt : i < m.toNat := by omega
      simp only [List.take_zero, List.sum_nil, Int.toNat_zero, Nat.zero_add, Nat.add_zero]
      rw [List.getElem?_append_left (by simpa using hlt)]
      simp [List.getElem?_map, List.getElem?_range hlt]
    | succ j =>
      simp only [List.length_cons, Nat.add_lt_add_iff_right] at hj
      simp only [List.getElem_cons_succ] at hi
      have hs : 0 ≤ (l.take j).sum :=
        sum_nonneg_of_forall _ (fun n hn => hpos1 n (List.mem_of_mem_take hn))
      have hidx : ((List.take (j + 1) (m :: l)).sum).toNat + i
          = m.toNat + (((l.take j).sum).toNat + i) := by
        simp only [List.take_succ_cons, List.sum_cons]
        omega
      rw [hidx, List.getElem?_append_right (by simp)]
      simp only [List.length_map, List.length_range, Nat.add_sub_cancel_left]
      rw [ih hpos1 (j0 + 1) j hj hi]
      congr 2
      push_cast
      omega

theorem sum_take_le (l : List Int) (hpos : ∀ n ∈ l, 0 ≤ n) (k : Nat) :
    (l.take k).sum ≤ l.sum := by
  have h := List.sum_take_add_sum_drop l k
  have hd : 0 ≤ (l.drop k).sum :=
    sum_nonneg_of_forall _ (fun n hn => hpos n (List.mem_of_mem_drop hn))
  omega

/-! ## Cursors of a well-formed grid -/

namespace Structured

variable {R : Type}

theorem WellFormed.nx_nonneg {g : Structured R} (wf : g.WellFormed) : ∀ n ∈ g.nx_, 0 ≤ n :=
  fun n hn => by have := wf.nx_pos n hn; omega

/-- A cursor inside the grid, in terms of natural-number positions in the row table. -/
theorem InRow.unpack {g : Structured R} {i j : Int} (h : g.InRow i j) :
    ∃ (j1 i1 : Nat) (hj : j1 < g.nx_.length),
      j = (j1 : Int) ∧ i = (i1 : Int) ∧ j1 < g.y_.length ∧ g.nx j = some g.nx_[j1] ∧
        (i1 : Int) < g.nx_[j1] := by
  obtain ⟨h0, h1, h2, m, hm, him⟩ := h
  obtain ⟨j1, rfl⟩ := Int.eq_ofNat_of_zero_le h0
  obtain ⟨i1, rfl⟩ := Int.eq_ofNat_of_zero_le h2
  simp only [nx, vecAt_natCast] at hm
  obtain ⟨hj, hget⟩ := List.getElem?_eq_some_iff.mp hm
  refine ⟨j1, i1, hj, rfl, rfl, ?_, ?_, ?_⟩
  · simp only [ny] at h1; omega
  · simp only [nx, vecAt_natCast]; rw [List.getElem?_eq_getElem hj]
  · rw [hget]; exact him

theorem InRow.of_nat {g : Structured R} (wf : g.WellFormed) {i1 j1 : Nat}
    (hj : j1 < g.nx_.length) (hi : (i1 : Int) < g.nx_[j1]) : g.InRow (i1 : Int) (j1 : Int) := by
  refine ⟨by omega, ?_, by omega, g.nx_[j1], ?_, hi⟩
  · have := wf.nx_len; simp only [ny]; omega
  · simp only [nx, vecAt_natCast]; rw [List.getElem?_eq_getElem hj]

theorem linearIndex_natCast (g : Structured R) (i : Int) (j1 : Nat) :
    g.linearIndex i (j1 : Int) = (g.nx_.take j1).sum + i := by
  simp [linearIndex]

theorem linearIndex_end {g : Structured R} (wf : g.WellFormed) :
    g.linearIndex 0 g.ny = g.size := by
  have h := wf.nx_len
  simp only [ny, linearIndex_natCast, size, wf.npts_eq, ← h, List.take_length]
  omega

theorem InRow.linearIndex_bounds {g : Structured R} (wf : g.WellFormed) {i j : Int}
    (h : g.InRow i j) : 0 ≤ g.linearIndex i j ∧ g.linearIndex i j < g.size := by
  obtain ⟨j1, i1, hj, rfl, rfl, -, -, hi⟩ := h.unpack
  rw [linearIndex_natCast]
  have h1 := List.sum_take_succ g.nx_ j1 hj
  have h2 := sum_take_le g.nx_ wf.nx_nonneg (j1 + 1)
  have h3 : 0 ≤ (g.nx_.take j1).sum :=
    sum_nonneg_of_forall _ (fun n hn => wf.nx_nonneg n (List.mem_of_mem_take hn))
  simp only [size, wf.npts_eq]
  omega

theorem InRow.getElem?_rowMajor {g : Structured R} (wf : g.WellFormed) {i j : Int}
    (h : g.InRow i j) : (rowMajor g.nx_)[(g.linearIndex i j).toNat]? = some (i, j) := by
  obtain ⟨j1, i1, hj, rfl, rfl, -, -, hi⟩ := h.unpack
  have h3 : 0 ≤ (g.nx_.take j1).sum :=
    sum_nonneg_of_forall _ (fun n hn => wf.nx_nonneg n (List.mem_of_mem_take hn))
  have hidx : (g.linearIndex (i1 : Int) (j1 : Int)).toNat = ((g.nx_.take j1).sum).toNat + i1 := by
    rw [linearIndex_natCast]; omega
  rw [hidx, rowMajor, getElem?_rowMajorFrom g.nx_ wf.nx_nonneg 0 j1 i1 hj hi]
  simp

/-- One row-major step from a cursor inside the grid: either the next column of the same
row, or the first column of the next row (the end position after the last row). -/
theorem InRow.step {g : Structured R} (wf : g.WellFormed) {i j : Int} (h : g.InRow i j) :
    ∃ m, g.nx j = some m ∧
      ((i + 1 = m ∧ g.CursorAt (0, j + 1) (g.linearIndex i j + 1)) ∨
        (i + 1 ≠ m ∧ g.CursorAt (i + 1, j) (g.linearIndex i j + 1))) := by
  obtain ⟨j1, i1, hj, rfl, rfl, hjy, hnx, hi⟩ := h.unpack
  refine ⟨g.nx_[j1], hnx, ?_⟩
  have hsum := List.sum_take_succ g.nx_ j1 hj
  by_cases hlast : (i1 : Int) + 1 = g.nx_[j1]
  · left
    refine ⟨hlast, ?_⟩
    by_cases hend : j1 + 1 = g.nx_.length
    · right
      have hl := wf.nx_len
      refine ⟨by simp only [ny]; congr 1; omega, ?_⟩
      rw [linearIndex_natCast, size, wf.npts_eq]
      have : (g.nx_.take (j1 + 1)).sum = g.nx_.sum := by rw [hend, List.take_length]
      omega
    · left
      have hj2 : j1 + 1 < g.nx_.length := by omega
      have hpos : 1 ≤ g.nx_[j1 + 1] := wf.nx_pos _ (List.getElem_mem _)
      have hin : g.InRow ((0 : Nat) : Int) ((j1 + 1 : Nat) : Int) :=
        InRow.of_nat wf hj2 (by push_cast; omega)
      push_cast at hin
      refine ⟨hin, ?_⟩
      have e : ((j1 : Int) + 1) = ((j1 + 1 : Nat) : Int) := by push_cast; rfl
      rw [e, linearIndex_natCast, linearIndex_natCast]
      omega
  · right
    refine ⟨hlast, Or.inl ⟨?_, ?_⟩⟩
    · have hin : g.InRow ((i1 + 1 : Nat) : Int) (j1 : Int) :=
        InRow.of_nat wf hj (by push_cast; omega)
      push_cast at hin
      exact hin
    · rw [linearIndex_natCast, linearIndex_natCast]; omega

theorem CursorAt.begin {g : Structured R} (wf : g.WellFormed) : g.CursorAt (0, 0) 0 := by
  by_cases h : g.nx_.length = 0
  · right
    have hl := wf.nx_len
    have hnil : g.nx_ = [] := List.length_eq_zero.mp h
    refine ⟨by simp only [ny]; congr 1; omega, ?_⟩
    simp [size, wf.npts_eq, hnil]
  · left
    have hj : 0 < g.nx_.length := by omega
    have hpos : 1 ≤ g.nx_[0] := wf.nx_pos _ (List.getElem_mem _)
    have hin : g.InRow ((0 : Nat) : Int) ((0 : Nat) : Int) :=
      InRow.of_nat wf hj (by push_cast; omega)
    refine ⟨by simpa using hin, ?_⟩
    simp [linearIndex]

theorem CursorAt.inRow {g : Structured R} {c : Int × Int} {n : Int}
    (h : g.CursorAt c n) (hn : n < g.size) : g.InRow c.1 c.2 ∧ n = g.linearIndex c.1 c.2 := by
  rcases h with h | ⟨-, h⟩
  · exact h
  · omega

theorem CursorAt.eq_end {g : Structured R} (wf : g.WellFormed) {c : Int × Int}
    (h : g.CursorAt c g.size) : c = (0, g.ny) := by
  rcases h with ⟨h, e⟩ | ⟨h, -⟩
  · have := h.linearIndex_bounds wf; omega
  · exact h

theorem CursorAt.bounds {g : Structured R} (wf : g.WellFormed) {c : Int × Int} {n : Int}
    (h : g.CursorAt c n) : 0 ≤ n ∧ n ≤ g.size := by
  rcases h with ⟨h, e⟩ | ⟨-, e⟩
  · have := h.linearIndex_bounds wf; omega
  · have := sum_nonneg_of_forall _ wf.nx_nonneg
    simp only [size, wf.npts_eq] at e ⊢; omega

end Structured

/-! ## The unfiltered planar iterator on a well-formed grid -/

section PlanarIterator

variable {R : Type} [Add R] [Mul R] [IntCast R]

theorem Structured.InRow.xy_eq_some {g : Structured R} (wf : g.WellFormed) {i j : Int}
    (h : g.InRow i j) : ∃ pt, g.xy i j = some pt := by
  obtain ⟨h0, h1, -, -⟩ := h
  simp only [Structured.ny] at h1
  obtain ⟨a, ha, -⟩ := vecAt_of_lt g.xmin_ j h0 (by rw [wf.xmin_len]; exact h1)
  obtain ⟨d, hd, -⟩ := vecAt_of_lt g.dx_ j h0 (by rw [wf.dx_len]; exact h1)
  obtain ⟨b, hb, -⟩ := vecAt_of_lt g.y_ j h0 h1
  exact ⟨⟨a + (i : R) * d, b⟩, by simp [Structured.xy, Structured.x, Structured.y, ha, hd, hb]⟩

omit [Add R] [Mul R] [IntCast R] in
theorem IteratorXY.incr_of_cursorAt {g : Structured R} (wf : g.WellFormed) {it : IteratorXY}
    {n : Int} (h : g.CursorAt (it.i_, it.j_) n) (hn : n < g.size) :
    ∃ it1, IteratorXY.incr g it = some it1 ∧ g.CursorAt (it1.i_, it1.j_) (n + 1) := by
  obtain ⟨hin, rfl⟩ := h.inRow hn
  obtain ⟨m, hm, hstep⟩ := hin.step wf
  rcases hstep with ⟨e, hc⟩ | ⟨e, hc⟩
  · exact ⟨⟨0, it.j_ + 1⟩, by simp [IteratorXY.incr, hm, e], hc⟩
  · exact ⟨⟨it.i_ + 1, it.j_⟩, by simp [IteratorXY.incr, hm, e], hc⟩

theorem IteratorXY.next_of_inRow {g : Structured R} (wf : g.WellFormed) {it : IteratorXY}
    (h : g.InRow it.i_ it.j_) :
    ∃ pt it1, g.xy it.i_ it.j_ = some pt ∧ IteratorXY.incr g it = some it1 ∧
      IteratorXY.next g it = some (some pt, it1) := by
  obtain ⟨pt, hpt⟩ := h.xy_eq_some wf
  obtain ⟨-, h1, -, m, hm, him⟩ := h
  by_cases e : it.i_ + 1 = m
  · exact ⟨pt, ⟨0, it.j_ + 1⟩, hpt, by simp [IteratorXY.incr, hm, e],
      by simp [IteratorXY.next, h1, hm, him, hpt, e]⟩
  · exact ⟨pt, ⟨it.i_ + 1, it.j_⟩, hpt, by simp [IteratorXY.incr, hm, e],
      by simp [IteratorXY.next, h1, hm, him, hpt, e]⟩

theorem IteratorXY.next_end (g : Structured R) :
    IteratorXY.next g ⟨0, g.ny⟩ = some (none, ⟨0, g.ny⟩) := by
  simp [IteratorXY.next]

theorem IteratorXY.nextN_end (g : Structured R) (m : Nat) :
    IteratorXY.nextN g m ⟨0, g.ny⟩ = some (List.replicate m none, ⟨0, g.ny⟩) := by
  induction m with
  | zero => rfl
  | succ m ih => simp [IteratorXY.nextN, IteratorXY.next_end, ih, List.replicate_succ]

omit [Add R] [Mul R] [IntCast R] in
theorem IteratorXY.incrN_of_cursorAt {g : Structured R} (wf : g.WellFormed) (k : Nat)
    {it : IteratorXY} {n : Int} (h : g.CursorAt (it.i_, it.j_) n) (hk : n + k ≤ g.size) :
    ∃ it1, IteratorXY.incrN g k it = some it1 ∧ g.CursorAt (it1.i_, it1.j_) (n + k) := by
  induction k generalizing it n with
  | zero => exact ⟨it, rfl, by simpa using h⟩
  | succ k ih =>
    obtain ⟨it1, h1, hc1⟩ := IteratorXY.incr_of_cursorAt wf h (by push_cast at hk; omega)
    obtain ⟨it2, h2, hc2⟩ := ih hc1 (by push_cast at hk; omega)
    refine ⟨it2, by simp [IteratorXY.incrN, h1, h2], ?_⟩
    have e : n + ((k + 1 : Nat) : Int) = n + 1 + (k : Int) := by push_cast; omega
    rw [e]; exact hc2

/-- From the position of the linear index `n`, `next` yields the points of the row-major
enumeration from `n` on and then keeps returning `false` at the end position. -/
theorem IteratorXY.nextN_of_cursorAt {g : Structured R} (wf : g.WellFormed) (r m : Nat)
    {it : IteratorXY} {n : Int} (h : g.CursorAt (it.i_, it.j_) n) (hr : n + r = g.size) :
    IteratorXY.nextN g (r + m) it =
      some ((((rowMajor g.nx_).drop n.toNat).map fun c => g.xy c.1 c.2) ++
        List.replicate m none, ⟨0, g.ny⟩) := by
  have hlen := length_rowMajorFrom g.nx_ wf.nx_nonneg 0
  induction r generalizing it n with
  | zero =>
    have hn : n = g.size := by simpa using hr
    subst hn
    have hc := h.eq_end wf
    have hit : it = ⟨0, g.ny⟩ := by
      cases it; simp only [Prod.mk.injEq] at hc; simp [hc.1, hc.2]
    have hdrop : (rowMajor g.nx_).drop g.size.toNat = [] := by
      apply List.drop_eq_nil_of_le
      simp only [rowMajor, Structured.size, wf.npts_eq]; omega
    simp [hit, hdrop, IteratorXY.nextN_end]
  | succ r ih =>
    have hb := h.bounds wf
    have hlt : n < g.size := by push_cast at hr; omega
    obtain ⟨hin, hlin⟩ := h.inRow hlt
    obtain ⟨pt, it1, hpt, hinc, hnext⟩ := IteratorXY.next_of_inRow wf hin
    obtain ⟨it2, hinc2, hc⟩ := IteratorXY.incr_of_cursorAt wf h hlt
    rw [hinc] at hinc2; cases hinc2
    have hget := hin.getElem?_rowMajor wf
    rw [← hlin] at hget
    simp only at hget
    obtain ⟨hidx, hval⟩ := List.getElem?_eq_some_iff.mp hget
    have hdrop : (rowMajor g.nx_).drop n.toNat
        = (it.i_, it.j_) :: (rowMajor g.nx_).drop (n + 1).toNat := by
      have e : (n + 1).toNat = n.toNat + 1 := by omega
      rw [e, ← hval]; exact List.drop_eq_getElem_cons hidx
    have ih1 := ih hc (by push_cast at hr; omega)
    have e2 : r + 1 + m = (r + m) + 1 := by omega
    rw [e2, IteratorXY.nextN, hnext]
    simp [ih1, hdrop, hpt]

theorem exists_map_some {α β : Type} (f : α → Option β) (l : List α)
    (h : ∀ c ∈ l, ∃ b, f c = some b) : ∃ bs : List β, l.map f = bs.map some := by
  induction l with
  | nil => exact ⟨[], rfl⟩
  | cons a l ih =>
    obtain ⟨b, hb⟩ := h a (List.mem_cons_self _ _)
    obtain ⟨bs, hbs⟩ := ih (fun c hc => h c (List.mem_cons_of_mem _ hc))
    exact ⟨b :: bs, by simp [hb, hbs]⟩

omit [Add R] [Mul R] [IntCast R] in
theorem Structured.inRow_of_mem_rowMajor {g : Structured R} (wf : g.WellFormed)
    {c : Int × Int} (hc : c ∈ rowMajor g.nx_) : g.InRow c.1 c.2 := by
  have key : ∀ (l : List Int) (j0 : Nat), c ∈ rowMajorFrom j0 l →
      ∃ (j i : Nat) (hj : j < l.length), c = ((i : Int), ((j0 + j : Nat) : Int)) ∧
        (i : Int) < l[j] := by
    intro l
    induction l with
    | nil => intro j0 h; simp [rowMajorFrom_nil] at h
    | cons m l ih =>
      intro j0 h
      rw [rowMajorFrom_cons, List.mem_append] at h
      rcases h with h | h
      · obtain ⟨i, hi, rfl⟩ := List.mem_map.mp h
        rw [List.mem_range] at hi
        exact ⟨0, i, by simp, by simp, by simp only [List.getElem_cons_zero]; omega⟩
      · obtain ⟨j, i, hj, rfl, hi⟩ := ih (j0 + 1) h
        refine ⟨j + 1, i, by simpa using hj, ?_, by simpa using hi⟩
        congr 2; omega
  obtain ⟨j, i, hj, rfl, hi⟩ := key g.nx_ 0 hc
  have := Structured.InRow.of_nat wf hj hi
  simpa using this

theorem reducedExample_wellFormed : reducedExample.WellFormed :=
  ⟨rfl, rfl, rfl, by decide, by decide⟩

/-- From `xy_begin()`, `size() + m` calls of `next` yield `xy` along the row-major
enumeration, then `m` times `false`, and end at the end position. -/
theorem IteratorXY.nextN_from_begin (g : Structured R) (wf : g.WellFormed) (m : Nat) :
    IteratorXY.nextN g (g.size.toNat + m) g.xy_begin =
      some (((rowMajor g.nx_).map fun c => g.xy c.1 c.2) ++ List.replicate m none, g.xy_end) := by
  have hb := (Structured.CursorAt.begin wf).bounds wf
  have h := IteratorXY.nextN_of_cursorAt wf g.size.toNat m
    (show g.CursorAt ((g.xy_begin).i_, (g.xy_begin).j_) 0 from Structured.CursorAt.begin wf)
    (by omega)
  rw [h]
  simp [Structured.xy_end, IteratorXY.ctor]

/-- The points `xy(i,j)` along the row-major enumeration are all defined, and there are
`size()` of them. -/
theorem Structured.rowMajor_points (g : Structured R) (wf : g.WellFormed) :
    ∃ pts : List (PointXY R),
      (pts.length : Int) = g.size ∧
      ((rowMajor g.nx_).map fun c => g.xy c.1 c.2) = pts.map some := by
  obtain ⟨pts, hpts⟩ := exists_map_some (fun c => g.xy c.1 c.2) (rowMajor g.nx_)
    (fun c hc => (Structured.inRow_of_mem_rowMajor wf hc).xy_eq_some wf)
  refine ⟨pts, ?_, hpts⟩
  have h1 := congrArg List.length hpts
  have h2 := length_rowMajorFrom g.nx_ wf.nx_nonneg 0
  simp only [List.length_map] at h1
  rw [← h1, rowMajor, h2, Structured.size, wf.npts_eq]

/-- Claim C1.  On a grid whose rows have at least one point and whose `size()` is the sum
of the row counts, repeated calls of `IteratorXY::next` on a begin iterator return `true`
exactly `size()` times, the `k`-th returned point being `xy(i,j)` for the `k`-th pair of
the row-major enumeration, and every later call returns `false` with the cursor staying at
the end position. -/
theorem IteratorXY.next_enumerates_row_major (g : Structured R) (wf : g.WellFormed) :
    ∃ pts : List (PointXY R),
      (pts.length : Int) = g.size ∧
      ((rowMajor g.nx_).map fun c => g.xy c.1 c.2) = pts.map some ∧
      ∀ m : Nat, IteratorXY.nextN g (g.size.toNat + m) g.xy_begin =
        some (pts.map some ++ List.replicate m none, g.xy_end) := by
  obtain ⟨pts, hlen, hpts⟩ := g.rowMajor_points wf
  refine ⟨pts, hlen, hpts, ?_⟩
  intro m
  have hb := (Structured.CursorAt.begin wf).bounds wf
  have hcur : g.CursorAt ((g.xy_begin).i_, (g.xy_begin).j_) 0 := Structured.CursorAt.begin wf
  rw [IteratorXY.nextN_of_cursorAt wf g.size.toNat m hcur (by omega), ← hpts]
  simp [Structured.xy_end, IteratorXY.ctor]

/-- Instance of claim C1 on the reduced grid `{2, 4, 2}`. -/
theorem IteratorXY.next_enumerates_row_major_witness :
    reducedExample.WellFormed ∧
    ∃ pts : List (PointXY ℚ),
      (pts.length : Int) = reducedExample.size ∧
      ((rowMajor reducedExample.nx_).map fun c => reducedExample.xy c.1 c.2) = pts.map some ∧
      ∀ m : Nat, IteratorXY.nextN reducedExample (reducedExample.size.toNat + m)
          reducedExample.xy_begin =
        some (pts.map some ++ List.replicate m none, reducedExample.xy_end) :=
  ⟨reducedExample_wellFormed,
    IteratorXY.next_enumerates_row_major reducedExample reducedExample_wellFormed⟩

omit [Add R] [Mul R] [IntCast R] in
theorem Structured.InRow.ne_end {g : Structured R} {it : IteratorXY}
    (h : g.InRow it.i_ it.j_) :
    IteratorXY.eq it g.xy_end = false ∧ IteratorXY.ne it g.xy_end = true := by
  obtain ⟨-, h1, -, -⟩ := h
  have hne : it.j_ ≠ g.ny := by omega
  simp [IteratorXY.eq, IteratorXY.ne, Structured.xy_end, IteratorXY.ctor, hne]

/-- Claim C3.  On a grid whose rows have at least one point and whose `size()` is the sum
of the row counts, `k < size()` applications of `operator++` to `xy_begin()` give an
iterator that differs from `xy_end()`, sits on the `k`-th pair of the row-major
enumeration and dereferences to the point `xy(i,j)` of that pair; `size()` applications
give an iterator equal to `xy_end()`, whose cursor is `(0, ny())`. -/
theorem IteratorXY.incr_enumerates_row_major (g : Structured R) (wf : g.WellFormed) :
    (∀ k : Nat, (k : Int) < g.size →
      ∃ (it : IteratorXY) (pt : PointXY R),
        IteratorXY.incrN g k g.xy_begin = some it ∧
        IteratorXY.eq it g.xy_end = false ∧ IteratorXY.ne it g.xy_end = true ∧
        (rowMajor g.nx_)[k]? = some (it.i_, it.j_) ∧
        IteratorXY.deref g it = some pt ∧ g.xy it.i_ it.j_ = some pt) ∧
    (∃ it : IteratorXY, IteratorXY.incrN g g.size.toNat g.xy_begin = some it ∧
      IteratorXY.eq it g.xy_end = true ∧ IteratorXY.ne it g.xy_end = false ∧
      it = ⟨0, g.ny⟩) := by
  have hbegin : g.CursorAt ((g.xy_begin).i_, (g.xy_begin).j_) 0 := Structured.CursorAt.begin wf
  have hb := hbegin.bounds wf
  constructor
  · intro k hk
    obtain ⟨it, hit, hc⟩ := IteratorXY.incrN_of_cursorAt wf k hbegin (by omega)
    obtain ⟨hin, hlin⟩ := hc.inRow (by omega)
    obtain ⟨pt, hpt⟩ := hin.xy_eq_some wf
    have hget := hin.getElem?_rowMajor wf
    rw [← hlin] at hget
    have e : ((0 : Int) + (k : Int)).toNat = k := by omega
    rw [e] at hget
    exact ⟨it, pt, hit, hin.ne_end.1, hin.ne_end.2, hget, hpt, hpt⟩
  · obtain ⟨it, hit, hc⟩ := IteratorXY.incrN_of_cursorAt wf g.size.toNat hbegin (by omega)
    have e : (0 : Int) + (g.size.toNat : Int) = g.size := by omega
    rw [e] at hc
    have hend := hc.eq_end wf
    simp only [Prod.mk.injEq] at hend
    have hit2 : it = ⟨0, g.ny⟩ := by cases it; simp_all
    refine ⟨it, hit, ?_, ?_, hit2⟩
    · simp [hit2, IteratorXY.eq, Structured.xy_end, IteratorXY.ctor]
    · simp [hit2, IteratorXY.ne, Structured.xy_end, IteratorXY.ctor]

/-- Instance of claim C3 on the reduced grid `{2, 4, 2}`. -/
theorem IteratorXY.incr_enumerates_row_major_witness :
    reducedExample.WellFormed ∧
    (∀ k : Nat, (k : Int) < reducedExample.size →
      ∃ (it : IteratorXY) (pt : PointXY ℚ),
        IteratorXY.incrN reducedExample k reducedExample.xy_begin = some it ∧
        IteratorXY.eq it reducedExample.xy_end = false ∧
        IteratorXY.ne it reducedExample.xy_end = true ∧
        (rowMajor reducedExample.nx_)[k]? = some (it.i_, it.j_) ∧
        IteratorXY.deref reducedExample it = some pt ∧
        reducedExample.xy it.i_ it.j_ = some pt) ∧
    (∃ it : IteratorXY,
      IteratorXY.incrN reducedExample reducedExample.size.toNat reducedExample.xy_begin
        = some it ∧
      IteratorXY.eq it reducedExample.xy_end = true ∧
      IteratorXY.ne it reducedExample.xy_end = false ∧
      it = ⟨0, reducedExample.ny⟩) :=
  ⟨reducedExample_wellFormed,
    IteratorXY.incr_enumerates_row_major reducedExample reducedExample_wellFormed⟩

end PlanarIterator

/-! ## Equality of predicate-filtered iterators -/

/-- Claim C4.  `operator==` of `IteratorXYPredicated` holds exactly when the cursors
`(i, j)` agree, whatever the predicates and the enumeration counts, and `operator!=` is
its negation; a begin iterator of the always-false predicate (pre-advanced to the end,
with count `size()`) compares equal to the end iterator of the always-true predicate
(with count `0`). -/
theorem IteratorXYPredicated.eq_iff_cursor :
    (∀ a b : IteratorXYPredicated,
      (IteratorXYPredicated.eq a b = true ↔ a.i_ = b.i_ ∧ a.j_ = b.j_) ∧
      IteratorXYPredicated.ne a b = !IteratorXYPredicated.eq a b) ∧
    (∀ (p q : Int → Bool) (i j n m s t : Int),
      IteratorXYPredicated.eq ⟨p, i, j, n, s⟩ ⟨q, i, j, m, t⟩ = true) ∧
    (∃ a b : IteratorXYPredicated,
      reducedExample.xy_begin_p 8 (fun _ => false) = some a ∧
      b = reducedExample.xy_end_p (fun _ => true) ∧
      a.p_ ≠ b.p_ ∧ a.n_ ≠ b.n_ ∧
      IteratorXYPredicated.eq a b = true ∧ IteratorXYPredicated.ne a b = false) := by
  refine ⟨?_, ?_, ?_⟩
  · intro a b
    constructor
    · simp only [IteratorXYPredicated.eq, Bool.and_eq_true, beq_iff_eq]
      constructor
      · intro h; exact ⟨h.2, h.1⟩
      · intro h; exact ⟨h.2, h.1⟩
    · simp only [IteratorXYPredicated.eq, IteratorXYPredicated.ne]
      cases hi : (a.i_ == b.i_) <;> cases hj : (a.j_ == b.j_) <;> simp [bne, hi, hj]
  · intro p q i j n m s t
    simp [IteratorXYPredicated.eq]
  · refine ⟨⟨fun _ => false, 0, 3, 8, 8⟩, ⟨fun _ => true, 0, 3, 0, 8⟩, rfl, rfl, ?_, ?_, rfl, rfl⟩
    · intro h
      have := congrFun h 0
      simp at this
    · decide

/-! ## Coordinates -/

namespace Structured

/-- Claim C5.  For a row `j` of the tables and any column index `i`, `x(i,j)` is
`xmin[j] + i*dx[j]`, `x(0,j)` is `xmin[j]`, `y(j)` is the `j`-th row-axis value, `xy(i,j)`
is the pair of the two, and the array-writing overload stores the same two values in
`crd[0]` and `crd[1]`, leaving the rest of the buffer as it was. -/
theorem x_eq_xmin_add_mul_dx {R : Type} [Ring R] (g : Structured R) (i : Int) (j : Nat)
    (h1 : j < g.xmin_.length) (h2 : j < g.dx_.length) (h3 : j < g.y_.length) :
    g.x i j = some (g.xmin_[j] + (i : R) * g.dx_[j]) ∧
    g.x 0 j = some g.xmin_[j] ∧
    g.y j = some g.y_[j] ∧
    g.xy i j = some ⟨g.xmin_[j] + (i : R) * g.dx_[j], g.y_[j]⟩ ∧
    ∀ crd : List R, 2 ≤ crd.length →
      g.xy_crd i j crd =
        some ((g.xmin_[j] + (i : R) * g.dx_[j]) :: g.y_[j] :: crd.drop 2) := by
  have hx : ∀ k : Int, g.x k j = some (g.xmin_[j] + (k : R) * g.dx_[j]) := by
    intro k
    simp [x, vecAt_natCast, List.getElem?_eq_getElem h1, List.getElem?_eq_getElem h2]
  have hy : g.y j = some g.y_[j] := by
    simp [y, vecAt_natCast, List.getElem?_eq_getElem h3]
  refine ⟨hx i, by simpa using hx 0, hy, by simp [xy, hx, hy], ?_⟩
  intro crd hcrd
  match crd, hcrd with
  | a :: b :: rest, _ => simp [xy_crd, hx, hy]

/-- Instance of claim C5 on the reduced grid `{2, 4, 2}`, row `1`, column `3`. -/
theorem x_eq_xmin_add_mul_dx_witness :
    (1 < reducedExample.xmin_.length ∧ 1 < reducedExample.dx_.length ∧
      1 < reducedExample.y_.length) ∧
    reducedExample.xy 3 1 = some ⟨0 + 3 * 90, 0⟩ :=
  ⟨⟨by decide, by decide, by decide⟩,
    (x_eq_xmin_add_mul_dx reducedExample 3 1 (by decide) (by decide) (by decide)).2.2.2.1⟩

/-- Claim C6.  Over exact arithmetic, for a row `j` of the tables, `x(i+1,j) - x(i,j)` is
`dx(j)` for every `i`, so that for `i < k` the value `x(i,j)` is below `x(k,j)` when
`dx(j) > 0`, above it when `dx(j) < 0`, and equal to it when `dx(j) = 0`. -/
theorem x_monotone_with_slope_dx {R : Type} [LinearOrderedRing R] (g : Structured R)
    (i : Int) (j : Nat) (h1 : j < g.xmin_.length) (h2 : j < g.dx_.length) :
    ∃ a b d : R, g.x i j = some a ∧ g.x (i + 1) j = some b ∧ g.dx j = some d ∧
      b - a = d ∧
      ∀ k : Int, i < k → ∃ c : R, g.x k j = some c ∧
        (0 < d → a < c) ∧ (d < 0 → c < a) ∧ (d = 0 → a = c) := by
  have hx : ∀ k : Int, g.x k j = some (g.xmin_[j] + (k : R) * g.dx_[j]) := by
    intro k
    simp [x, vecAt_natCast, List.getElem?_eq_getElem h1, List.getElem?_eq_getElem h2]
  have hd : g.dx j = some g.dx_[j] := by
    simp [dx, vecAt_natCast, List.getElem?_eq_getElem h2]
  refine ⟨_, _, _, hx i, hx (i + 1), hd, ?_, ?_⟩
  · push_cast; rw [add_mul, one_mul]; abel
  · intro k hik
    have hc : (i : R) < (k : R) := Int.cast_lt.mpr hik
    refine ⟨_, hx k, ?_, ?_, ?_⟩
    · intro hpos
      have := mul_lt_mul_of_pos_right hc hpos
      exact add_lt_add_left this _
    · intro hneg
      have := mul_lt_mul_of_neg_right hc hneg
      exact add_lt_add_left this _
    · intro hz
      rw [hz, mul_zero, mul_zero]

/-- Instance of claim C6 on the reduced grid `{2, 4, 2}`, row `1`, column `2`. -/
theorem x_monotone_with_slope_dx_witness :
    (1 < reducedExample.xmin_.length ∧ 1 < reducedExample.dx_.length) ∧
    ∃ a b d : ℚ, reducedExample.x 2 1 = some a ∧ reducedExample.x (2 + 1) 1 = some b ∧
      reducedExample.dx 1 = some d ∧ b - a = d ∧
      ∀ k : Int, 2 < k → ∃ c : ℚ, reducedExample.x k 1 = some c ∧
        (0 < d → a < c) ∧ (d < 0 → c < a) ∧ (d = 0 → a = c) :=
  ⟨⟨by decide, by decide⟩,
    x_monotone_with_slope_dx reducedExample 2 1 (by decide) (by decide)⟩

end Structured

/-! ## Begin/end loops and the geographic iterator -/

section Loops

variable {R : Type} [Add R] [Mul R] [IntCast R]

theorem drop_eq_cons_of_map_some {α β : Type} {f : α → Option β} {l : List α} {pts : List β}
    (hpts : l.map f = pts.map some) {k : Nat} {c : α} {pt : β}
    (hk : l[k]? = some c) (hc : f c = some pt) : pts.drop k = pt :: pts.drop (k + 1) := by
  have h1 : (l.map f)[k]? = some (some pt) := by simp [List.getElem?_map, hk, hc]
  rw [hpts, List.getElem?_map] at h1
  cases hp : pts[k]? with
  | none => simp [hp] at h1
  | some q =>
    simp only [hp, Option.map_some', Option.some.injEq] at h1
    obtain ⟨hlt, hval⟩ := List.getElem?_eq_some_iff.mp hp
    rw [← h1, ← hval]
    exact List.drop_eq_getElem_cons hlt

/-- From the position of the linear index `n`, the loop `for ( ; it != end; ++it )`
collects the points of the row-major enumeration from `n` on. -/
theorem IteratorXY.range_of_cursorAt {g : Structured R} (wf : g.WellFormed)
    {pts : List (PointXY R)} (hpts : ((rowMajor g.nx_).map fun c => g.xy c.1 c.2) = pts.map some)
    (fuel : Nat) {it : IteratorXY} {n : Int} (h : g.CursorAt (it.i_, it.j_) n)
    (hfuel : g.size - n < fuel) :
    IteratorXY.range g fuel it g.xy_end = some (pts.drop n.toNat) := by
  induction fuel generalizing it n with
  | zero => have := h.bounds wf; omega
  | succ fuel ih =>
    have hb := h.bounds wf
    by_cases hlt : n < g.size
    · obtain ⟨hin, hlin⟩ := h.inRow hlt
      obtain ⟨pt, hpt⟩ := hin.xy_eq_some wf
      obtain ⟨it1, hinc, hc⟩ := IteratorXY.incr_of_cursorAt wf h hlt
      have hget := hin.getElem?_rowMajor wf
      rw [← hlin] at hget
      have hdrop := drop_eq_cons_of_map_some hpts hget hpt
      have ih1 := ih hc (by push_cast at hfuel; omega)
      have e : (n + 1).toNat = n.toNat + 1 := by omega
      rw [e] at ih1
      simp [IteratorXY.range, hin.ne_end.2, IteratorXY.deref, hpt, hinc, ih1, hdrop]
    · have hn : n = g.size := by omega
      subst hn
      have hend := h.eq_end wf
      simp only [Prod.mk.injEq] at hend
      have hlen : pts.length = (rowMajor g.nx_).length := by
        have := congrArg List.length hpts
        simpa using this.symm
      have hl2 := length_rowMajorFrom g.nx_ wf.nx_nonneg 0
      have hdrop : pts.drop g.size.toNat = [] := by
        apply List.drop_eq_nil_of_le
        simp only [rowMajor] at hlen
        simp only [Structured.size, wf.npts_eq]; omega
      simp [IteratorXY.range, IteratorXY.ne, Structured.xy_end, IteratorXY.ctor, hend.1, hend.2,
        hdrop]

/-- `IteratorLonLat::next` is `IteratorXY::next` with the point sent through the projection. -/
theorem IteratorLonLat.next_eq (g : Structured R) (i j : Int) :
    IteratorLonLat.next g ⟨i, j⟩ =
      (IteratorXY.next g ⟨i, j⟩).map fun r =>
        (r.1.map g.projection_.lonlat, (⟨r.2.i_, r.2.j_⟩ : IteratorLonLat)) := by
  simp only [IteratorLonLat.next, IteratorXY.next, Structured.lonlat]
  by_cases hj : j < g.ny
  · cases hn : g.nx j with
    | none => simp [hj]
    | some n =>
      by_cases hi : i < n
      · cases hxy : g.xy i j with
        | none => simp [hj, hi]
        | some pt => by_cases e : i + 1 = n <;> simp [hj, hi, e]
      · simp [hj, hi]
  · simp [hj]

theorem IteratorLonLat.nextN_eq (g : Structured R) (k : Nat) (i j : Int) :
    IteratorLonLat.nextN g k ⟨i, j⟩ =
      (IteratorXY.nextN g k ⟨i, j⟩).map fun r =>
        (r.1.map (Option.map g.projection_.lonlat), (⟨r.2.i_, r.2.j_⟩ : IteratorLonLat)) := by
  induction k generalizing i j with
  | zero => simp [IteratorLonLat.nextN, IteratorXY.nextN]
  | succ k ih =>
    simp only [IteratorLonLat.nextN, IteratorXY.nextN, IteratorLonLat.next_eq]
    cases h1 : IteratorXY.next g ⟨i, j⟩ with
    | none => simp
    | some r =>
      obtain ⟨o, ⟨i1, j1⟩⟩ := r
      simp only [Option.map_some', Option.bind_eq_bind, Option.some_bind, ih]
      cases h2 : IteratorXY.nextN g k ⟨i1, j1⟩ with
      | none => simp
      | some rs => simp

omit [Add R] [Mul R] [IntCast R] in
theorem IteratorLonLat.incrN_eq (g : Structured R) (k : Nat) (i j : Int) :
    IteratorLonLat.incrN g k ⟨i, j⟩ =
      (IteratorXY.incrN g k ⟨i, j⟩).map fun it => (⟨it.i_, it.j_⟩ : IteratorLonLat) := by
  induction k generalizing i j with
  | zero => simp [IteratorLonLat.incrN, IteratorXY.incrN]
  | succ k ih =>
    simp only [IteratorLonLat.incrN, IteratorXY.incrN, IteratorLonLat.incr, IteratorXY.incr]
    cases hn : g.nx j with
    | none => simp
    | some n => by_cases e : i + 1 = n <;> simp [e, ih]

theorem IteratorLonLat.range_eq (g : Structured R) (fuel : Nat) (i j a b : Int) :
    IteratorLonLat.range g fuel ⟨i, j⟩ ⟨a, b⟩ =
      (IteratorXY.range g fuel ⟨i, j⟩ ⟨a, b⟩).map (List.map g.projection_.lonlat) := by
  induction fuel generalizing i j with
  | zero => simp [IteratorLonLat.range, IteratorXY.range]
  | succ fuel ih =>
    simp only [IteratorLonLat.range, IteratorXY.range, IteratorLonLat.ne, IteratorXY.ne,
      IteratorLonLat.deref, IteratorXY.deref, IteratorLonLat.incr, IteratorXY.incr,
      Structured.lonlat]
    by_cases hne : (i != a || j != b) = true
    · cases hxy : g.xy i j with
      | none => simp [hne]
      | some pt =>
        cases hn : g.nx j with
        | none => simp [hne]
        | some n =>
          by_cases e : i + 1 = n
          · cases hr : IteratorXY.range g fuel ⟨0, j + 1⟩ ⟨a, b⟩ <;> simp [hne, e, ih, hr]
          · cases hr : IteratorXY.range g fuel ⟨i + 1, j⟩ ⟨a, b⟩ <;> simp [hne, e, ih, hr]
    · simp [hne]

/-- Claim C7.  On a grid whose rows have at least one point and whose `size()` is the sum
of the row counts, the geographic traversal is the planar traversal sent through the
projection: with `pts` the `size()` points `xy(i,j)` in row-major order, `next` and the
begin/end loop of `IteratorXY` yield `pts` and those of `IteratorLonLat` yield the
projections of `pts`; both iterators go through the same cursors, under `operator++` and
under `next`; and a dereference is the projection of `xy` at the cursor. -/
theorem IteratorLonLat.traversal_is_projected_planar (g : Structured R) (wf : g.WellFormed) :
    ∃ pts : List (PointXY R),
      (pts.length : Int) = g.size ∧
      ((rowMajor g.nx_).map fun c => g.xy c.1 c.2) = pts.map some ∧
      (∀ m : Nat,
        IteratorXY.nextN g (g.size.toNat + m) g.xy_begin =
          some (pts.map some ++ List.replicate m none, g.xy_end) ∧
        IteratorLonLat.nextN g (g.size.toNat + m) g.lonlat_begin =
          some ((pts.map fun q => some (g.projection_.lonlat q)) ++ List.replicate m none,
            g.lonlat_end)) ∧
      (∀ fuel : Nat, g.size < fuel →
        IteratorXY.range g fuel g.xy_begin g.xy_end = some pts ∧
        IteratorLonLat.range g fuel g.lonlat_begin g.lonlat_end =
          some (pts.map g.projection_.lonlat)) ∧
      (∀ k : Nat, IteratorLonLat.incrN g k g.lonlat_begin =
        (IteratorXY.incrN g k g.xy_begin).map fun it => (⟨it.i_, it.j_⟩ : IteratorLonLat)) ∧
      (∀ k : Nat, (IteratorLonLat.nextN g k g.lonlat_begin).map (fun r => (r.2.i_, r.2.j_)) =
        (IteratorXY.nextN g k g.xy_begin).map (fun r => (r.2.i_, r.2.j_))) ∧
      (∀ it : IteratorLonLat,
        IteratorLonLat.deref g it = (g.xy it.i_ it.j_).map g.projection_.lonlat) ∧
      (∀ i j : Int, g.lonlat i j = (g.xy i j).map g.projection_.lonlat) := by
  obtain ⟨pts, hlen, hpts⟩ := g.rowMajor_points wf
  have hnext : ∀ m : Nat, IteratorXY.nextN g (g.size.toNat + m) g.xy_begin =
      some (pts.map some ++ List.replicate m none, g.xy_end) := by
    intro m; rw [IteratorXY.nextN_from_begin g wf m, hpts]
  have hbegin : g.CursorAt ((g.xy_begin).i_, (g.xy_begin).j_) 0 := Structured.CursorAt.begin wf
  have hll : ∀ i j : Int, g.lonlat i j = (g.xy i j).map g.projection_.lonlat := by
    intro i j
    simp only [Structured.lonlat]
    cases g.xy i j <;> rfl
  refine ⟨pts, hlen, hpts, ?_, ?_, ?_, ?_, ?_, hll⟩
  · intro m
    refine ⟨hnext m, ?_⟩
    have h := IteratorLonLat.nextN_eq g (g.size.toNat + m) 0 0
    have hx := hnext m
    simp only [Structured.xy_begin, IteratorXY.ctor, if_true] at hx
    rw [hx] at h
    simp only [Structured.lonlat_begin, IteratorLonLat.ctor, if_true, h]
    simp [Structured.lonlat_end, IteratorLonLat.ctor, Structured.xy_end, IteratorXY.ctor,
      Function.comp_def]
  · intro fuel hfuel
    have hx := IteratorXY.range_of_cursorAt wf hpts fuel hbegin (by omega)
    simp only [Int.toNat_zero, List.drop_zero] at hx
    refine ⟨hx, ?_⟩
    have h := IteratorLonLat.range_eq g fuel 0 0 0 g.ny
    simp only [Structured.xy_begin, Structured.xy_end, IteratorXY.ctor, if_true] at hx
    simp only [Bool.false_eq_true, if_false] at hx
    rw [hx] at h
    simpa [Structured.lonlat_begin, Structured.lonlat_end, IteratorLonLat.ctor] using h
  · intro k
    exact IteratorLonLat.incrN_eq g k 0 0
  · intro k
    have h := IteratorLonLat.nextN_eq g k 0 0
    simp only [Structured.lonlat_begin, IteratorLonLat.ctor, if_true, h, Structured.xy_begin,
      IteratorXY.ctor]
    cases IteratorXY.nextN g k ⟨0, 0⟩ <;> simp
  · intro it
    exact hll it.i_ it.j_

/-- Instance of claim C7 on the reduced grid `{2, 4, 2}`. -/
theorem IteratorLonLat.traversal_is_projected_planar_witness :
    reducedExample.WellFormed ∧
    ∃ pts : List (PointXY ℚ),
      (pts.length : Int) = reducedExample.size ∧
      ((rowMajor reducedExample.nx_).map fun c => reducedExample.xy c.1 c.2) = pts.map some ∧
      (∀ fuel : Nat, reducedExample.size < fuel →
        IteratorXY.range reducedExample fuel reducedExample.xy_begin reducedExample.xy_end
          = some pts ∧
        IteratorLonLat.range reducedExample fuel reducedExample.lonlat_begin
            reducedExample.lonlat_end =
          some (pts.map reducedExample.projection_.lonlat)) := by
  refine ⟨reducedExample_wellFormed, ?_⟩
  obtain ⟨pts, h1, h2, -, h4, -⟩ :=
    IteratorLonLat.traversal_is_projected_planar reducedExample reducedExample_wellFormed
  exact ⟨pts, h1, h2, h4⟩

end Loops

/-! ## Reduced grids and construction -/

namespace Structured

theorem foldl_min_le (l : List Int) (a : Int) :
    l.foldl min a ≤ a ∧ (∀ n ∈ l, l.foldl min a ≤ n) ∧ (l.foldl min a = a ∨ l.foldl min a ∈ l) := by
  induction l generalizing a with
  | nil => simp
  | cons m l ih =>
    obtain ⟨h1, h2, h3⟩ := ih (min a m)
    simp only [List.foldl_cons, List.mem_cons, forall_eq_or_imp]
    refine ⟨le_trans h1 (min_le_left _ _), ⟨le_trans h1 (min_le_right _ _), h2⟩, ?_⟩
    rcases h3 with h3 | h3
    · rw [h3]
      rcases min_choice a m with h | h
      · left; exact h
      · right; left; exact h
    · right; right; exact h3

theorem le_foldl_max (l : List Int) (a : Int) :
    a ≤ l.foldl max a ∧ (∀ n ∈ l, n ≤ l.foldl max a) ∧ (l.foldl max a = a ∨ l.foldl max a ∈ l) := by
  induction l generalizing a with
  | nil => simp
  | cons m l ih =>
    obtain ⟨h1, h2, h3⟩ := ih (max a m)
    simp only [List.foldl_cons, List.mem_cons, forall_eq_or_imp]
    refine ⟨le_trans (le_max_left _ _) h1, ⟨le_trans (le_max_right _ _) h1, h2⟩, ?_⟩
    rcases h3 with h3 | h3
    · rw [h3]
      rcases max_choice a m with h | h
      · left; exact h
      · right; left; exact h
    · right; right; exact h3

/-- Claim C8.  `reduced()` is `true` exactly when `nxmax() != nxmin()`; when `nxmin_` and
`nxmax_` are the least and the greatest row count, this is the case exactly when two rows
have different point counts; and a grid with row counts `{2, 4, 2}`, those extrema and
`npts_` the sum of the counts has `nxmin() = 2`, `nxmax() = 4`, `reduced() = true` and
`size() = 8`. -/
theorem reduced_iff_row_counts_differ {R : Type} :
    (∀ g : Structured R, g.reduced = true ↔ g.nxmax ≠ g.nxmin) ∧
    (∀ g : Structured R,
      (g.nxmin_ ∈ g.nx_ ∧ ∀ n ∈ g.nx_, g.nxmin_ ≤ n) →
      (g.nxmax_ ∈ g.nx_ ∧ ∀ n ∈ g.nx_, n ≤ g.nxmax_) →
      ((g.reduced = true ↔ ∃ j k a b, g.nx j = some a ∧ g.nx k = some b ∧ a ≠ b) ∧
       (g.reduced = false ↔ ∀ j k a b, g.nx j = some a → g.nx k = some b → a = b))) ∧
    (∀ g : Structured R, g.nx_ = [2, 4, 2] →
      (g.nxmin_ ∈ g.nx_ ∧ ∀ n ∈ g.nx_, g.nxmin_ ≤ n) →
      (g.nxmax_ ∈ g.nx_ ∧ ∀ n ∈ g.nx_, n ≤ g.nxmax_) →
      g.npts_ = g.nx_.sum →
      g.nxmin = 2 ∧ g.nxmax = 4 ∧ g.reduced = true ∧ g.size = 8) := by
  have hred : ∀ g : Structured R, g.reduced = true ↔ g.nxmax ≠ g.nxmin := by
    intro g; simp [reduced]
  have hmem : ∀ (g : Structured R) (j a : Int), g.nx j = some a → a ∈ g.nx_ := by
    intro g j a h
    simp only [nx, vecAt_eq_some] at h
    exact List.getElem?_mem h.2
  have hget : ∀ (g : Structured R) (a : Int), a ∈ g.nx_ → ∃ j, g.nx j = some a := by
    intro g a h
    obtain ⟨n, hn, rfl⟩ := List.mem_iff_getElem.mp h
    exact ⟨(n : Int), by simp [nx, vecAt_natCast, List.getElem?_eq_getElem hn]⟩
  have hiff : ∀ g : Structured R,
      (g.nxmin_ ∈ g.nx_ ∧ ∀ n ∈ g.nx_, g.nxmin_ ≤ n) →
      (g.nxmax_ ∈ g.nx_ ∧ ∀ n ∈ g.nx_, n ≤ g.nxmax_) →
      (g.reduced = true ↔ ∃ j k a b, g.nx j = some a ∧ g.nx k = some b ∧ a ≠ b) := by
    intro g hmin hmax
    rw [hred]
    constructor
    · intro hne
      obtain ⟨j, hj⟩ := hget g _ hmax.1
      obtain ⟨k, hk⟩ := hget g _ hmin.1
      exact ⟨j, k, _, _, hj, hk, hne⟩
    · rintro ⟨j, k, a, b, hj, hk, hab⟩ he
      simp only [nxmax, nxmin] at he
      have ha1 := hmin.2 a (hmem g j a hj)
      have ha2 := hmax.2 a (hmem g j a hj)
      have hb1 := hmin.2 b (hmem g k b hk)
      have hb2 := hmax.2 b (hmem g k b hk)
      omega
  refine ⟨hred, ?_, ?_⟩
  · intro g hmin hmax
    refine ⟨hiff g hmin hmax, ?_⟩
    have h := hiff g hmin hmax
    constructor
    · intro hf j k a b hj hk
      by_contra hab
      have := h.mpr ⟨j, k, a, b, hj, hk, hab⟩
      rw [hf] at this
      cases this
    · intro hall
      cases hr : g.reduced with
      | false => rfl
      | true =>
        obtain ⟨j, k, a, b, hj, hk, hab⟩ := h.mp hr
        exact absurd (hall j k a b hj hk) hab
  · intro g hnx hmin hmax hnpts
    rw [hnx] at hmin hmax hnpts
    have h2 : g.nxmin_ = 2 := by
      have := hmin.2 2 (by simp)
      have hm := hmin.1
      simp only [List.mem_cons, List.mem_singleton, List.not_mem_nil, or_false] at hm
      omega
    have h4 : g.nxmax_ = 4 := by
      have := hmax.2 4 (by simp)
      have hm := hmax.1
      simp only [List.mem_cons, List.mem_singleton, List.not_mem_nil, or_false] at hm
      omega
    refine ⟨h2, h4, ?_, ?_⟩
    · simp [reduced, nxmax, nxmin, h2, h4]
    · simp [size, hnpts]

/-- Instance of claim C8: the reduced grid `{2, 4, 2}`. -/
theorem reduced_iff_row_counts_differ_witness :
    reducedExample.nx_ = [2, 4, 2] ∧ reducedExample.nxmin = 2 ∧ reducedExample.nxmax = 4 ∧
      reducedExample.reduced = true ∧ reducedExample.size = 8 :=
  ⟨rfl, (@reduced_iff_row_counts_differ ℚ).2.2 reducedExample rfl
    ⟨by decide, by decide⟩ ⟨by decide, by decide⟩ rfl⟩

theorem map_getElem?_range {α : Type} (l : List α) :
    (List.range l.length).map (fun j => l[j]?) = l.map some := by
  apply List.ext_getElem?
  intro n
  by_cases hn : n < l.length
  · simp [List.getElem?_map, List.getElem?_range hn, List.getElem?_eq_getElem hn]
  · have h1 : (List.range l.length)[n]? = none := by simp; omega
    have h2 : l[n]? = none := by simp; omega
    simp [List.getElem?_map, h1, h2]

/-- Claim C9.  A grid delivered by the constructor has `size()` equal to the sum of
`nx(j)` over its rows `j = 0, ..., ny() - 1`, each read being within bounds, and `ny()`
equal to the number of row-axis values supplied. -/
theorem size_eq_sum_nx_of_construct {R : Type} (xspace : XSpace R) (yspace : List R)
    (projection : Projection R) (periodic_x : Bool) (g : Structured R)
    (h : construct xspace yspace projection periodic_x = some g) :
    (∃ ns : List Int,
      (List.range g.ny.toNat).map (fun (j : Nat) => g.nx (j : Int)) = ns.map some ∧
      g.size = ns.sum) ∧
    g.ny = (yspace.length : Int) ∧ g.y_ = yspace := by
  unfold construct at h
  split at h
  · cases h
  · split at h
    · cases h
    · split at h
      · cases h
      · rename_i hlen _
        simp only [Option.some.injEq] at h
        subst h
        have hl : xspace.nx_.length = yspace.length := by
          by_contra hne; exact hlen (Or.inr (Or.inl hne))
        refine ⟨⟨xspace.nx_, ?_, rfl⟩, rfl, rfl⟩
        simp only [ny, nx, vecAt_natCast, Int.toNat_ofNat, ← hl]
        exact map_getElem?_range xspace.nx_

/-- Instance of claim C9: construction of the reduced grid `{2, 4, 2}`. -/
theorem size_eq_sum_nx_of_construct_witness :
    construct reducedXSpace [45, 0, -45] ⟨fun q => ⟨q.x, q.y⟩⟩ true = some reducedExample ∧
    (∃ ns : List Int,
      (List.range reducedExample.ny.toNat).map (fun (j : Nat) => reducedExample.nx (j : Int))
        = ns.map some ∧
      reducedExample.size = ns.sum) ∧
    reducedExample.ny = (([45, 0, -45] : List ℚ).length : Int) ∧
    reducedExample.y_ = [45, 0, -45] :=
  ⟨rfl, size_eq_sum_nx_of_construct reducedXSpace [45, 0, -45] ⟨fun q => ⟨q.x, q.y⟩⟩ true
    reducedExample rfl⟩

end Structured

/-! ## Rows without points -/

section EmptyRow

variable {R : Type} [Add R] [Mul R] [IntCast R]

theorem vecAt_take {α : Type} (l : List α) (z : Nat) (j : Int) (hj : j < (z : Int)) :
    vecAt (l.take z) j = vecAt l j := by
  unfold vecAt
  split
  · rfl
  · exact List.getElem?_take_of_lt (by omega)

omit [Add R] [Mul R] [IntCast R] in
theorem Structured.firstRows_wellFormed (g : Structured R) (z : Nat)
    (hy : z ≤ g.y_.length) (hnx : g.nx_.length = g.y_.length)
    (hxmin : g.xmin_.length = g.y_.length) (hdx : g.dx_.length = g.y_.length)
    (hpre : ∀ n ∈ g.nx_.take z, 1 ≤ n) : (g.firstRows z).WellFormed := by
  refine ⟨?_, ?_, ?_, hpre, rfl⟩ <;> simp only [Structured.firstRows, List.length_take] <;> omega

omit [Add R] [Mul R] [IntCast R] in
theorem Structured.firstRows_ny (g : Structured R) (z : Nat) (hy : z ≤ g.y_.length) :
    (g.firstRows z).ny = (z : Int) := by
  simp only [Structured.ny, Structured.firstRows, List.length_take]
  congr 1; omega

omit [Add R] [Mul R] [IntCast R] in
theorem Structured.firstRows_nx (g : Structured R) (z : Nat) (j : Int) (hj : j < (z : Int)) :
    (g.firstRows z).nx j = g.nx j := vecAt_take g.nx_ z j hj

theorem Structured.firstRows_xy (g : Structured R) (z : Nat) (i j : Int) (hj : j < (z : Int)) :
    (g.firstRows z).xy i j = g.xy i j := by
  simp only [Structured.xy, Structured.x, Structured.y, Structured.firstRows,
    vecAt_take _ z j hj]

omit [Add R] [Mul R] [IntCast R] in
theorem IteratorXY.incr_firstRows (g : Structured R) (z : Nat) (it : IteratorXY)
    (hj : it.j_ < (z : Int)) : IteratorXY.incr (g.firstRows z) it = IteratorXY.incr g it := by
  simp only [IteratorXY.incr, g.firstRows_nx z it.j_ hj]

theorem IteratorXY.next_firstRows (g : Structured R) (z : Nat) (hy : z < g.y_.length)
    (it : IteratorXY) (hj : it.j_ < (z : Int)) :
    IteratorXY.next (g.firstRows z) it = IteratorXY.next g it := by
  have h1 : it.j_ < (g.firstRows z).ny := by rw [g.firstRows_ny z (by omega)]; exact hj
  have h2 : it.j_ < g.ny := by simp only [Structured.ny]; omega
  simp only [IteratorXY.next, g.firstRows_nx z it.j_ hj, g.firstRows_xy z _ it.j_ hj, h1, h2]

/-- At the first column of a row without points, `next` returns `false` and leaves the
cursor where it is. -/
theorem IteratorXY.next_at_empty_row (g : Structured R) (z : Nat)
    (hz : g.nx_[z]? = some 0) :
    IteratorXY.next g ⟨0, z⟩ = some (none, ⟨0, z⟩) := by
  by_cases h : (z : Int) < g.ny <;> simp [IteratorXY.next, Structured.nx, vecAt_natCast, hz, h]

omit [Add R] [Mul R] [IntCast R] in
/-- In a row without points `operator++` moves on within the row. -/
theorem IteratorXY.incrN_in_empty_row (g : Structured R) (z : Nat)
    (hz : g.nx_[z]? = some 0) (k : Nat) (i : Nat) :
    IteratorXY.incrN g k ⟨(i : Int), (z : Int)⟩ = some ⟨((i + k : Nat) : Int), (z : Int)⟩ := by
  induction k generalizing i with
  | zero => rfl
  | succ k ih =>
    have hne : ¬ ((i : Int) + 1 = 0) := by omega
    have hstep : IteratorXY.incr g ⟨(i : Int), (z : Int)⟩ = some ⟨((i + 1 : Nat) : Int), (z : Int)⟩ := by
      simp [IteratorXY.incr, Structured.nx, vecAt_natCast, hz, hne]
    simp only [IteratorXY.incrN, hstep, Option.bind_eq_bind, Option.some_bind, ih]
    congr 3; omega

omit [Add R] [Mul R] [IntCast R] in
theorem IteratorXY.incrN_add (g : Structured R) (a b : Nat) (it : IteratorXY) :
    IteratorXY.incrN g (a + b) it = (IteratorXY.incrN g a it).bind (IteratorXY.incrN g b) := by
  induction a generalizing it with
  | zero => simp [IteratorXY.incrN]
  | succ a ih =>
    have e : a + 1 + b = (a + b) + 1 := by omega
    rw [e]
    simp only [IteratorXY.incrN]
    cases IteratorXY.incr g it with
    | none => rfl
    | some it1 => simp [ih]

omit [Add R] [Mul R] [IntCast R] in
/-- Up to the first row without points, `operator++` acts as on the grid of the rows
before it. -/
theorem IteratorXY.incrN_firstRows (g : Structured R) (z : Nat)
    (wf : (g.firstRows z).WellFormed) (hy : z ≤ g.y_.length) (k : Nat) {it : IteratorXY}
    {n : Int} (h : (g.firstRows z).CursorAt (it.i_, it.j_) n)
    (hk : n + k ≤ (g.firstRows z).size) :
    IteratorXY.incrN g k it = IteratorXY.incrN (g.firstRows z) k it := by
  induction k generalizing it n with
  | zero => rfl
  | succ k ih =>
    have hlt : n < (g.firstRows z).size := by push_cast at hk; omega
    obtain ⟨hin, -⟩ := h.inRow hlt
    have hj : it.j_ < (z : Int) := by
      have := hin.2.1; rwa [g.firstRows_ny z hy] at this
    obtain ⟨it1, hinc, hc⟩ := IteratorXY.incr_of_cursorAt wf h hlt
    have hinc2 : IteratorXY.incr g it = some it1 := by rw [← IteratorXY.incr_firstRows g z it hj, hinc]
    simp only [IteratorXY.incrN, hinc, hinc2, Option.bind_eq_bind, Option.some_bind]
    exact ih hc (by push_cast at hk; omega)

/-- With a row `z` without points after rows with points, `next` acts as on the grid of
the rows before `z`, whose end position is `(0, z)`. -/
theorem IteratorXY.nextN_firstRows (g : Structured R) (z : Nat)
    (wf : (g.firstRows z).WellFormed) (hy : z < g.y_.length) (hz : g.nx_[z]? = some 0)
    (k : Nat) {it : IteratorXY} {n : Int} (h : (g.firstRows z).CursorAt (it.i_, it.j_) n) :
    IteratorXY.nextN g k it = IteratorXY.nextN (g.firstRows z) k it := by
  induction k generalizing it n with
  | zero => rfl
  | succ k ih =>
    by_cases hlt : n < (g.firstRows z).size
    · obtain ⟨hin, -⟩ := h.inRow hlt
      have hj : it.j_ < (z : Int) := by
        have := hin.2.1; rwa [g.firstRows_ny z (by omega)] at this
      obtain ⟨pt, it1, -, hinc, hnext⟩ := IteratorXY.next_of_inRow wf hin
      obtain ⟨it2, hinc2, hc⟩ := IteratorXY.incr_of_cursorAt wf h hlt
      rw [hinc] at hinc2; cases hinc2
      have hnext2 : IteratorXY.next g it = some (some pt, it1) := by
        rw [← IteratorXY.next_firstRows g z hy it hj, hnext]
      simp only [IteratorXY.nextN, hnext, hnext2, Option.bind_eq_bind, Option.some_bind, ih hc]
    · have hb := h.bounds wf
      have hn : n = (g.firstRows z).size := by omega
      subst hn
      have hend := h.eq_end wf
      rw [g.firstRows_ny z (by omega)] at hend
      simp only [Prod.mk.injEq] at hend
      have hit : it = ⟨0, (z : Int)⟩ := by cases it; simp_all
      have h1 : IteratorXY.next g it = some (none, it) := by
        rw [hit]; exact IteratorXY.next_at_empty_row g z hz
      have h2 : IteratorXY.next (g.firstRows z) it = some (none, it) := by
        rw [hit]
        have := IteratorXY.next_end (g.firstRows z)
        rwa [g.firstRows_ny z (by omega)] at this
      simp only [IteratorXY.nextN, h1, h2, Option.bind_eq_bind, Option.some_bind, ih h]

theorem IteratorXY.nextN_before_empty_row (g : Structured R) (z : Nat)
    (wf : (g.firstRows z).WellFormed) (hy : z < g.y_.length) (hz : g.nx_[z]? = some 0)
    (m : Nat) :
    IteratorXY.nextN g ((g.nx_.take z).sum.toNat + m) g.xy_begin =
      some (((rowMajor (g.nx_.take z)).map fun c => (g.firstRows z).xy c.1 c.2) ++
        List.replicate m none, ⟨0, z⟩) := by
  have hcur : (g.firstRows z).CursorAt ((g.xy_begin).i_, (g.xy_begin).j_) 0 :=
    Structured.CursorAt.begin wf
  rw [IteratorXY.nextN_firstRows g z wf hy hz _ hcur]
  have h := IteratorXY.nextN_from_begin (g.firstRows z) wf m
  simp only [Structured.xy_begin, Structured.xy_end, IteratorXY.ctor, if_true,
    Bool.false_eq_true, if_false, g.firstRows_ny z (by omega)] at h ⊢
  exact h

omit [Add R] [Mul R] [IntCast R] in
theorem IteratorXY.incrN_before_empty_row (g : Structured R) (z : Nat)
    (wf : (g.firstRows z).WellFormed) (hy : z < g.y_.length) (hz : g.nx_[z]? = some 0)
    (k : Nat) :
    IteratorXY.incrN g ((g.nx_.take z).sum.toNat + k) g.xy_begin = some ⟨(k : Int), (z : Int)⟩ := by
  have hcur : (g.firstRows z).CursorAt ((g.xy_begin).i_, (g.xy_begin).j_) 0 :=
    Structured.CursorAt.begin wf
  have hb := hcur.bounds wf
  have hsz : (g.firstRows z).size = (g.nx_.take z).sum := rfl
  obtain ⟨it, hit, hc⟩ := IteratorXY.incrN_of_cursorAt wf (g.nx_.take z).sum.toNat hcur
    (by omega)
  have e : (0 : Int) + (((g.nx_.take z).sum.toNat : Nat) : Int) = (g.firstRows z).size := by
    omega
  rw [e] at hc
  have hend := hc.eq_end wf
  rw [g.firstRows_ny z (by omega)] at hend
  simp only [Prod.mk.injEq] at hend
  have hit2 : it = ⟨((0 : Nat) : Int), (z : Int)⟩ := by cases it; simp_all
  rw [IteratorXY.incrN_add, IteratorXY.incrN_firstRows g z wf (by omega) _ hcur (by omega),
    hit, hit2]
  simp only [Option.some_bind]
  rw [IteratorXY.incrN_in_empty_row g z hz k 0]
  simp

/-- Claim C10, as amended.  A row without points is not skipped.  If the rows before row
`z` have at least one point each and row `z` has none, then `next` on a begin iterator
returns `true` exactly for the points of the rows before `z`, in row-major order, and then
returns `false` on every later call, the cursor staying at `(0, z)`; and `operator++`
reaches `(0, z)` after those points and, as long as the number of increments is within
`size()`, is in row `z`, at `(k, z)` after `k` more increments, which does not compare
equal to `xy_end()`. -/
theorem IteratorXY.traversal_stops_at_empty_row (g : Structured R) (z : Nat)
    (hy : z < g.y_.length) (hnx : g.nx_.length = g.y_.length)
    (hxmin : g.xmin_.length = g.y_.length) (hdx : g.dx_.length = g.y_.length)
    (hpre : ∀ n ∈ g.nx_.take z, 1 ≤ n) (hz : g.nx_[z]? = some 0) :
    ∃ pts : List (PointXY R),
      (pts.length : Int) = (g.nx_.take z).sum ∧
      ((rowMajor (g.nx_.take z)).map fun c => g.xy c.1 c.2) = pts.map some ∧
      (∀ m : Nat, IteratorXY.nextN g (pts.length + m) g.xy_begin =
        some (pts.map some ++ List.replicate m none, ⟨0, z⟩)) ∧
      (∀ k : Nat, ((pts.length + k : Nat) : Int) ≤ g.size →
        IteratorXY.incrN g (pts.length + k) g.xy_begin = some ⟨k, z⟩ ∧
        IteratorXY.eq ⟨k, z⟩ g.xy_end = false ∧ IteratorXY.ne ⟨k, z⟩ g.xy_end = true) := by
  have wf := g.firstRows_wellFormed z (by omega) hnx hxmin hdx hpre
  obtain ⟨pts, hlen, hpts⟩ := (g.firstRows z).rowMajor_points wf
  have hsz : (g.firstRows z).size = (g.nx_.take z).sum := rfl
  have hnxf : (g.firstRows z).nx_ = g.nx_.take z := rfl
  rw [hnxf] at hpts
  rw [hsz] at hlen
  have hl : (g.nx_.take z).sum.toNat = pts.length := by omega
  have hxy : ((rowMajor (g.nx_.take z)).map fun c => g.xy c.1 c.2) =
      ((rowMajor (g.nx_.take z)).map fun c => (g.firstRows z).xy c.1 c.2) := by
    apply List.map_congr_left
    intro c hc
    have hin := Structured.inRow_of_mem_rowMajor wf (show c ∈ rowMajor (g.firstRows z).nx_ from hc)
    have hj := hin.2.1
    rw [g.firstRows_ny z (by omega)] at hj
    exact (g.firstRows_xy z c.1 c.2 hj).symm
  refine ⟨pts, hlen, by rw [hxy, hpts], ?_, ?_⟩
  · intro m
    rw [← hl, IteratorXY.nextN_before_empty_row g z wf hy hz m, hpts]
  · intro k _
    refine ⟨by rw [← hl]; exact IteratorXY.incrN_before_empty_row g z wf hy hz k, ?_, ?_⟩
    · have hne : ¬ ((z : Int) = g.ny) := by simp only [Structured.ny]; omega
      simp [IteratorXY.eq, Structured.xy_end, IteratorXY.ctor, hne]
    · have hne : ¬ ((z : Int) = g.ny) := by simp only [Structured.ny]; omega
      simp [IteratorXY.ne, Structured.xy_end, IteratorXY.ctor, hne]

/-- Instance of the amended claim C10 on the grid with row counts `{2, 0, 2}`. -/
theorem IteratorXY.traversal_stops_at_empty_row_witness :
    (1 < emptyRowExample.y_.length ∧ emptyRowExample.nx_.length = emptyRowExample.y_.length ∧
      emptyRowExample.xmin_.length = emptyRowExample.y_.length ∧
      emptyRowExample.dx_.length = emptyRowExample.y_.length ∧
      (∀ n ∈ emptyRowExample.nx_.take 1, 1 ≤ n) ∧ emptyRowExample.nx_[1]? = some 0) ∧
    ∃ pts : List (PointXY ℚ),
      (pts.length : Int) = (emptyRowExample.nx_.take 1).sum ∧
      ((rowMajor (emptyRowExample.nx_.take 1)).map fun c => emptyRowExample.xy c.1 c.2)
        = pts.map some ∧
      (∀ m : Nat, IteratorXY.nextN emptyRowExample (pts.length + m) emptyRowExample.xy_begin =
        some (pts.map some ++ List.replicate m none, ⟨0, (1 : Nat)⟩)) ∧
      (∀ k : Nat, ((pts.length + k : Nat) : Int) ≤ emptyRowExample.size →
        IteratorXY.incrN emptyRowExample (pts.length + k) emptyRowExample.xy_begin
          = some ⟨k, (1 : Nat)⟩ ∧
        IteratorXY.eq ⟨k, (1 : Nat)⟩ emptyRowExample.xy_end = false ∧
        IteratorXY.ne ⟨k, (1 : Nat)⟩ emptyRowExample.xy_end = true) :=
  ⟨⟨by decide, rfl, rfl, rfl, by decide, rfl⟩,
    IteratorXY.traversal_stops_at_empty_row emptyRowExample 1 (by decide) rfl rfl rfl
      (by decide) rfl⟩

/-- Counterexample to claim C10 as stated: on the grid with row counts `{2, 0, 2}` and
`size() = 4`, whose rows with points hold four points, `next` returns `true` twice and
then `false`, with the cursor resting on the empty row, so the two points of the last row
are never visited; and `operator++` reaches the empty row after two steps, where the
iterator dereferences to a point of that row, and is not at `xy_end()` after `size()`
steps. -/
theorem IteratorXY.empty_row_not_skipped :
    emptyRowExample.size = emptyRowExample.nx_.sum ∧
    ((rowMajor emptyRowExample.nx_).map fun c => emptyRowExample.xy c.1 c.2) =
      [some ⟨0, 45⟩, some ⟨180, 45⟩, some ⟨0, -45⟩, some ⟨180, -45⟩] ∧
    IteratorXY.nextN emptyRowExample 4 emptyRowExample.xy_begin =
      some ([some ⟨0, 45⟩, some ⟨180, 45⟩, none, none], ⟨0, 1⟩) ∧
    IteratorXY.incrN emptyRowExample 2 emptyRowExample.xy_begin = some ⟨0, 1⟩ ∧
    IteratorXY.deref emptyRowExample ⟨0, 1⟩ = some ⟨0, 0⟩ ∧
    IteratorXY.incrN emptyRowExample 4 emptyRowExample.xy_begin = some ⟨2, 1⟩ ∧
    IteratorXY.eq ⟨2, 1⟩ emptyRowExample.xy_end = false ∧
    ¬ (∃ pts : List (PointXY ℚ),
        ((rowMajor emptyRowExample.nx_).map fun c => emptyRowExample.xy c.1 c.2)
          = pts.map some ∧
        IteratorXY.nextN emptyRowExample emptyRowExample.size.toNat emptyRowExample.xy_begin =
          some (pts.map some, emptyRowExample.xy_end)) := by
  have t2 : Int.toNat 2 = 2 := rfl
  have hnext : IteratorXY.nextN emptyRowExample 4 emptyRowExample.xy_begin =
      some ([some ⟨0, 45⟩, some ⟨180, 45⟩, none, none], ⟨0, 1⟩) := by
    norm_num [IteratorXY.nextN, IteratorXY.next, Structured.xy_begin, IteratorXY.ctor,
      emptyRowExample, reducedExample, Structured.ny, Structured.nx, Structured.xy,
      Structured.x, Structured.y, vecAt]
  refine ⟨rfl, ?_, hnext, by decide, ?_, by decide, by decide, ?_⟩
  · norm_num [rowMajor, rowMajorFrom, List.range, List.range.loop, emptyRowExample,
      reducedExample, Structured.xy, Structured.x, Structured.y, vecAt, List.enumFrom, t2]
  · norm_num [IteratorXY.deref, emptyRowExample, reducedExample, Structured.xy, Structured.x,
      Structured.y, vecAt]
  · rintro ⟨pts, -, h⟩
    have hsz : emptyRowExample.size.toNat = 4 := rfl
    rw [hsz, hnext] at h
    simp only [Option.some.injEq, Prod.mk.injEq] at h
    have h2 := h.2
    simp [Structured.xy_end, IteratorXY.ctor, Structured.ny, emptyRowExample,
      reducedExample] at h2

end EmptyRow

/-! ## The predicate-filtered iterator -/

section Filtered

variable {R : Type} [Add R] [Mul R] [IntCast R]

theorem restrictFrom_nil {α : Type} (p : Int → Bool) (n0 : Nat) :
    restrictFrom p n0 ([] : List α) = [] := rfl

theorem restrictFrom_cons {α : Type} (p : Int → Bool) (n0 : Nat) (a : α) (l : List α) :
    restrictFrom p n0 (a :: l) =
      if p (n0 : Int) then a :: restrictFrom p (n0 + 1) l else restrictFrom p (n0 + 1) l := by
  simp only [restrictFrom, List.enumFrom_cons, List.filter_cons]
  split <;> simp

/-- Positions rejected by the predicate contribute nothing. -/
theorem restrictFrom_drop_skip {α : Type} (p : Int → Bool) (l : List α) (d a : Nat)
    (hb : a + d ≤ l.length) (hp : ∀ k : Nat, a ≤ k → k < a + d → p (k : Int) = false) :
    restrictFrom p a (l.drop a) = restrictFrom p (a + d) (l.drop (a + d)) := by
  induction d generalizing a with
  | zero => rfl
  | succ d ih =>
    have hlt : a < l.length := by omega
    rw [List.drop_eq_getElem_cons hlt, restrictFrom_cons, hp a (Nat.le_refl a) (by omega)]
    simp only [Bool.false_eq_true, if_false]
    have hrec := ih (a + 1) (by omega) (fun k h1 h2 => hp k (by omega) (by omega))
    have e : a + 1 + d = a + (d + 1) := by omega
    rw [e] at hrec
    exact hrec

omit [Add R] [Mul R] [IntCast R] in
/-- The loop of the constructor stops at the first index from `n_` on that the predicate
accepts, or at `size()`, with the cursor at the position of that index. -/
theorem IteratorXYPredicated.ctorLoop_spec {g : Structured R} (wf : g.WellFormed) (fuel : Nat)
    (it : IteratorXYPredicated) (hsize : it.size_ = g.size)
    (h : g.CursorAt (it.i_, it.j_) it.n_) (hfuel : g.size - it.n_ ≤ fuel) :
    ∃ r : IteratorXYPredicated, IteratorXYPredicated.ctorLoop g fuel it = some r ∧
      r.p_ = it.p_ ∧ r.size_ = it.size_ ∧ g.CursorAt (r.i_, r.j_) r.n_ ∧ it.n_ ≤ r.n_ ∧
      (r.n_ = g.size ∨ it.p_ r.n_ = true) ∧
      ∀ k : Int, it.n_ ≤ k → k < r.n_ → it.p_ k = false := by
  induction fuel generalizing it with
  | zero =>
    have hb := h.bounds wf
    have hn : it.n_ = g.size := by omega
    refine ⟨it, ?_, rfl, rfl, h, le_refl _, Or.inl hn, fun k h1 h2 => by omega⟩
    simp [IteratorXYPredicated.ctorLoop, hsize, hn]
  | succ fuel ih =>
    have hb := h.bounds wf
    by_cases hcond : (!it.p_ it.n_ && decide (it.n_ < it.size_)) = true
    · simp only [Bool.and_eq_true, Bool.not_eq_true', decide_eq_true_eq] at hcond
      obtain ⟨hp, hlt0⟩ := hcond
      have hlt : it.n_ < g.size := by rw [← hsize]; exact hlt0
      obtain ⟨hin, hlin⟩ := h.inRow hlt
      obtain ⟨m, hm, hstep⟩ := hin.step wf
      rw [← hlin] at hstep
      simp only at hm hstep
      have hgo : ∀ it2 : IteratorXYPredicated, it2.p_ = it.p_ → it2.size_ = it.size_ →
          it2.n_ = it.n_ + 1 → g.CursorAt (it2.i_, it2.j_) (it.n_ + 1) →
          ∃ r : IteratorXYPredicated, IteratorXYPredicated.ctorLoop g fuel it2 = some r ∧
            r.p_ = it.p_ ∧ r.size_ = it.size_ ∧ g.CursorAt (r.i_, r.j_) r.n_ ∧ it.n_ ≤ r.n_ ∧
            (r.n_ = g.size ∨ it.p_ r.n_ = true) ∧
            ∀ k : Int, it.n_ ≤ k → k < r.n_ → it.p_ k = false := by
        intro it2 hp2 hs2 hn2 hc2
        obtain ⟨r, hr, hrp, hrs, hrc, hrn, hrstop, hrskip⟩ :=
          ih it2 (by rw [hs2, hsize]) (by rw [hn2]; exact hc2) (by rw [hn2]; omega)
        refine ⟨r, hr, by rw [hrp, hp2], by rw [hrs, hs2], hrc, by omega, ?_, ?_⟩
        · rw [← hp2]; exact hrstop
        · intro k hk1 hk2
          by_cases hk : k = it.n_
          · rw [hk]; exact hp
          · rw [← hp2]; exact hrskip k (by omega) hk2
      rcases hstep with ⟨e, hc⟩ | ⟨e, hc⟩
      · obtain ⟨r, hr, hrest⟩ := hgo
          { p_ := it.p_, i_ := 0, j_ := it.j_ + 1, n_ := it.n_ + 1, size_ := it.size_ }
          rfl rfl rfl hc
        exact ⟨r, by simp [IteratorXYPredicated.ctorLoop, hp, hlt0, hm, e, hr], hrest⟩
      · obtain ⟨r, hr, hrest⟩ := hgo
          { p_ := it.p_, i_ := it.i_ + 1, j_ := it.j_, n_ := it.n_ + 1, size_ := it.size_ }
          rfl rfl rfl hc
        exact ⟨r, by simp [IteratorXYPredicated.ctorLoop, hp, hlt0, hm, e, hr], hrest⟩
    · have hres : IteratorXYPredicated.ctorLoop g (fuel + 1) it = some it := by
        simp only [IteratorXYPredicated.ctorLoop, hcond, Bool.false_eq_true, if_false]
      refine ⟨it, hres, rfl, rfl, h, le_refl _, ?_, fun k h1 h2 => by omega⟩
      simp only [Bool.and_eq_true, Bool.not_eq_true', decide_eq_true_eq, not_and, not_lt] at hcond
      cases hp : it.p_ it.n_ with
      | true => right; rfl
      | false => left; have := hcond hp; rw [hsize] at this; omega

omit [Add R] [Mul R] [IntCast R] in
/-- From an index below `size()`, `operator++` stops at the next index that the predicate
accepts, or at `size()`, with the cursor at the position of that index. -/
theorem IteratorXYPredicated.incr_spec {g : Structured R} (wf : g.WellFormed) (fuel : Nat)
    (it : IteratorXYPredicated) (hsize : it.size_ = g.size)
    (h : g.CursorAt (it.i_, it.j_) it.n_) (hlt : it.n_ < g.size)
    (hfuel : g.size - it.n_ ≤ fuel) :
    ∃ r : IteratorXYPredicated, IteratorXYPredicated.incr g fuel it = some r ∧
      r.p_ = it.p_ ∧ r.size_ = it.size_ ∧ g.CursorAt (r.i_, r.j_) r.n_ ∧ it.n_ < r.n_ ∧
      (r.n_ = g.size ∨ it.p_ r.n_ = true) ∧
      ∀ k : Int, it.n_ < k → k < r.n_ → it.p_ k = false := by
  induction fuel generalizing it with
  | zero => omega
  | succ fuel ih =>
    obtain ⟨hin, hlin⟩ := h.inRow hlt
    obtain ⟨m, hm, hstep⟩ := hin.step wf
    rw [← hlin] at hstep
    simp only at hm hstep
    have hgo : ∀ it2 : IteratorXYPredicated, it2.p_ = it.p_ → it2.size_ = it.size_ →
        it2.n_ = it.n_ + 1 → g.CursorAt (it2.i_, it2.j_) (it.n_ + 1) →
        ∃ r : IteratorXYPredicated,
          (if it2.n_ = it2.size_ then some it2
            else if (!it2.p_ it2.n_) = true then IteratorXYPredicated.incr g fuel it2
            else some it2) = some r ∧
          r.p_ = it.p_ ∧ r.size_ = it.size_ ∧ g.CursorAt (r.i_, r.j_) r.n_ ∧ it.n_ < r.n_ ∧
          (r.n_ = g.size ∨ it.p_ r.n_ = true) ∧
          ∀ k : Int, it.n_ < k → k < r.n_ → it.p_ k = false := by
      intro it2 hp2 hs2 hn2 hc2
      by_cases hend : it2.n_ = it2.size_
      · refine ⟨it2, by simp [hend], hp2, hs2, by rw [hn2]; exact hc2, by omega,
          Or.inl (by rw [hend, hs2, hsize]), fun k h1 h2 => by omega⟩
      · cases hp : it2.p_ it2.n_ with
        | true =>
          refine ⟨it2, by simp [hend, hp], hp2, hs2, by rw [hn2]; exact hc2, by omega,
            Or.inr (by rw [← hp2]; exact hp), fun k h1 h2 => by omega⟩
        | false =>
          have hb2 := hc2.bounds wf
          have hlt2 : it2.n_ < g.size := by
            rw [hs2, hsize] at hend; omega
          obtain ⟨r, hr, hrp, hrs, hrc, hrn, hrstop, hrskip⟩ :=
            ih it2 (by rw [hs2, hsize]) (by rw [hn2]; exact hc2) hlt2 (by rw [hn2]; omega)
          refine ⟨r, by simp [hend, hp, hr], by rw [hrp, hp2], by rw [hrs, hs2], hrc,
            by omega, ?_, ?_⟩
          · rw [← hp2]; exact hrstop
          · intro k hk1 hk2
            by_cases hk : k = it2.n_
            · rw [hk, ← hp2]; exact hp
            · rw [← hp2]; exact hrskip k (by omega) hk2
    rcases hstep with ⟨e, hc⟩ | ⟨e, hc⟩
    · obtain ⟨r, hr, hrest⟩ := hgo
        { p_ := it.p_, i_ := 0, j_ := it.j_ + 1, n_ := it.n_ + 1, size_ := it.size_ }
        rfl rfl rfl hc
      refine ⟨r, ?_, hrest⟩
      simp only [IteratorXYPredicated.incr, hm, e, Option.bind_eq_bind, Option.some_bind,
        if_true, Option.pure_def]
      exact hr
    · obtain ⟨r, hr, hrest⟩ := hgo
        { p_ := it.p_, i_ := it.i_ + 1, j_ := it.j_, n_ := it.n_ + 1, size_ := it.size_ }
        rfl rfl rfl hc
      refine ⟨r, ?_, hrest⟩
      simp only [IteratorXYPredicated.incr, hm, e, Option.bind_eq_bind, Option.some_bind,
        if_false, Option.pure_def]
      exact hr

/-- From the position of an index that is accepted by the predicate, or of `size()`, the
loop `for ( ; it != end; ++it )` collects the points at the accepted indices of the
row-major enumeration from that index on. -/
theorem IteratorXYPredicated.range_spec {g : Structured R} (wf : g.WellFormed)
    {pts : List (PointXY R)} (hpts : ((rowMajor g.nx_).map fun c => g.xy c.1 c.2) = pts.map some)
    (incrFuel : Nat) (hincr : g.size ≤ incrFuel) (q : Int → Bool) (fuel : Nat)
    (it : IteratorXYPredicated) (hsize : it.size_ = g.size)
    (h : g.CursorAt (it.i_, it.j_) it.n_) (hacc : it.n_ = g.size ∨ it.p_ it.n_ = true)
    (hfuel : g.size - it.n_ < fuel) :
    IteratorXYPredicated.range g incrFuel fuel it (g.xy_end_p q) =
      some (restrictFrom it.p_ it.n_.toNat (pts.drop it.n_.toNat)) := by
  have hlen : (pts.length : Int) = g.size := by
    have h1 := congrArg List.length hpts
    have h2 := length_rowMajorFrom g.nx_ wf.nx_nonneg 0
    simp only [List.length_map] at h1
    rw [← h1, rowMajor, h2, Structured.size, wf.npts_eq]
  induction fuel generalizing it with
  | zero => have := h.bounds wf; omega
  | succ fuel ih =>
    have hb := h.bounds wf
    by_cases hlt : it.n_ < g.size
    · obtain ⟨hin, hlin⟩ := h.inRow hlt
      simp only at hin
      have hp : it.p_ it.n_ = true := by
        rcases hacc with hacc | hacc
        · omega
        · exact hacc
      obtain ⟨pt, hpt⟩ := hin.xy_eq_some wf
      have hget := hin.getElem?_rowMajor wf
      rw [← hlin] at hget
      have hdrop := drop_eq_cons_of_map_some hpts hget hpt
      obtain ⟨r, hr, hrp, hrs, hrc, hrn, hrstop, hrskip⟩ :=
        IteratorXYPredicated.incr_spec wf incrFuel it hsize h hlt (by omega)
      have hrb := hrc.bounds wf
      have ih1 := ih r (by rw [hrs, hsize]) hrc (by rw [hrp]; exact hrstop) (by omega)
      have hne : IteratorXYPredicated.ne it (g.xy_end_p q) = true := by
        have hj : it.j_ ≠ g.ny := by have := hin.2.1; omega
        simp [IteratorXYPredicated.ne, Structured.xy_end_p, IteratorXYPredicated.ctorInit, hj]
      have hskip := restrictFrom_drop_skip it.p_ pts (r.n_.toNat - (it.n_.toNat + 1))
        (it.n_.toNat + 1) (by omega)
        (fun k h1 h2 => hrskip (k : Int) (by omega) (by omega))
      have e : it.n_.toNat + 1 + (r.n_.toNat - (it.n_.toNat + 1)) = r.n_.toNat := by omega
      rw [e] at hskip
      simp only [IteratorXYPredicated.range, hne, if_true, IteratorXYPredicated.deref, hpt, hr,
        ih1, Option.bind_eq_bind, Option.some_bind, Option.pure_def, hdrop, restrictFrom_cons]
      have hcast : ((it.n_.toNat : Nat) : Int) = it.n_ := by omega
      rw [hcast, hp, hskip, hrp]
      simp
    · have hn : it.n_ = g.size := by omega
      have hend2 : (it.i_, it.j_) = (0, g.ny) := by
        have h2 := h; rw [hn] at h2; exact h2.eq_end wf
      simp only [Prod.mk.injEq] at hend2
      have hdrop : pts.drop it.n_.toNat = [] := by
        apply List.drop_eq_nil_of_le; omega
      simp [IteratorXYPredicated.range, IteratorXYPredicated.ne, Structured.xy_end_p,
        IteratorXYPredicated.ctorInit, hend2.1, hend2.2, hdrop, restrictFrom_nil]

/-- Claim C2.  On a grid whose rows have at least one point and whose `size()` is the sum
of the row counts, and for every predicate `p`, the points collected by dereferencing an
`IteratorXYPredicated` from `xy_begin(p)` and incrementing it until it equals `xy_end(p)`
are the points `full` of the unfiltered begin/end traversal at the linear indices `n`
with `p(n)` true, in the same order; both loops terminate within `size() + 1` tests, the
constructor and each increment within `size()` iterations of their loops. -/
theorem IteratorXYPredicated.filtered_traversal_eq_filter (g : Structured R)
    (wf : g.WellFormed) (p : Int → Bool) :
    ∃ full : List (PointXY R),
      (full.length : Int) = g.size ∧
      (∀ fuel : Nat, g.size < fuel →
        IteratorXY.range g fuel g.xy_begin g.xy_end = some full) ∧
      (∀ ctorFuel incrFuel fuel : Nat, g.size ≤ ctorFuel → g.size ≤ incrFuel → g.size < fuel →
        ∃ b : IteratorXYPredicated, g.xy_begin_p ctorFuel p = some b ∧
          IteratorXYPredicated.range g incrFuel fuel b (g.xy_end_p p) =
            some (restrictFrom p 0 full)) := by
  obtain ⟨pts, hlen, hpts⟩ := g.rowMajor_points wf
  have hbegin : g.CursorAt (0, 0) 0 := Structured.CursorAt.begin wf
  refine ⟨pts, hlen, ?_, ?_⟩
  · intro fuel hfuel
    have hx := IteratorXY.range_of_cursorAt wf hpts fuel
      (show g.CursorAt ((g.xy_begin).i_, (g.xy_begin).j_) 0 from hbegin) (by omega)
    simpa using hx
  · intro ctorFuel incrFuel fuel hc hi hf
    obtain ⟨r, hr, hrp, hrs, hrc, hrn, hrstop, hrskip⟩ :=
      IteratorXYPredicated.ctorLoop_spec wf ctorFuel (IteratorXYPredicated.ctorInit g p true)
        rfl hbegin (by simp only [IteratorXYPredicated.ctorInit]; omega)
    have hp0 : (IteratorXYPredicated.ctorInit g p true).p_ = p := rfl
    have hn0 : (IteratorXYPredicated.ctorInit g p true).n_ = 0 := rfl
    rw [hp0] at hrp hrstop hrskip
    rw [hn0] at hrn hrskip
    have hrb := hrc.bounds wf
    refine ⟨r, by simp [Structured.xy_begin_p, IteratorXYPredicated.ctor, hr], ?_⟩
    rw [IteratorXYPredicated.range_spec wf hpts incrFuel hi p fuel r (by rw [hrs]; rfl) hrc
      (by rw [hrp]; exact hrstop) (by omega), hrp]
    have hskip := restrictFrom_drop_skip p pts r.n_.toNat 0 (by omega)
      (fun k h1 h2 => hrskip (k : Int) (by omega) (by omega))
    simp only [List.drop_zero, Nat.zero_add] at hskip
    rw [hskip]

/-- Instance of claim C2 on the reduced grid `{2, 4, 2}` with the predicate that accepts
the indices `1, 4, 7`. -/
theorem IteratorXYPredicated.filtered_traversal_eq_filter_witness :
    reducedExample.WellFormed ∧
    ∃ full : List (PointXY ℚ),
      (full.length : Int) = reducedExample.size ∧
      (∀ fuel : Nat, reducedExample.size < fuel →
        IteratorXY.range reducedExample fuel reducedExample.xy_begin reducedExample.xy_end
          = some full) ∧
      (∀ ctorFuel incrFuel fuel : Nat, reducedExample.size ≤ ctorFuel →
        reducedExample.size ≤ incrFuel → reducedExample.size < fuel →
        ∃ b : IteratorXYPredicated,
          reducedExample.xy_begin_p ctorFuel (fun n => n % 3 == 1) = some b ∧
          IteratorXYPredicated.range reducedExample incrFuel fuel b
              (reducedExample.xy_end_p (fun n => n % 3 == 1)) =
            some (restrictFrom (fun n => n % 3 == 1) 0 full)) :=
  ⟨reducedExample_wellFormed,
    IteratorXYPredicated.filtered_traversal_eq_filter reducedExample reducedExample_wellFormed
      (fun n => n % 3 == 1)⟩

end Filtered

/-! ## The two traversal protocols, step by step -/

section Protocols

variable {R : Type} [Add R] [Mul R] [IntCast R]

theorem Structured.xy_eq_some_of_lt (g : Structured R) (i j : Int) (hj0 : 0 ≤ j)
    (hj : j < g.ny) (hxmin : g.xmin_.length = g.y_.length) (hdx : g.dx_.length = g.y_.length) :
    ∃ pt, g.xy i j = some pt := by
  simp only [Structured.ny] at hj
  obtain ⟨a, ha, -⟩ := vecAt_of_lt g.xmin_ j hj0 (by rw [hxmin]; exact hj)
  obtain ⟨d, hd, -⟩ := vecAt_of_lt g.dx_ j hj0 (by rw [hdx]; exact hj)
  obtain ⟨b, hb, -⟩ := vecAt_of_lt g.y_ j hj0 hj
  exact ⟨⟨a + (i : R) * d, b⟩, by simp [Structured.xy, Structured.x, Structured.y, ha, hd, hb]⟩

/-- Claim C20.  At a cursor `(i, j)` with `j < ny()` and `i < nx[j]`, `next` returns `true`,
stores the point that `operator*` returns at that cursor, and leaves the cursor as one
`operator++` from that cursor does; and likewise for `IteratorLonLat` with `lonlat`. -/
theorem IteratorXY.next_agrees_with_deref_incr (g : Structured R) (i j m : Int)
    (hj : j < g.ny) (hm : g.nx j = some m) (hi : i < m)
    (hxmin : g.xmin_.length = g.y_.length) (hdx : g.dx_.length = g.y_.length) :
    (∃ (pt : PointXY R) (it1 : IteratorXY),
      IteratorXY.next g ⟨i, j⟩ = some (some pt, it1) ∧
      IteratorXY.deref g ⟨i, j⟩ = some pt ∧
      IteratorXY.incr g ⟨i, j⟩ = some it1) ∧
    (∃ (ll : PointLonLat R) (it1 : IteratorLonLat),
      IteratorLonLat.next g ⟨i, j⟩ = some (some ll, it1) ∧
      IteratorLonLat.deref g ⟨i, j⟩ = some ll ∧
      IteratorLonLat.incr g ⟨i, j⟩ = some it1) := by
  have hj0 : 0 ≤ j := ((vecAt_eq_some g.nx_ j m).mp hm).1
  obtain ⟨pt, hpt⟩ := g.xy_eq_some_of_lt i j hj0 hj hxmin hdx
  by_cases e : i + 1 = m
  · exact ⟨⟨pt, ⟨0, j + 1⟩, by simp [IteratorXY.next, hj, hm, hi, hpt, e],
        by simp [IteratorXY.deref, hpt], by simp [IteratorXY.incr, hm, e]⟩,
      ⟨g.projection_.lonlat pt, ⟨0, j + 1⟩,
        by simp [IteratorLonLat.next, Structured.lonlat, hj, hm, hi, hpt, e],
        by simp [IteratorLonLat.deref, Structured.lonlat, hpt],
        by simp [IteratorLonLat.incr, hm, e]⟩⟩
  · exact ⟨⟨pt, ⟨i + 1, j⟩, by simp [IteratorXY.next, hj, hm, hi, hpt, e],
        by simp [IteratorXY.deref, hpt], by simp [IteratorXY.incr, hm, e]⟩,
      ⟨g.projection_.lonlat pt, ⟨i + 1, j⟩,
        by simp [IteratorLonLat.next, Structured.lonlat, hj, hm, hi, hpt, e],
        by simp [IteratorLonLat.deref, Structured.lonlat, hpt],
        by simp [IteratorLonLat.incr, hm, e]⟩⟩

/-- Instance of claim C20 at the last column of the first row of the reduced grid
`{2, 4, 2}`. -/
theorem IteratorXY.next_agrees_with_deref_incr_witness :
    ((0 : Int) < reducedExample.ny ∧ reducedExample.nx 0 = some 2 ∧ (1 : Int) < 2 ∧
      reducedExample.xmin_.length = reducedExample.y_.length ∧
      reducedExample.dx_.length = reducedExample.y_.length) ∧
    (∃ (pt : PointXY ℚ) (it1 : IteratorXY),
      IteratorXY.next reducedExample ⟨1, 0⟩ = some (some pt, it1) ∧
      IteratorXY.deref reducedExample ⟨1, 0⟩ = some pt ∧
      IteratorXY.incr reducedExample ⟨1, 0⟩ = some it1) ∧
    (∃ (ll : PointLonLat ℚ) (it1 : IteratorLonLat),
      IteratorLonLat.next reducedExample ⟨1, 0⟩ = some (some ll, it1) ∧
      IteratorLonLat.deref reducedExample ⟨1, 0⟩ = some ll ∧
      IteratorLonLat.incr reducedExample ⟨1, 0⟩ = some it1) :=
  ⟨⟨by decide, rfl, by decide, rfl, rfl⟩,
    IteratorXY.next_agrees_with_deref_incr reducedExample 1 0 2 (by decide) rfl (by decide)
      rfl rfl⟩

/-- Any number of `next` calls from a position of the grid leads to a position of the
grid. -/
theorem IteratorXY.nextN_cursorAt {g : Structured R} (wf : g.WellFormed) (k : Nat)
    {it : IteratorXY} {n : Int} (h : g.CursorAt (it.i_, it.j_) n) :
    ∃ (outs : List (Option (PointXY R))) (it1 : IteratorXY) (n1 : Int),
      IteratorXY.nextN g k it = some (outs, it1) ∧ g.CursorAt (it1.i_, it1.j_) n1 := by
  induction k generalizing it n with
  | zero => exact ⟨[], it, n, rfl, h⟩
  | succ k ih =>
    have hb := h.bounds wf
    by_cases hlt : n < g.size
    · obtain ⟨hin, -⟩ := h.inRow hlt
      obtain ⟨pt, it1, -, hinc, hnext⟩ := IteratorXY.next_of_inRow wf hin
      obtain ⟨it2, hinc2, hc⟩ := IteratorXY.incr_of_cursorAt wf h hlt
      rw [hinc] at hinc2; cases hinc2
      obtain ⟨outs, it3, n3, h3, hc3⟩ := ih hc
      exact ⟨some pt :: outs, it3, n3, by simp [IteratorXY.nextN, hnext, h3], hc3⟩
    · have hn : n = g.size := by omega
      subst hn
      have hend := h.eq_end wf
      simp only [Prod.mk.injEq] at hend
      have hit : it = ⟨0, g.ny⟩ := by cases it; simp_all
      obtain ⟨outs, it3, n3, h3, hc3⟩ := ih h
      refine ⟨none :: outs, it3, n3, ?_, hc3⟩
      rw [hit] at h3 ⊢
      simp [IteratorXY.nextN, IteratorXY.next_end, h3]

omit [Add R] [Mul R] [IntCast R] in
theorem Structured.CursorAt.end_or_inRow {g : Structured R} {it : IteratorXY} {n : Int}
    (h : g.CursorAt (it.i_, it.j_) n) : it = g.xy_end ∨ g.InRow it.i_ it.j_ := by
  rcases h with ⟨h, -⟩ | ⟨h, -⟩
  · exact Or.inr h
  · left
    simp only [Prod.mk.injEq] at h
    cases it
    simp_all [Structured.xy_end, IteratorXY.ctor]

/-- Claim C19.  On a grid whose rows have at least one point (with the per-row tables of
`ny()` entries and `size()` the sum of the row counts), every cursor reached from
`xy_begin()` by at most `size()` increments, or by any number of `next` calls, is the end
cursor `(0, ny())` or satisfies `0 ≤ j < ny()` and `0 ≤ i < nx[j]`; at such a cursor the
reads of `nx_[j]`, `xmin_[j]`, `dx_[j]`, `y_[j]` are within bounds and `next`, `operator*`
and `operator++` return; and `next` at the end cursor reads no table. -/
theorem IteratorXY.cursors_within_bounds (g : Structured R) (wf : g.WellFormed) :
    (∀ k : Nat, (k : Int) ≤ g.size →
      ∃ it : IteratorXY, IteratorXY.incrN g k g.xy_begin = some it ∧
        (it = g.xy_end ∨
          (0 ≤ it.j_ ∧ it.j_ < g.ny ∧ 0 ≤ it.i_ ∧ ∃ m, g.nx it.j_ = some m ∧ it.i_ < m))) ∧
    (∀ k : Nat, ∃ (outs : List (Option (PointXY R))) (it : IteratorXY),
      IteratorXY.nextN g k g.xy_begin = some (outs, it) ∧
        (it = g.xy_end ∨
          (0 ≤ it.j_ ∧ it.j_ < g.ny ∧ 0 ≤ it.i_ ∧ ∃ m, g.nx it.j_ = some m ∧ it.i_ < m))) ∧
    (∀ i j : Int, 0 ≤ j → j < g.ny → 0 ≤ i → (∃ m, g.nx j = some m ∧ i < m) →
      (∃ (m : Int) (a d b : R), g.nx j = some m ∧ vecAt g.xmin_ j = some a ∧
        vecAt g.dx_ j = some d ∧ vecAt g.y_ j = some b) ∧
      (∃ r, IteratorXY.next g ⟨i, j⟩ = some r) ∧
      (∃ pt, IteratorXY.deref g ⟨i, j⟩ = some pt) ∧
      (∃ it1, IteratorXY.incr g ⟨i, j⟩ = some it1)) ∧
    IteratorXY.next g g.xy_end = some (none, g.xy_end) := by
  have hbegin : g.CursorAt ((g.xy_begin).i_, (g.xy_begin).j_) 0 := Structured.CursorAt.begin wf
  refine ⟨?_, ?_, ?_, ?_⟩
  · intro k hk
    obtain ⟨it, hit, hc⟩ := IteratorXY.incrN_of_cursorAt wf k hbegin (by omega)
    exact ⟨it, hit, hc.end_or_inRow⟩
  · intro k
    obtain ⟨outs, it, n, hit, hc⟩ := IteratorXY.nextN_cursorAt wf k hbegin
    exact ⟨outs, it, hit, hc.end_or_inRow⟩
  · intro i j hj0 hj hi0 hm
    have hin : g.InRow i j := ⟨hj0, hj, hi0, hm⟩
    obtain ⟨pt, it1, hpt, hinc, hnext⟩ :=
      IteratorXY.next_of_inRow wf (show g.InRow (IteratorXY.mk i j).i_ (IteratorXY.mk i j).j_ from hin)
    obtain ⟨m, hm1, -⟩ := hm
    have hjy : j < (g.y_.length : Int) := hj
    obtain ⟨a, ha, -⟩ := vecAt_of_lt g.xmin_ j hj0 (by rw [wf.xmin_len]; exact hjy)
    obtain ⟨d, hd, -⟩ := vecAt_of_lt g.dx_ j hj0 (by rw [wf.dx_len]; exact hjy)
    obtain ⟨b, hb, -⟩ := vecAt_of_lt g.y_ j hj0 hjy
    exact ⟨⟨m, a, d, b, hm1, ha, hd, hb⟩, ⟨_, hnext⟩, ⟨pt, hpt⟩, ⟨it1, hinc⟩⟩
  · exact IteratorXY.next_end g

/-- Instance of claim C19 on the reduced grid `{2, 4, 2}`. -/
theorem IteratorXY.cursors_within_bounds_witness :
    reducedExample.WellFormed ∧
    (∀ k : Nat, (k : Int) ≤ reducedExample.size →
      ∃ it : IteratorXY, IteratorXY.incrN reducedExample k reducedExample.xy_begin = some it ∧
        (it = reducedExample.xy_end ∨
          (0 ≤ it.j_ ∧ it.j_ < reducedExample.ny ∧ 0 ≤ it.i_ ∧
            ∃ m, reducedExample.nx it.j_ = some m ∧ it.i_ < m))) :=
  ⟨reducedExample_wellFormed,
    (IteratorXY.cursors_within_bounds reducedExample reducedExample_wellFormed).1⟩

end Protocols

/-! ## State of the predicate-filtered iterator -/

section FilteredState

variable {R : Type}

theorem IteratorXYPredicated.ctorLoop_fuel_mono (g : Structured R) (fuel : Nat)
    (it b : IteratorXYPredicated) (h : IteratorXYPredicated.ctorLoop g fuel it = some b) :
    IteratorXYPredicated.ctorLoop g (fuel + 1) it = some b := by
  induction fuel generalizing it with
  | zero =>
    simp only [IteratorXYPredicated.ctorLoop] at h ⊢
    split at h
    · cases h
    · rename_i hc; simp only [hc, if_false]; exact h
  | succ fuel ih =>
    rw [IteratorXYPredicated.ctorLoop] at h ⊢
    split at h
    · rename_i hc
      simp only [hc, if_true]
      cases hm : g.nx it.j_ with
      | none => simp [hm] at h
      | some m =>
        simp only [hm, Option.bind_eq_bind, Option.some_bind] at h ⊢
        exact ih _ h
    · rename_i hc; simp only [hc, if_false]; exact h

theorem IteratorXYPredicated.incr_fuel_mono (g : Structured R) (fuel : Nat)
    (it r : IteratorXYPredicated) (h : IteratorXYPredicated.incr g fuel it = some r) :
    IteratorXYPredicated.incr g (fuel + 1) it = some r := by
  induction fuel generalizing it with
  | zero => simp [IteratorXYPredicated.incr] at h
  | succ fuel ih =>
    rw [IteratorXYPredicated.incr] at h ⊢
    cases hm : g.nx it.j_ with
    | none => simp [hm] at h
    | some m =>
      by_cases e : it.i_ + 1 = m <;> by_cases hend : it.n_ + 1 = it.size_ <;>
        cases hp : it.p_ (it.n_ + 1) <;>
        simp only [hm, e, hend, hp, Option.bind_eq_bind, Option.some_bind, if_true, if_false,
          Bool.not_true, Bool.not_false, Bool.false_eq_true, Option.pure_def] at h ⊢ <;>
        first
        | exact h
        | exact ih _ h

theorem IteratorXYPredicated.ctorLoop_fuel_add (g : Structured R) (fuel d : Nat)
    (it b : IteratorXYPredicated) (h : IteratorXYPredicated.ctorLoop g fuel it = some b) :
    IteratorXYPredicated.ctorLoop g (fuel + d) it = some b := by
  induction d with
  | zero => exact h
  | succ d ih => exact IteratorXYPredicated.ctorLoop_fuel_mono g (fuel + d) it b ih

theorem IteratorXYPredicated.incr_fuel_add (g : Structured R) (fuel d : Nat)
    (it r : IteratorXYPredicated) (h : IteratorXYPredicated.incr g fuel it = some r) :
    IteratorXYPredicated.incr g (fuel + d) it = some r := by
  induction d with
  | zero => exact h
  | succ d ih => exact IteratorXYPredicated.incr_fuel_mono g (fuel + d) it r ih

theorem Structured.CursorAt.linearIndex_eq {g : Structured R} (wf : g.WellFormed)
    {c : Int × Int} {n : Int} (h : g.CursorAt c n) : n = g.linearIndex c.1 c.2 := by
  rcases h with ⟨-, h⟩ | ⟨hc, hn⟩
  · exact h
  · rw [hn, hc]; exact (Structured.linearIndex_end wf).symm

theorem Structured.CursorAt.getElem?_position {g : Structured R} (wf : g.WellFormed)
    {c : Int × Int} {n : Int} (h : g.CursorAt c n) :
    (rowMajor g.nx_ ++ [(0, g.ny)])[n.toNat]? = some c := by
  have hlen := length_rowMajorFrom g.nx_ wf.nx_nonneg 0
  have hsz : g.size = g.nx_.sum := wf.npts_eq
  rcases h with ⟨hin, hn⟩ | ⟨hc, hn⟩
  · have hget := hin.getElem?_rowMajor wf
    rw [← hn] at hget
    obtain ⟨hlt, -⟩ := List.getElem?_eq_some_iff.mp hget
    rw [List.getElem?_append_left hlt]
    exact hget
  · have hidx : n.toNat = (rowMajor g.nx_).length := by
      simp only [rowMajor]; omega
    rw [hidx, List.getElem?_append_right (Nat.le_refl _), hc]
    simp

theorem Structured.CursorAt.eq_end_iff {g : Structured R} (wf : g.WellFormed)
    {i j n : Int} (h : g.CursorAt (i, j) n) : (i = 0 ∧ j = g.ny) ↔ n = g.size := by
  constructor
  · rintro ⟨-, hj⟩
    rcases h with ⟨hin, -⟩ | ⟨-, hn⟩
    · have := hin.2.1; simp only at this; omega
    · exact hn
  · intro hn
    rw [hn] at h
    have := h.eq_end wf
    simpa using this

/-- Whatever the bound on its iterations, a constructor loop that returns has stopped at
the first accepted index from `n_` on, or at `size()`. -/
theorem IteratorXYPredicated.ctorLoop_props {g : Structured R} (wf : g.WellFormed)
    (fuel : Nat) (it b : IteratorXYPredicated) (hsize : it.size_ = g.size)
    (h : g.CursorAt (it.i_, it.j_) it.n_)
    (hb : IteratorXYPredicated.ctorLoop g fuel it = some b) :
    b.p_ = it.p_ ∧ b.size_ = it.size_ ∧ g.CursorAt (b.i_, b.j_) b.n_ ∧ it.n_ ≤ b.n_ ∧
      (b.n_ = g.size ∨ it.p_ b.n_ = true) ∧
      ∀ k : Int, it.n_ ≤ k → k < b.n_ → it.p_ k = false := by
  have hbd := h.bounds wf
  obtain ⟨r, hr, hrest⟩ := IteratorXYPredicated.ctorLoop_spec wf (fuel + g.size.toNat) it hsize h
    (by push_cast; omega)
  rw [IteratorXYPredicated.ctorLoop_fuel_add g fuel g.size.toNat it b hb] at hr
  cases hr
  exact hrest

/-- Whatever the bound on its iterations, an `operator++` from an index below `size()`
that returns has stopped at the next accepted index, or at `size()`. -/
theorem IteratorXYPredicated.incr_props {g : Structured R} (wf : g.WellFormed)
    (fuel : Nat) (it r : IteratorXYPredicated) (hsize : it.size_ = g.size)
    (h : g.CursorAt (it.i_, it.j_) it.n_) (hlt : it.n_ < g.size)
    (hr : IteratorXYPredicated.incr g fuel it = some r) :
    r.p_ = it.p_ ∧ r.size_ = it.size_ ∧ g.CursorAt (r.i_, r.j_) r.n_ ∧ it.n_ < r.n_ ∧
      (r.n_ = g.size ∨ it.p_ r.n_ = true) ∧
      ∀ k : Int, it.n_ < k → k < r.n_ → it.p_ k = false := by
  have hbd := h.bounds wf
  obtain ⟨r1, hr1, hrest⟩ := IteratorXYPredicated.incr_spec wf (fuel + g.size.toNat) it hsize h
    hlt (by push_cast; omega)
  rw [IteratorXYPredicated.incr_fuel_add g fuel g.size.toNat it r hr] at hr1
  cases hr1
  exact hrest

/-- Claim C16.  On a grid whose rows have at least one point and whose `size()` is the sum
of the row counts, the constructor of a begin `IteratorXYPredicated` returns (within
`size()` iterations of its loop) with the index `n` at the least index of `[0, size())`
that `p` accepts, or at `size()` when `p` rejects all of `[0, size())`; the cursor is the
row-major position of `n`, and it is the end cursor `(0, ny())`, equal to `xy_end(p)`,
exactly when `n = size()`. -/
theorem IteratorXYPredicated.ctor_stops_at_first_accepted (g : Structured R)
    (wf : g.WellFormed) (p : Int → Bool) (fuel : Nat) (hfuel : g.size ≤ fuel) :
    ∃ b : IteratorXYPredicated, g.xy_begin_p fuel p = some b ∧
      b.p_ = p ∧ b.size_ = g.size ∧ 0 ≤ b.n_ ∧ b.n_ ≤ g.size ∧
      (∀ k : Int, 0 ≤ k → k < b.n_ → p k = false) ∧
      (b.n_ < g.size → p b.n_ = true) ∧
      (b.n_ = g.size ↔ ∀ k : Int, 0 ≤ k → k < g.size → p k = false) ∧
      (rowMajor g.nx_ ++ [(0, g.ny)])[b.n_.toNat]? = some (b.i_, b.j_) ∧
      ((b.i_ = 0 ∧ b.j_ = g.ny) ↔ b.n_ = g.size) ∧
      (IteratorXYPredicated.eq b (g.xy_end_p p) = true ↔ b.n_ = g.size) := by
  have hbegin : g.CursorAt (0, 0) 0 := Structured.CursorAt.begin wf
  obtain ⟨r, hr, hrp, hrs, hrc, hrn, hrstop, hrskip⟩ :=
    IteratorXYPredicated.ctorLoop_spec wf fuel (IteratorXYPredicated.ctorInit g p true)
      rfl hbegin (by simp only [IteratorXYPredicated.ctorInit]; omega)
  have hp0 : (IteratorXYPredicated.ctorInit g p true).p_ = p := rfl
  have hn0 : (IteratorXYPredicated.ctorInit g p true).n_ = 0 := rfl
  have hs0 : (IteratorXYPredicated.ctorInit g p true).size_ = g.size := rfl
  rw [hp0] at hrp hrstop hrskip
  rw [hn0] at hrn hrskip
  rw [hs0] at hrs
  have hrb := hrc.bounds wf
  have hend := hrc.eq_end_iff wf
  refine ⟨r, by simp [Structured.xy_begin_p, IteratorXYPredicated.ctor, hr], hrp, hrs, hrn,
    hrb.2, hrskip, ?_, ?_, hrc.getElem?_position wf, hend, ?_⟩
  · intro hlt
    rcases hrstop with h | h
    · omega
    · exact h
  · constructor
    · intro hn k hk0 hk; exact hrskip k hk0 (by omega)
    · intro hall
      by_contra hne
      have hlt : r.n_ < g.size := by omega
      have hacc : p r.n_ = true := by
        rcases hrstop with h | h
        · omega
        · exact h
      rw [hall r.n_ hrn hlt] at hacc
      cases hacc
  · rw [← hend]
    simp only [IteratorXYPredicated.eq, Structured.xy_end_p, IteratorXYPredicated.ctorInit,
      Bool.and_eq_true, beq_iff_eq, Bool.false_eq_true, if_false]
    constructor
    · intro h; exact ⟨h.2, h.1⟩
    · intro h; exact ⟨h.2, h.1⟩

/-- Instance of claim C16 on the reduced grid `{2, 4, 2}` with the predicate that accepts
the indices from `3` on. -/
theorem IteratorXYPredicated.ctor_stops_at_first_accepted_witness :
    (reducedExample.WellFormed ∧ reducedExample.size ≤ ((8 : Nat) : Int)) ∧
    ∃ b : IteratorXYPredicated, reducedExample.xy_begin_p 8 (fun n => decide (3 ≤ n)) = some b ∧
      b.p_ = (fun n => decide (3 ≤ n)) ∧ b.size_ = reducedExample.size ∧
      0 ≤ b.n_ ∧ b.n_ ≤ reducedExample.size ∧
      (∀ k : Int, 0 ≤ k → k < b.n_ → (fun n => decide (3 ≤ n)) k = false) ∧
      (b.n_ < reducedExample.size → (fun n => decide (3 ≤ n)) b.n_ = true) ∧
      (b.n_ = reducedExample.size ↔
        ∀ k : Int, 0 ≤ k → k < reducedExample.size → (fun n => decide (3 ≤ n)) k = false) ∧
      (rowMajor reducedExample.nx_ ++ [(0, reducedExample.ny)])[b.n_.toNat]?
        = some (b.i_, b.j_) ∧
      ((b.i_ = 0 ∧ b.j_ = reducedExample.ny) ↔ b.n_ = reducedExample.size) ∧
      (IteratorXYPredicated.eq b (reducedExample.xy_end_p (fun n => decide (3 ≤ n))) = true ↔
        b.n_ = reducedExample.size) :=
  ⟨⟨reducedExample_wellFormed, by decide⟩,
    IteratorXYPredicated.ctor_stops_at_first_accepted reducedExample reducedExample_wellFormed
      (fun n => decide (3 ≤ n)) 8 (by decide)⟩

/-- Claim C17.  On a grid whose rows have at least one point and whose `size()` is the sum
of the row counts, `operator++` applied to an iterator whose index `n` is below `size()`
(its cursor being the row-major position of `n`) returns within `size() - n` iterations
of its loop and leaves the index at the least `m > n` with `m < size()` that `p` accepts,
or at `size()` when there is none, the cursor being the row-major position of the new
index; at `size()` the cursor is `(0, ny())` and the iterator compares equal to
`xy_end(p)`. -/
theorem IteratorXYPredicated.incr_stops_at_next_accepted (g : Structured R)
    (wf : g.WellFormed) (it : IteratorXYPredicated) (hsize : it.size_ = g.size)
    (hcur : g.CursorAt (it.i_, it.j_) it.n_) (hlt : it.n_ < g.size)
    (fuel : Nat) (hfuel : g.size - it.n_ ≤ fuel) :
    ∃ r : IteratorXYPredicated, IteratorXYPredicated.incr g fuel it = some r ∧
      r.p_ = it.p_ ∧ r.size_ = it.size_ ∧ it.n_ < r.n_ ∧ r.n_ ≤ g.size ∧
      (∀ k : Int, it.n_ < k → k < r.n_ → it.p_ k = false) ∧
      (r.n_ < g.size → it.p_ r.n_ = true) ∧
      (r.n_ = g.size ↔ ∀ k : Int, it.n_ < k → k < g.size → it.p_ k = false) ∧
      (rowMajor g.nx_ ++ [(0, g.ny)])[r.n_.toNat]? = some (r.i_, r.j_) ∧
      (r.n_ = g.size →
        r.i_ = 0 ∧ r.j_ = g.ny ∧ IteratorXYPredicated.eq r (g.xy_end_p it.p_) = true ∧
          IteratorXYPredicated.ne r (g.xy_end_p it.p_) = false) := by
  obtain ⟨r, hr, hrp, hrs, hrc, hrn, hrstop, hrskip⟩ :=
    IteratorXYPredicated.incr_spec wf fuel it hsize hcur hlt hfuel
  have hrb := hrc.bounds wf
  have hacc : r.n_ < g.size → it.p_ r.n_ = true := by
    intro h
    rcases hrstop with h1 | h1
    · omega
    · exact h1
  refine ⟨r, hr, hrp, hrs, hrn, hrb.2, hrskip, hacc, ?_, hrc.getElem?_position wf, ?_⟩
  · constructor
    · intro hn k hk0 hk; exact hrskip k hk0 (by omega)
    · intro hall
      by_contra hne
      have hlt2 : r.n_ < g.size := by omega
      have h1 := hacc hlt2
      rw [hall r.n_ hrn hlt2] at h1
      cases h1
  · intro hn
    obtain ⟨hi, hj⟩ := (hrc.eq_end_iff wf).mpr hn
    refine ⟨hi, hj, ?_, ?_⟩
    · simp [IteratorXYPredicated.eq, Structured.xy_end_p, IteratorXYPredicated.ctorInit, hi, hj]
    · simp [IteratorXYPredicated.ne, Structured.xy_end_p, IteratorXYPredicated.ctorInit, hi, hj]

/-- Instance of claim C17 on the reduced grid `{2, 4, 2}`: the iterator at index `1`, cursor
`(1, 0)`, with the predicate that accepts the indices `1, 4, 7`. -/
theorem IteratorXYPredicated.incr_stops_at_next_accepted_witness :
    ((8 : Int) = reducedExample.size ∧ reducedExample.CursorAt (1, 0) 1 ∧
      (1 : Int) < reducedExample.size ∧ reducedExample.size - 1 ≤ ((7 : Nat) : Int)) ∧
    ∃ r : IteratorXYPredicated,
      IteratorXYPredicated.incr reducedExample 7 ⟨fun n => n % 3 == 1, 1, 0, 1, 8⟩ = some r ∧
      r.n_ = 4 ∧ r.i_ = 2 ∧ r.j_ = 1 := by
  have hcur : reducedExample.CursorAt (1, 0) 1 :=
    Or.inl ⟨⟨by decide, by decide, by decide, 2, rfl, by decide⟩, by decide⟩
  refine ⟨⟨rfl, hcur, by decide, by decide⟩, ?_⟩
  obtain ⟨r, hr, -⟩ := IteratorXYPredicated.incr_stops_at_next_accepted reducedExample
    reducedExample_wellFormed ⟨fun n => n % 3 == 1, 1, 0, 1, 8⟩ rfl hcur (by decide) 7
    (by decide)
  have hval : IteratorXYPredicated.incr reducedExample 7 ⟨fun n => n % 3 == 1, 1, 0, 1, 8⟩
      = some ⟨fun n => n % 3 == 1, 2, 1, 4, 8⟩ := rfl
  rw [hval] at hr
  cases hr
  exact ⟨_, hval, rfl, rfl, rfl⟩

/-- Claim C18.  On a grid whose rows have at least one point and whose `size()` is the sum
of the row counts, every iterator obtained by constructing a begin iterator for `p` and
calling `operator++` while `n < size()` keeps the predicate and `size_ = size()`, has
`0 ≤ n ≤ size()` and `n` equal to the row-major linear index of its cursor, the number
of points of the rows before `j` plus `i`, with `0 ≤ j ≤ ny()`, `0 ≤ i < nx[j]` whenever
`j < ny()`, and `i = 0` when `j = ny()`. -/
theorem IteratorXYPredicated.reachable_invariant (g : Structured R) (wf : g.WellFormed)
    (p : Int → Bool) (it : IteratorXYPredicated)
    (h : IteratorXYPredicated.Reachable g p it) :
    it.p_ = p ∧ it.size_ = g.size ∧ 0 ≤ it.n_ ∧ it.n_ ≤ g.size ∧
      it.n_ = (g.nx_.take it.j_.toNat).sum + it.i_ ∧
      0 ≤ it.j_ ∧ it.j_ ≤ g.ny ∧
      (it.j_ < g.ny → 0 ≤ it.i_ ∧ ∃ m, g.nx it.j_ = some m ∧ it.i_ < m) ∧
      (it.j_ = g.ny → it.i_ = 0) := by
  have key : it.p_ = p ∧ it.size_ = g.size ∧ g.CursorAt (it.i_, it.j_) it.n_ := by
    induction h with
    | begin fuel b hb =>
      simp only [Structured.xy_begin_p, IteratorXYPredicated.ctor, if_true] at hb
      obtain ⟨hp, hs, hc, -⟩ := IteratorXYPredicated.ctorLoop_props wf fuel
        (IteratorXYPredicated.ctorInit g p true) b rfl (Structured.CursorAt.begin wf) hb
      exact ⟨hp, hs, hc⟩
    | incr fuel it r _ hlt hr ih =>
      obtain ⟨hp, hs, hc⟩ := ih
      obtain ⟨hp2, hs2, hc2, -⟩ := IteratorXYPredicated.incr_props wf fuel it r hs hc hlt hr
      exact ⟨by rw [hp2, hp], by rw [hs2, hs], hc2⟩
  obtain ⟨hp, hs, hc⟩ := key
  have hb := hc.bounds wf
  have hlin := hc.linearIndex_eq wf
  simp only [Structured.linearIndex] at hlin
  refine ⟨hp, hs, hb.1, hb.2, hlin, ?_, ?_, ?_, ?_⟩
  · rcases hc with ⟨hin, -⟩ | ⟨he, -⟩
    · exact hin.1
    · simp only [Prod.mk.injEq] at he; rw [he.2]; simp [Structured.ny]
  · rcases hc with ⟨hin, -⟩ | ⟨he, -⟩
    · exact le_of_lt hin.2.1
    · simp only [Prod.mk.injEq] at he; rw [he.2]
  · intro hj
    rcases hc with ⟨hin, -⟩ | ⟨he, -⟩
    · exact ⟨hin.2.2.1, hin.2.2.2⟩
    · simp only [Prod.mk.injEq] at he; omega
  · intro hj
    rcases hc with ⟨hin, -⟩ | ⟨he, -⟩
    · have := hin.2.1; simp only at this; omega
    · simp only [Prod.mk.injEq] at he; exact he.1

/-- Instance of claim C18 on the reduced grid `{2, 4, 2}`: the begin iterator of the
predicate that accepts the indices `1, 4, 7`, incremented once. -/
theorem IteratorXYPredicated.reachable_invariant_witness :
    (reducedExample.WellFormed ∧
      IteratorXYPredicated.Reachable reducedExample (fun n => n % 3 == 1)
        ⟨fun n => n % 3 == 1, 2, 1, 4, 8⟩) ∧
    (4 : Int) = (reducedExample.nx_.take (1 : Int).toNat).sum + 2 :=
  have hreach : IteratorXYPredicated.Reachable reducedExample (fun n => n % 3 == 1)
      ⟨fun n => n % 3 == 1, 2, 1, 4, 8⟩ :=
    IteratorXYPredicated.Reachable.incr 8 ⟨fun n => n % 3 == 1, 1, 0, 1, 8⟩ _
      (IteratorXYPredicated.Reachable.begin 8 _ rfl) (by decide) rfl
  ⟨⟨reducedExample_wellFormed, hreach⟩,
    (IteratorXYPredicated.reachable_invariant reducedExample reducedExample_wellFormed
      (fun n => n % 3 == 1) _ hreach).2.2.2.2.1⟩

end FilteredState

/-! ## Grids without points -/

section ZeroPoints

variable {R : Type} [Add R] [Mul R] [IntCast R]

theorem IteratorXY.nextN_at_empty_row (g : Structured R) (z : Nat) (hz : g.nx_[z]? = some 0)
    (m : Nat) :
    IteratorXY.nextN g m ⟨0, z⟩ = some (List.replicate m none, ⟨0, z⟩) := by
  induction m with
  | zero => rfl
  | succ m ih =>
    simp [IteratorXY.nextN, IteratorXY.next_at_empty_row g z hz, ih, List.replicate_succ]

/-- Claim C11, as amended.  On a grid without rows `xy_begin()` compares equal to
`xy_end()`, so that the begin/end loop collects nothing and dereferences no cursor, and
`next` returns `false` on every call.  On a grid that has rows, the first of them without
points (as when every row is without points), `next` also returns `false` on every call,
but `xy_begin()`, at `(0, 0)`, does not compare equal to `xy_end()`, at `(0, ny())`, so
that the begin/end loop dereferences the cursor `(0, 0)`, and `operator++` takes
`xy_begin()` to `(1, 0)`, which does not compare equal to `xy_end()` either. -/
theorem IteratorXY.zero_point_grid_traversal (g : Structured R) :
    (g.y_ = [] →
      IteratorXY.eq g.xy_begin g.xy_end = true ∧ IteratorXY.ne g.xy_begin g.xy_end = false ∧
      (∀ fuel : Nat, 0 < fuel → IteratorXY.range g fuel g.xy_begin g.xy_end = some []) ∧
      (∀ m : Nat, IteratorXY.nextN g m g.xy_begin = some (List.replicate m none, g.xy_begin))) ∧
    (0 < g.y_.length → g.nx_[0]? = some 0 →
      IteratorXY.eq g.xy_begin g.xy_end = false ∧ IteratorXY.ne g.xy_begin g.xy_end = true ∧
      (∀ m : Nat, IteratorXY.nextN g m g.xy_begin = some (List.replicate m none, g.xy_begin)) ∧
      IteratorXY.deref g g.xy_begin = g.xy 0 0 ∧
      IteratorXY.incr g g.xy_begin = some ⟨1, 0⟩ ∧
      IteratorXY.eq ⟨1, 0⟩ g.xy_end = false ∧ IteratorXY.ne ⟨1, 0⟩ g.xy_end = true) := by
  constructor
  · intro hy
    have hny : g.ny = 0 := by simp [Structured.ny, hy]
    have hbe : g.xy_begin = g.xy_end := by
      simp [Structured.xy_begin, Structured.xy_end, IteratorXY.ctor, hny]
    have hne : IteratorXY.ne g.xy_begin g.xy_end = false := by
      rw [hbe]; simp [IteratorXY.ne]
    refine ⟨by rw [hbe]; simp [IteratorXY.eq], hne, ?_, ?_⟩
    · intro fuel hfuel
      obtain ⟨f, rfl⟩ : ∃ f, fuel = f + 1 := ⟨fuel - 1, by omega⟩
      simp [IteratorXY.range, hne]
    · intro m
      have h := IteratorXY.nextN_end g m
      rw [hny] at h
      simpa [Structured.xy_begin, IteratorXY.ctor] using h
  · intro hy hz
    have hny : ¬ ((0 : Int) = g.ny) := by simp only [Structured.ny]; omega
    refine ⟨?_, ?_, ?_, rfl, ?_, ?_, ?_⟩
    · simp [IteratorXY.eq, Structured.xy_begin, Structured.xy_end, IteratorXY.ctor, hny]
    · simp [IteratorXY.ne, Structured.xy_begin, Structured.xy_end, IteratorXY.ctor, hny]
    · intro m
      have h := IteratorXY.nextN_at_empty_row g 0 hz m
      simpa [Structured.xy_begin, IteratorXY.ctor] using h
    · have h := IteratorXY.incrN_in_empty_row g 0 hz 1 0
      simpa [IteratorXY.incrN, Structured.xy_begin, IteratorXY.ctor] using h
    · simp [IteratorXY.eq, Structured.xy_end, IteratorXY.ctor, hny]
    · simp [IteratorXY.ne, Structured.xy_end, IteratorXY.ctor, hny]

/-- Instances of the amended claim C11: the grid without rows, and the grid with three
rows without points. -/
theorem IteratorXY.zero_point_grid_traversal_witness :
    (noRowsExample.y_ = [] ∧ noRowsExample.size = 0 ∧
      IteratorXY.eq noRowsExample.xy_begin noRowsExample.xy_end = true ∧
      ∀ fuel : Nat, 0 < fuel →
        IteratorXY.range noRowsExample fuel noRowsExample.xy_begin noRowsExample.xy_end
          = some []) ∧
    (0 < allEmptyExample.y_.length ∧ allEmptyExample.nx_[0]? = some 0 ∧
      allEmptyExample.size = 0 ∧
      IteratorXY.incr allEmptyExample allEmptyExample.xy_begin = some ⟨1, 0⟩ ∧
      IteratorXY.eq ⟨1, 0⟩ allEmptyExample.xy_end = false ∧
      IteratorXY.ne ⟨1, 0⟩ allEmptyExample.xy_end = true) :=
  ⟨⟨rfl, rfl, ((IteratorXY.zero_point_grid_traversal noRowsExample).1 rfl).1,
      ((IteratorXY.zero_point_grid_traversal noRowsExample).1 rfl).2.2.1⟩,
    ⟨by decide, rfl, rfl,
      ((IteratorXY.zero_point_grid_traversal allEmptyExample).2 (by decide) rfl).2.2.2.2⟩⟩

/-- Counterexample to claim C11 as stated: the grid with three rows, each without points,
has `size() = 0`, yet `xy_begin()` does not compare equal to `xy_end()`, the begin/end loop
dereferences the cursor `(0, 0)`, to a point of the first row, and one `operator++` later
the iterator is at `(1, 0)`, still different from `xy_end()`. -/
theorem IteratorXY.all_rows_empty_begin_ne_end :
    allEmptyExample.size = 0 ∧ (∀ n ∈ allEmptyExample.nx_, n = 0) ∧
    allEmptyExample.xy_begin = ⟨0, 0⟩ ∧ allEmptyExample.xy_end = ⟨0, 3⟩ ∧
    IteratorXY.eq allEmptyExample.xy_begin allEmptyExample.xy_end = false ∧
    IteratorXY.ne allEmptyExample.xy_begin allEmptyExample.xy_end = true ∧
    IteratorXY.deref allEmptyExample allEmptyExample.xy_begin = some ⟨0, 45⟩ ∧
    IteratorXY.incr allEmptyExample allEmptyExample.xy_begin = some ⟨1, 0⟩ ∧
    IteratorXY.ne ⟨1, 0⟩ allEmptyExample.xy_end = true ∧
    ¬ (IteratorXY.eq allEmptyExample.xy_begin allEmptyExample.xy_end = true) := by
  refine ⟨rfl, by decide, rfl, rfl, by decide, by decide, ?_, by decide, by decide, by decide⟩
  norm_num [IteratorXY.deref, Structured.xy_begin, IteratorXY.ctor, allEmptyExample,
    reducedExample, Structured.xy, Structured.x, Structured.y, vecAt]

end ZeroPoints

/-! ## Periodicity -/

section Periodicity

variable {R : Type} [LinearOrderedField R]

theorem AxisSpacing.values_quarter_turns :
    AxisSpacing.values (0 : R) 360 4 false = some [0, 90, 180, 270] := by
  have h4 : Int.toNat 4 = 4 := rfl
  have hstep : AxisSpacing.step (0 : R) 360 4 false = 90 := by
    norm_num [AxisSpacing.step]
  simp only [AxisSpacing.values, hstep, h4]
  norm_num [List.range, List.range.loop]

theorem XSpace.regular_quarter_turns :
    XSpace.regular (0 : R) 360 4 false 2 =
      some { ny_ := 2, nxmin_ := 4, nxmax_ := 4, nx_ := [4, 4], xmin_ := [0, 0],
             xmax_ := [270, 270], dx_ := [90, 90], min_ := 0, max_ := 270 } := by
  have hstep : AxisSpacing.step (0 : R) 360 4 false = 90 := by
    norm_num [AxisSpacing.step]
  simp only [XSpace.regular, AxisSpacing.values_quarter_turns, hstep]
  norm_num [List.replicate]

/-- Claim C12.  With `periodic_x_` set by `computeTruePeriodicity`, `periodic()` is `true`
exactly when for every row `j` the gap `360 - (xmax[j] - xmin[j])` equals `dx[j]` within
the tolerance `eps`; and the regular grid of two rows built from
`AxisSpacing(lo=0, hi=360, count=4, endpoint=false)`, whose values are
`{0, 90, 180, 270}`, has `nx = {4, 4}`, `size() = 8` and `periodic() = true`, for any
tolerance `eps ≥ 0`. -/
theorem Structured.periodic_iff_gap_within_tolerance (eps : R) :
    (∀ g : Structured R,
      (g.computeTruePeriodicity eps).periodic = true ↔
        ∀ j : Nat, j < g.y_.length →
          ∃ a b d : R, g.xmin_[j]? = some a ∧ g.xmax_[j]? = some b ∧ g.dx_[j]? = some d ∧
            |360 - (b - a) - d| ≤ eps) ∧
    (0 ≤ eps → ∀ (y0 y1 : R) (projection : Projection R),
      ∃ (xs : XSpace R) (g : Structured R),
        AxisSpacing.values (0 : R) 360 4 false = some [0, 90, 180, 270] ∧
        XSpace.regular (0 : R) 360 4 false 2 = some xs ∧
        Structured.constructGrid eps xs [y0, y1] projection = some g ∧
        g.ny = 2 ∧ g.nx_ = [4, 4] ∧ g.size = 8 ∧ g.periodic = true) := by
  constructor
  · intro g
    simp only [Structured.periodic, Structured.computeTruePeriodicity, List.all_eq_true,
      List.mem_range]
    constructor
    · intro h j hj
      have hj' := h j hj
      cases ha : g.xmin_[j]? with
      | none => simp [ha] at hj'
      | some a =>
        cases hb : g.xmax_[j]? with
        | none => simp [ha, hb] at hj'
        | some b =>
          cases hd : g.dx_[j]? with
          | none => simp [ha, hb, hd] at hj'
          | some d =>
            simp only [ha, hb, hd, decide_eq_true_eq] at hj'
            exact ⟨a, b, d, rfl, rfl, rfl, hj'⟩
    · intro h j hj
      obtain ⟨a, b, d, ha, hb, hd, hle⟩ := h j hj
      simp only [ha, hb, hd, decide_eq_true_eq]
      exact hle
  · intro heps y0 y1 projection
    refine ⟨_, Structured.computeTruePeriodicity eps
        { nxmin_ := 4, nxmax_ := 4, npts_ := 8, y_ := [y0, y1], nx_ := [4, 4], xmin_ := [0, 0],
          xmax_ := [270, 270], dx_ := [90, 90], periodic_x_ := false,
          projection_ := projection },
      AxisSpacing.values_quarter_turns, XSpace.regular_quarter_turns, ?_, ?_⟩
    · simp [Structured.constructGrid, Structured.construct]
    · refine ⟨rfl, rfl, rfl, ?_⟩
      simp only [Structured.periodic, Structured.computeTruePeriodicity, List.all_eq_true,
        List.mem_range]
      intro j hj
      have hj2 : j < 2 := hj
      interval_cases j <;> norm_num <;> exact heps

/-- Instance of claim C12 over the rationals with the tolerance `1 / 1000`. -/
theorem Structured.periodic_iff_gap_within_tolerance_witness :
    ∃ (xs : XSpace ℚ) (g : Structured ℚ),
      XSpace.regular (0 : ℚ) 360 4 false 2 = some xs ∧
      Structured.constructGrid (1 / 1000) xs [45, -45] ⟨fun q => ⟨q.x, q.y⟩⟩ = some g ∧
      g.nx_ = [4, 4] ∧ g.size = 8 ∧ g.periodic = true := by
  obtain ⟨xs, g, -, h2, h3, -, h5, h6, h7⟩ :=
    (Structured.periodic_iff_gap_within_tolerance (1 / 1000 : ℚ)).2 (by norm_num) 45 (-45)
      ⟨fun q => ⟨q.x, q.y⟩⟩
  exact ⟨xs, g, h2, h3, h5, h6, h7⟩

end Periodicity

/-! ## Cropping -/

section Cropping

variable {R : Type} [LinearOrderedField R]

end Cropping

/-! ## Hybrid elements: the loops of `add` -/

namespace HybridLoops

/-- A resized vector has the requested size. -/
theorem length_vecResize {α : Type} (v : List α) (n : Nat) (fill : α) :
    (vecResize v n fill).length = n := by
  simp only [vecResize, List.length_append, List.length_take, List.length_replicate]
  omega

/-- Growing a vector appends copies of the fill value. -/
theorem vecResize_grow {α : Type} (v : List α) (d : Nat) (fill : α) :
    vecResize v (v.length + d) fill = v ++ List.replicate d fill := by
  simp [vecResize, List.take_of_length_le]

/-- The first loop of `add` leaves the members it does not write as they are and keeps
the sizes of the vectors it writes. -/
theorem addLoop_frame (m ed : Nat) : ∀ (k e : Nat) (he : HybridElements),
    (HybridElements.addLoop m ed k e he).size_ = he.size_ ∧
    (HybridElements.addLoop m ed k e he).elements_size_ = he.elements_size_ ∧
    (HybridElements.addLoop m ed k e he).elements_begin_ = he.elements_begin_ ∧
    (HybridElements.addLoop m ed k e he).node_connectivity_array_ =
      he.node_connectivity_array_ ∧
    (HybridElements.addLoop m ed k e he).element_types_ = he.element_types_ ∧
    (HybridElements.addLoop m ed k e he).fields_ = he.fields_ ∧
    (HybridElements.addLoop m ed k e he).nb_nodes_.length = he.nb_nodes_.length ∧
    (HybridElements.addLoop m ed k e he).nb_edges_.length = he.nb_edges_.length ∧
    (HybridElements.addLoop m ed k e he).type_idx_.length = he.type_idx_.length ∧
    (HybridElements.addLoop m ed k e he).nodes_begin_.length = he.nodes_begin_.length := by
  intro k
  induction k with
  | zero => intro e he; simp [HybridElements.addLoop]
  | succ k ih =>
    intro e he
    rw [HybridElements.addLoop]
    have h := ih (e + 1)
      { he with
        nb_nodes_ := he.nb_nodes_.set e m
        nb_edges_ := he.nb_edges_.set e ed
        type_idx_ := he.type_idx_.set e he.element_types_.length
        nodes_begin_ := he.nodes_begin_.set (e + 1) (he.nodes_begin_.getD e 0 + m) }
    simpa [List.length_set] using h

/-- The entries of `nb_nodes_` after the first loop of `add`. -/
theorem addLoop_nb_nodes (m ed : Nat) : ∀ (k e : Nat) (he : HybridElements),
    e + k ≤ he.nb_nodes_.length → ∀ i : Nat,
    (HybridElements.addLoop m ed k e he).nb_nodes_[i]? =
      if e ≤ i ∧ i < e + k then some m else he.nb_nodes_[i]? := by
  intro k
  induction k with
  | zero =>
    intro e he _ i
    rw [HybridElements.addLoop, if_neg (by omega)]
  | succ k ih =>
    intro e he h i
    rw [HybridElements.addLoop, ih (e + 1) _ (by simp only [List.length_set]; omega) i]
    simp only [List.getElem?_set]
    split_ifs <;> first | rfl | omega

/-- The entries of `nb_edges_` after the first loop of `add`. -/
theorem addLoop_nb_edges (m ed : Nat) : ∀ (k e : Nat) (he : HybridElements),
    e + k ≤ he.nb_edges_.length → ∀ i : Nat,
    (HybridElements.addLoop m ed k e he).nb_edges_[i]? =
      if e ≤ i ∧ i < e + k then some ed else he.nb_edges_[i]? := by
  intro k
  induction k with
  | zero =>
    intro e he _ i
    rw [HybridElements.addLoop, if_neg (by omega)]
  | succ k ih =>
    intro e he h i
    rw [HybridElements.addLoop, ih (e + 1) _ (by simp only [List.length_set]; omega) i]
    simp only [List.getElem?_set]
    split_ifs <;> first | rfl | omega

/-- The entries of `type_idx_` after the first loop of `add`. -/
theorem addLoop_type_idx (m ed : Nat) : ∀ (k e : Nat) (he : HybridElements),
    e + k ≤ he.type_idx_.length → ∀ i : Nat,
    (HybridElements.addLoop m ed k e he).type_idx_[i]? =
      if e ≤ i ∧ i < e + k then some he.element_types_.length else he.type_idx_[i]? := by
  intro k
  induction k with
  | zero =>
    intro e he _ i
    rw [HybridElements.addLoop, if_neg (by omega)]
  | succ k ih =>
    intro e he h i
    rw [HybridElements.addLoop, ih (e + 1) _ (by simp only [List.length_set]; omega) i]
    simp only [List.getElem?_set]
    split_ifs <;> first | rfl | omega

/-- The entries of `nodes_begin_` after the first loop of `add`: the entries after `e`
continue the entry at `e` in steps of `nb_nodes`. -/
theorem addLoop_nodes_begin (m ed : Nat) : ∀ (k e : Nat) (he : HybridElements),
    e + k + 1 ≤ he.nodes_begin_.length → ∀ i : Nat,
    (HybridElements.addLoop m ed k e he).nodes_begin_[i]? =
      if e < i ∧ i ≤ e + k then some (he.nodes_begin_.getD e 0 + (i - e) * m)
      else he.nodes_begin_[i]? := by
  intro k
  induction k with
  | zero =>
    intro e he _ i
    rw [HybridElements.addLoop, if_neg (by omega)]
  | succ k ih =>
    intro e he h i
    rw [HybridElements.addLoop, ih (e + 1) _ (by simp only [List.length_set]; omega) i]
    have hget : (he.nodes_begin_.set (e + 1) (he.nodes_begin_.getD e 0 + m)).getD (e + 1) 0 =
        he.nodes_begin_.getD e 0 + m := by
      rw [List.getD_eq_getElem?_getD, List.getElem?_set, if_pos rfl, if_pos (by omega)]
      rfl
    simp only [hget, List.getElem?_set]
    by_cases h1 : e + 1 < i ∧ i ≤ e + 1 + k
    · rw [if_pos h1, if_pos (by omega)]
      obtain ⟨d, rfl⟩ : ∃ d, i = e + 1 + d := ⟨i - (e + 1), by omega⟩
      have e1 : e + 1 + d - (e + 1) = d := by omega
      have e2 : e + 1 + d - e = d + 1 := by omega
      rw [e1, e2, Nat.add_mul, one_mul]
      congr 1
      omega
    · rw [if_neg h1]
      by_cases h2 : e + 1 = i
      · subst h2
        rw [if_pos rfl, if_pos (by omega), if_pos (by omega)]
        have e3 : e + 1 - e = 1 := by omega
        rw [e3, one_mul]
      · rw [if_neg h2, if_neg (by omega)]

/-- The second loop of `add` completes when `connectivity` has the entries it reads,
keeps the size of the array and writes `connectivity[j + (i - c)] + add_base` at the
index `i` of the range it runs over. -/
theorem connLoop_some (connectivity : List Int) (b : Int) :
    ∀ (k c j : Nat) (conn : List Int),
    j + k ≤ connectivity.length → c + k ≤ conn.length →
    ∃ r, HybridElements.connLoop connectivity b k c j conn = some r ∧
      r.length = conn.length ∧
      ∀ i : Nat, r[i]? =
        if c ≤ i ∧ i < c + k then (connectivity[j + (i - c)]?).map (fun v => v + b)
        else conn[i]? := by
  intro k
  induction k with
  | zero =>
    intro c j conn _ _
    refine ⟨conn, rfl, rfl, fun i => ?_⟩
    rw [if_neg (by omega)]
  | succ k ih =>
    intro c j conn hj hc
    have hjlt : j < connectivity.length := by omega
    obtain ⟨r, hr, hlen, hget⟩ :=
      ih (c + 1) (j + 1) (conn.set c (connectivity[j] + b)) (by omega)
        (by simp only [List.length_set]; omega)
    refine ⟨r, ?_, ?_, fun i => ?_⟩
    · rw [HybridElements.connLoop, List.getElem?_eq_getElem hjlt]
      exact hr
    · rw [hlen, List.length_set]
    · rw [hget i]
      by_cases h1 : c + 1 ≤ i ∧ i < c + 1 + k
      · rw [if_pos h1, if_pos (by omega)]
        have e1 : j + 1 + (i - (c + 1)) = j + (i - c) := by omega
        rw [e1]
      · rw [if_neg h1, List.getElem?_set]
        by_cases h2 : c = i
        · subst h2
          rw [if_pos rfl, if_pos (by omega), if_pos (by omega), Nat.sub_self, Nat.add_zero,
            List.getElem?_eq_getElem hjlt]
          rfl
        · rw [if_neg h2, if_neg (by omega)]

/-- The second loop of `add` reads past the entries of `connectivity` when it has
iterations to run and there are fewer entries than iterations. -/
theorem connLoop_none (connectivity : List Int) (b : Int) :
    ∀ (k c j : Nat) (conn : List Int),
    0 < k → connectivity.length < j + k →
    HybridElements.connLoop connectivity b k c j conn = none := by
  intro k
  induction k with
  | zero => intro c j conn h0 _; omega
  | succ k ih =>
    intro c j conn _ h
    rw [HybridElements.connLoop]
    cases hv : connectivity[j]? with
    | none => rfl
    | some v =>
      obtain ⟨hlt, _⟩ := List.getElem?_eq_some.mp hv
      exact ih (c + 1) (j + 1) _ (by omega) (by omega)

/-- A list that agrees entry by entry with `l` followed by `n` copies of `a` is that
list. -/
theorem eq_append_replicate {α : Type} (l r : List α) (n : Nat) (a fill : α)
    (h : ∀ i : Nat, r[i]? =
      if l.length ≤ i ∧ i < l.length + n then some a
      else (l ++ List.replicate n fill)[i]?) :
    r = l ++ List.replicate n a := by
  apply List.ext_getElem?
  intro i
  rw [h i, List.getElem?_append, List.getElem?_append, List.getElem?_replicate,
    List.getElem?_replicate]
  split_ifs <;> first | rfl | omega

/-- A list that agrees entry by entry with `l` followed by `f 0, …, f (n - 1)` is that
list. -/
theorem eq_append_map_range {α : Type} (l r : List α) (n : Nat) (f : Nat → α) (fill : α)
    (h : ∀ i : Nat, r[i]? =
      if l.length ≤ i ∧ i < l.length + n then some (f (i - l.length))
      else (l ++ List.replicate n fill)[i]?) :
    r = l ++ (List.range n).map f := by
  apply List.ext_getElem?
  intro i
  rw [h i, List.getElem?_append, List.getElem?_append, List.getElem?_replicate,
    List.getElem?_map]
  by_cases h1 : i < l.length
  · rw [if_neg (by omega), if_pos h1, if_pos h1]
  · by_cases h2 : i < l.length + n
    · rw [if_pos (by omega), if_neg h1, List.getElem?_range (by omega)]
      rfl
    · rw [if_neg (by omega), if_neg h1, if_neg h1, if_neg (by omega),
        List.getElem?_eq_none (by simp only [List.length_range]; omega)]
      rfl

/-- The closed form of `add` on an object whose per-element vectors have the size of
the object: the call returns when `connectivity` has `nb_elements * nb_nodes` entries and
the fields can be resized, and it appends to every vector. -/
theorem add_eq (hf : Bool) (he : HybridElements) (et : ElementType) (n : Nat)
    (conn : List Int) (fa : Bool)
    (h1 : he.nb_nodes_.length = he.size_) (h2 : he.nb_edges_.length = he.size_)
    (h3 : he.type_idx_.length = he.size_) (h4 : he.nodes_begin_.length = he.size_ + 1)
    (hconn : n * et.nb_nodes ≤ conn.length)
    (fs : List (String × Field))
    (hfs : FieldMap.resize (he.size_ + n) he.fields_ = some fs) :
    HybridElements.add hf he et n conn fa = some (
      { size_ := he.size_ + n
        elements_size_ := he.elements_size_ ++ [n]
        elements_begin_ := he.elements_begin_ ++ [he.size_ + n]
        node_connectivity_array_ := he.node_connectivity_array_ ++
          (conn.take (n * et.nb_nodes)).map
            (fun v => v + (if fa then 0 else FORTRAN_BASE hf))
        nodes_begin_ := he.nodes_begin_ ++
          (List.range n).map
            (fun (k : Nat) => he.nodes_begin_.getD he.size_ 0 + (k + 1) * et.nb_nodes)
        nb_nodes_ := he.nb_nodes_ ++ List.replicate n et.nb_nodes
        nb_edges_ := he.nb_edges_ ++ List.replicate n et.nb_edges
        type_idx_ := he.type_idx_ ++ List.replicate n he.element_types_.length
        element_types_ := he.element_types_ ++ [et]
        fields_ := fs }, he.element_types_.length) := by
  obtain ⟨s1, hs1⟩ : ∃ s1 : HybridElements, s1 =
      { he with
        node_connectivity_array_ :=
          vecResize he.node_connectivity_array_
            (he.node_connectivity_array_.length + n * et.nb_nodes) 0
        nb_nodes_ := vecResize he.nb_nodes_ (he.size_ + n) 0
        nb_edges_ := vecResize he.nb_edges_ (he.size_ + n) 0
        type_idx_ := vecResize he.type_idx_ (he.size_ + n) 0
        nodes_begin_ := vecResize he.nodes_begin_ (he.size_ + n + 1) 0 } := ⟨_, rfl⟩
  obtain ⟨s2, hs2⟩ : ∃ s2 : HybridElements,
      s2 = HybridElements.addLoop et.nb_nodes et.nb_edges n he.size_ s1 := ⟨_, rfl⟩
  have key : HybridElements.add hf he et n conn fa =
      match HybridElements.connLoop conn (if fa then 0 else FORTRAN_BASE hf)
        (s2.node_connectivity_array_.length - he.node_connectivity_array_.length)
        he.node_connectivity_array_.length 0 s2.node_connectivity_array_ with
      | none => none
      | some cn =>
        match HybridElements.resize
          { s2 with
            node_connectivity_array_ := cn
            elements_begin_ := s2.elements_begin_ ++ [he.size_ + n]
            elements_size_ := s2.elements_size_ ++ [n]
            element_types_ := s2.element_types_ ++ [et] } (he.size_ + n) with
        | none => none
        | some r => some (r, r.element_types_.length - 1) := by
    subst hs2 hs1
    simp only [HybridElements.add, HybridElements.size, Nat.add_sub_cancel_left]
  obtain ⟨f1, f2, f3, f4, f5, f6, f7, f8, f9, f10⟩ :=
    addLoop_frame et.nb_nodes et.nb_edges n he.size_ s1
  rw [← hs2] at f1 f2 f3 f4 f5 f6 f7 f8 f9 f10
  have a1 : s1.nb_nodes_ = he.nb_nodes_ ++ List.replicate n 0 := by
    rw [hs1, ← h1]; exact vecResize_grow _ _ _
  have a2 : s1.nb_edges_ = he.nb_edges_ ++ List.replicate n 0 := by
    rw [hs1, ← h2]; exact vecResize_grow _ _ _
  have a3 : s1.type_idx_ = he.type_idx_ ++ List.replicate n 0 := by
    rw [hs1, ← h3]; exact vecResize_grow _ _ _
  have a4 : s1.nodes_begin_ = he.nodes_begin_ ++ List.replicate n 0 := by
    have e : he.size_ + n + 1 = he.nodes_begin_.length + n := by omega
    rw [hs1]
    show vecResize he.nodes_begin_ (he.size_ + n + 1) 0 = _
    rw [e]; exact vecResize_grow _ _ _
  have a5 : s1.node_connectivity_array_ =
      he.node_connectivity_array_ ++ List.replicate (n * et.nb_nodes) 0 := by
    rw [hs1]; exact vecResize_grow _ _ _
  have a6 : s1.element_types_ = he.element_types_ := by rw [hs1]
  have a7 : s1.elements_begin_ = he.elements_begin_ := by rw [hs1]
  have a8 : s1.elements_size_ = he.elements_size_ := by rw [hs1]
  have a9 : s1.fields_ = he.fields_ := by rw [hs1]
  have b1 : s2.nb_nodes_ = he.nb_nodes_ ++ List.replicate n et.nb_nodes := by
    apply eq_append_replicate _ _ _ _ 0
    intro i
    rw [hs2, addLoop_nb_nodes _ _ _ _ _ (by rw [a1]; simp; omega) i, a1, h1]
  have b2 : s2.nb_edges_ = he.nb_edges_ ++ List.replicate n et.nb_edges := by
    apply eq_append_replicate _ _ _ _ 0
    intro i
    rw [hs2, addLoop_nb_edges _ _ _ _ _ (by rw [a2]; simp; omega) i, a2, h2]
  have b3 : s2.type_idx_ = he.type_idx_ ++ List.replicate n he.element_types_.length := by
    apply eq_append_replicate _ _ _ _ 0
    intro i
    rw [hs2, addLoop_type_idx _ _ _ _ _ (by rw [a3]; simp; omega) i, a3, h3, a6]
  have b4 : s2.nodes_begin_ = he.nodes_begin_ ++
      (List.range n).map
        (fun (k : Nat) => he.nodes_begin_.getD he.size_ 0 + (k + 1) * et.nb_nodes) := by
    apply eq_append_map_range _ _ _ _ 0
    intro i
    have hg : s1.nodes_begin_.getD he.size_ 0 = he.nodes_begin_.getD he.size_ 0 := by
      rw [a4, List.getD_eq_getElem?_getD, List.getD_eq_getElem?_getD,
        List.getElem?_append_left (by omega)]
    rw [hs2, addLoop_nodes_begin _ _ _ _ _ (by rw [a4]; simp; omega) i, hg, a4, h4]
    by_cases hi : he.size_ < i ∧ i ≤ he.size_ + n
    · rw [if_pos hi, if_pos (by omega)]
      have e : i - he.size_ = i - (he.size_ + 1) + 1 := by omega
      rw [e]
    · rw [if_neg hi, if_neg (by omega)]
  have hlen : s2.node_connectivity_array_.length - he.node_connectivity_array_.length =
      n * et.nb_nodes := by
    rw [f4, a5]; simp
  obtain ⟨cn, hcn, _, hget⟩ := connLoop_some conn (if fa then 0 else FORTRAN_BASE hf)
    (n * et.nb_nodes) he.node_connectivity_array_.length 0 s2.node_connectivity_array_
    (by rw [Nat.zero_add]; exact hconn) (by rw [f4, a5]; simp)
  have b5 : cn = he.node_connectivity_array_ ++
      (conn.take (n * et.nb_nodes)).map
        (fun v => v + (if fa then 0 else FORTRAN_BASE hf)) := by
    apply List.ext_getElem?
    intro i
    generalize n * et.nb_nodes = K at hget a5 hconn ⊢
    generalize (if fa then 0 else FORTRAN_BASE hf) = base at hget ⊢
    rw [hget i, f4, a5, List.getElem?_append, List.getElem?_append, List.getElem?_replicate,
      List.getElem?_map, List.getElem?_take, Nat.zero_add]
    by_cases i1 : i < he.node_connectivity_array_.length
    · rw [if_neg (by omega), if_pos i1, if_pos i1]
    · by_cases i2 : i < he.node_connectivity_array_.length + K
      · rw [if_pos (by omega), if_neg i1, if_pos (by omega)]
      · rw [if_neg (by omega), if_neg i1, if_neg i1, if_neg (by omega), if_neg (by omega)]
        rfl
  rw [key, hlen, hcn]
  simp only [HybridElements.resize, f6, a9, hfs, f1, f2, f3, f5, a6, a7, a8, b1, b2, b3, b4,
    b5, List.length_append, List.length_singleton, Nat.add_sub_cancel]

/-- A call of `add` that returns has read `nb_elements * nb_nodes` entries of
`connectivity` and has resized every field. -/
theorem add_some_inv (hf : Bool) (he : HybridElements) (et : ElementType) (n : Nat)
    (conn : List Int) (fa : Bool) (r : HybridElements × Nat)
    (h : HybridElements.add hf he et n conn fa = some r) :
    n * et.nb_nodes ≤ conn.length ∧
      ∃ fs, FieldMap.resize (he.size_ + n) he.fields_ = some fs := by
  obtain ⟨s1, hs1⟩ : ∃ s1 : HybridElements, s1 =
      { he with
        node_connectivity_array_ :=
          vecResize he.node_connectivity_array_
            (he.node_connectivity_array_.length + n * et.nb_nodes) 0
        nb_nodes_ := vecResize he.nb_nodes_ (he.size_ + n) 0
        nb_edges_ := vecResize he.nb_edges_ (he.size_ + n) 0
        type_idx_ := vecResize he.type_idx_ (he.size_ + n) 0
        nodes_begin_ := vecResize he.nodes_begin_ (he.size_ + n + 1) 0 } := ⟨_, rfl⟩
  obtain ⟨s2, hs2⟩ : ∃ s2 : HybridElements,
      s2 = HybridElements.addLoop et.nb_nodes et.nb_edges n he.size_ s1 := ⟨_, rfl⟩
  have key : HybridElements.add hf he et n conn fa =
      match HybridElements.connLoop conn (if fa then 0 else FORTRAN_BASE hf)
        (s2.node_connectivity_array_.length - he.node_connectivity_array_.length)
        he.node_connectivity_array_.length 0 s2.node_connectivity_array_ with
      | none => none
      | some cn =>
        match HybridElements.resize
          { s2 with
            node_connectivity_array_ := cn
            elements_begin_ := s2.elements_begin_ ++ [he.size_ + n]
            elements_size_ := s2.elements_size_ ++ [n]
            element_types_ := s2.element_types_ ++ [et] } (he.size_ + n) with
        | none => none
        | some r => some (r, r.element_types_.length - 1) := by
    subst hs2 hs1
    simp only [HybridElements.add, HybridElements.size, Nat.add_sub_cancel_left]
  obtain ⟨_, _, _, f4, _, f6, _⟩ := addLoop_frame et.nb_nodes et.nb_edges n he.size_ s1
  rw [← hs2] at f4 f6
  have a5 : s1.node_connectivity_array_.length =
      he.node_connectivity_array_.length + n * et.nb_nodes := by
    rw [hs1]; exact length_vecResize _ _ _
  have a9 : s1.fields_ = he.fields_ := by rw [hs1]
  have hlen : s2.node_connectivity_array_.length - he.node_connectivity_array_.length =
      n * et.nb_nodes := by
    rw [f4, a5]; simp
  rw [key, hlen] at h
  constructor
  · by_contra hc
    rcases Nat.eq_zero_or_pos (n * et.nb_nodes) with h0 | hpos
    · rw [h0] at hc; exact hc (Nat.zero_le _)
    · rw [connLoop_none conn _ _ _ _ _ hpos (by rw [Nat.zero_add]; exact Nat.lt_of_not_le hc)]
        at h
      cases h
  · cases hcl : HybridElements.connLoop conn (if fa then 0 else FORTRAN_BASE hf)
        (n * et.nb_nodes) he.node_connectivity_array_.length 0
        s2.node_connectivity_array_ with
    | none => rw [hcl] at h; cases h
    | some cn =>
      rw [hcl] at h
      simp only [HybridElements.resize, f6, a9] at h
      cases hfs : FieldMap.resize (he.size_ + n) he.fields_ with
      | none => rw [hfs] at h; cases h
      | some fs => exact ⟨fs, rfl⟩

/-- The fields of a map in which every field has a first extent can be resized, and the
resized map has the same property. -/
theorem resize_sized (size : Nat) : ∀ m : List (String × Field), FieldMap.Sized m →
    ∃ fs, FieldMap.resize size m = some fs ∧ FieldMap.Sized fs := by
  intro m
  induction m with
  | nil => intro _; exact ⟨[], rfl, fun e he => by cases he⟩
  | cons x rest ih =>
    intro hs
    obtain ⟨name, f⟩ := x
    have hf : f.shape ≠ [] := hs (name, f) (List.mem_cons_self _ _)
    obtain ⟨fs, hfs, hsz⟩ := ih (fun e he => hs e (List.mem_cons_of_mem _ he))
    refine ⟨(name, { f with shape := f.shape.set 0 size }) :: fs, ?_, ?_⟩
    · rw [FieldMap.resize, if_neg hf, hfs]
    · intro e he
      rcases List.mem_cons.mp he with rfl | he
      · intro hnil
        apply hf
        have hl : (f.shape.set 0 size).length = 0 := by
          rw [show f.shape.set 0 size = [] from hnil]; rfl
        rw [List.length_set] at hl
        exact List.length_eq_zero.mp hl
      · exact hsz e he

/-- A map of fields that was resized has a first extent in every field. -/
theorem sized_of_resize (size : Nat) : ∀ (m fs : List (String × Field)),
    FieldMap.resize size m = some fs → FieldMap.Sized m := by
  intro m
  induction m with
  | nil => intro _ _ e he; cases he
  | cons x rest ih =>
    intro fs h e he
    obtain ⟨name, f⟩ := x
    rw [FieldMap.resize] at h
    by_cases hf : f.shape = []
    · rw [if_pos hf] at h; cases h
    · rw [if_neg hf] at h
      cases hr : FieldMap.resize size rest with
      | none => rw [hr] at h; cases h
      | some r =>
        rcases List.mem_cons.mp he with rfl | he
        · exact hf
        · exact ih r hr e he

/-- The constructor returns: none of its four `add( Field* )` raises.  The object has
no element, empty per-element vectors, offset tables holding the single entry `0` and
the four fields `glb_idx`, `remote_idx`, `partition` and `ghost` of shape `(0, 1)`. -/
theorem ctor_eq : HybridElements.ctor = .ok
    { size_ := 0, elements_size_ := [], elements_begin_ := [0],
      node_connectivity_array_ := [], nodes_begin_ := [0], nb_nodes_ := [],
      nb_edges_ := [], type_idx_ := [], element_types_ := [],
      fields_ := [("ghost", Field.create "int" "ghost" [0, 1]),
        ("partition", Field.create "int" "partition" [0, 1]),
        ("remote_idx", Field.create "int" "remote_idx" [0, 1]),
        ("glb_idx", Field.create "gidx_t" "glb_idx" [0, 1])] } := by
  rfl

/-- Appending `n` elements of `m` nodes each, their `n * m` connectivity entries and one
element type to consistent tables gives consistent tables. -/
theorem consistent_append (he : HybridElements) (hc : he.Consistent) (et : ElementType)
    (n ed t : Nat) (cn : List Int) (hcn : cn.length = n * et.nb_nodes)
    (fs : List (String × Field)) :
    HybridElements.Consistent
      { size_ := he.size_ + n
        elements_size_ := he.elements_size_ ++ [n]
        elements_begin_ := he.elements_begin_ ++ [he.size_ + n]
        node_connectivity_array_ := he.node_connectivity_array_ ++ cn
        nodes_begin_ := he.nodes_begin_ ++
          (List.range n).map
            (fun (k : Nat) => he.nodes_begin_.getD he.size_ 0 + (k + 1) * et.nb_nodes)
        nb_nodes_ := he.nb_nodes_ ++ List.replicate n et.nb_nodes
        nb_edges_ := he.nb_edges_ ++ List.replicate n ed
        type_idx_ := he.type_idx_ ++ List.replicate n t
        element_types_ := he.element_types_ ++ [et]
        fields_ := fs } := by
  obtain ⟨c1, c2, c3, c4, c5, c6, c7, c8, c9, c10, c11, c12⟩ := hc
  simp only [HybridElements.size, HybridElements.nb_types] at c1 c2 c3 c4 c6 c7 c8 c9 c11 c12
  have hb : he.nodes_begin_.getD he.size_ 0 = he.node_connectivity_array_.length := by
    rw [List.getD_eq_getElem?_getD, c7]; rfl
  have hNB : ∀ i : Nat, he.size_ ≤ i → i ≤ he.size_ + n →
      (he.nodes_begin_ ++ (List.range n).map
        (fun (k : Nat) => he.nodes_begin_.getD he.size_ 0 + (k + 1) * et.nb_nodes))[i]? =
        some (he.node_connectivity_array_.length + (i - he.size_) * et.nb_nodes) := by
    intro i h1 h2
    rw [List.getElem?_append, hb]
    by_cases hi : i = he.size_
    · subst hi
      rw [if_pos (by omega), c7, Nat.sub_self, Nat.zero_mul, Nat.add_zero]
    · rw [if_neg (by omega), List.getElem?_map, List.getElem?_range (by omega)]
      have e : i - he.nodes_begin_.length + 1 = i - he.size_ := by omega
      simp only [Option.map_some', e]
  constructor
  · simp [HybridElements.size, c1]
  · simp [HybridElements.size, c2]
  · simp [HybridElements.size, c3]
  · simp only [HybridElements.size, List.length_append, List.length_map, List.length_range]
    omega
  · show (_ ++ _)[0]? = some 0
    rw [List.getElem?_append_left (by omega)]
    exact c5
  · intro e he'
    simp only [HybridElements.size] at he' ⊢
    by_cases h : e < he.size_
    · obtain ⟨a, k, h1, h2, h3⟩ := c6 e h
      refine ⟨a, k, ?_, ?_, ?_⟩
      · rw [List.getElem?_append_left (by omega)]; exact h1
      · rw [List.getElem?_append_left (by omega)]; exact h2
      · rw [List.getElem?_append_left (by omega)]; exact h3
    · refine ⟨he.node_connectivity_array_.length + (e - he.size_) * et.nb_nodes,
        et.nb_nodes, hNB e (by omega) (by omega), ?_, ?_⟩
      · rw [List.getElem?_append_right (by omega), List.getElem?_replicate,
          if_pos (by omega)]
      · rw [hNB (e + 1) (by omega) (by omega)]
        have e1 : e + 1 - he.size_ = (e - he.size_) + 1 := by omega
        rw [e1, Nat.add_mul, Nat.one_mul, Nat.add_assoc]
  · simp only [HybridElements.size]
    rw [hNB (he.size_ + n) (by omega) (by omega), List.length_append, hcn,
      Nat.add_sub_cancel_left]
  · simp [HybridElements.nb_types, c8]
  · simp [HybridElements.nb_types, c9]
  · show (_ ++ _)[0]? = some 0
    rw [List.getElem?_append_left (by omega)]
    exact c10
  · intro k hk
    simp only [HybridElements.nb_types, List.length_append, List.length_singleton] at hk ⊢
    by_cases h : k < he.element_types_.length
    · obtain ⟨a, s, h1, h2, h3⟩ := c11 k h
      refine ⟨a, s, ?_, ?_, ?_⟩
      · rw [List.getElem?_append_left (by omega)]; exact h1
      · rw [List.getElem?_append_left (by omega)]; exact h2
      · rw [List.getElem?_append_left (by omega)]; exact h3
    · have hk' : k = he.element_types_.length := by omega
      subst hk'
      refine ⟨he.size_, n, ?_, ?_, ?_⟩
      · rw [List.getElem?_append_left (by omega)]; exact c12
      · rw [List.getElem?_append_right (by omega), c8, Nat.sub_self]; rfl
      · rw [List.getElem?_append_right (by omega), c9, Nat.sub_self]; rfl
  · simp only [HybridElements.size, HybridElements.nb_types]
    rw [List.length_append, List.length_singleton,
      List.getElem?_append_right (by omega), c9, Nat.sub_self]
    rfl

/-- The tables of the constructed object are consistent. -/
theorem consistent_ctor (he : HybridElements) (h : HybridElements.ctor = .ok he) :
    he.Consistent ∧ he.elements_size_ = [] ∧ he.size_ = 0 ∧ FieldMap.Sized he.fields_ := by
  rw [ctor_eq] at h
  injection h with h
  subst h
  refine ⟨⟨rfl, rfl, rfl, rfl, rfl, ?_, rfl, rfl, rfl, rfl, ?_, rfl⟩, rfl, rfl, ?_⟩
  · intro e he'
    exact absurd he' (Nat.not_lt_zero e)
  · intro t ht
    exact absurd ht (Nat.not_lt_zero t)
  · intro e he'
    simp only [List.mem_cons, List.mem_singleton, List.not_mem_nil, or_false] at he'
    rcases he' with rfl | rfl | rfl | rfl <;> simp [Field.create]

/-- A returning call of `add` on consistent tables with resizable fields gives
consistent tables with resizable fields, `nb_elements` more elements and one more entry
of `elements_size_`. -/
theorem consistent_add (hf : Bool) (he he' : HybridElements) (et : ElementType) (n : Nat)
    (conn : List Int) (fa : Bool) (idx : Nat) (hc : he.Consistent)
    (hs : FieldMap.Sized he.fields_)
    (h : HybridElements.add hf he et n conn fa = some (he', idx)) :
    he'.Consistent ∧ he'.elements_size_ = he.elements_size_ ++ [n] ∧
      he'.size_ = he.size_ + n ∧ FieldMap.Sized he'.fields_ := by
  obtain ⟨hconn, fs, hfs⟩ := add_some_inv hf he et n conn fa _ h
  obtain ⟨fs', hfs', hsz⟩ := resize_sized (he.size_ + n) he.fields_ hs
  rw [hfs] at hfs'
  injection hfs' with hfs'
  subst hfs'
  rw [add_eq hf he et n conn fa hc.nb_nodes_len hc.nb_edges_len hc.type_idx_len
    hc.nodes_begin_len hconn fs hfs] at h
  injection h with h
  injection h with h1 h2
  subst h1
  refine ⟨consistent_append he hc et n et.nb_edges he.element_types_.length _ ?_ fs,
    rfl, rfl, hsz⟩
  rw [List.length_map, List.length_take, Nat.min_eq_left hconn]

/-- The objects built by the constructor and calls of `add` have consistent tables,
one entry of `elements_size_` per call holding its `nb_elements`, the sum of these as
size, and resizable fields. -/
theorem built_invariant (hf : Bool) (added : List Nat) (he : HybridElements)
    (h : HybridElements.Built hf added he) :
    he.Consistent ∧ he.elements_size_ = added ∧ he.size_ = added.sum ∧
      FieldMap.Sized he.fields_ := by
  induction h with
  | ctor he h => exact consistent_ctor he h
  | add added he he' et n conn fa idx _ h ih =>
    obtain ⟨hc, hes, hsum, hs⟩ := ih
    obtain ⟨hc', hes', hsz', hs'⟩ := consistent_add hf he he' et n conn fa idx hc hs h
    refine ⟨hc', ?_, ?_, hs'⟩
    · rw [hes', hes]
    · rw [hsz', hsum, List.sum_append, List.sum_singleton]

end HybridLoops

/-! ## Hybrid elements: consistency of the offset tables -/

namespace HybridElements

/-- The constructor returns `hybridConstructed`. -/
theorem ctor_eq_hybridConstructed : HybridElements.ctor = .ok hybridConstructed := rfl

/-- The `add` of two triangles to the constructed object returns `hybridTriangles` and
the index `0`. -/
theorem add_hybridConstructed :
    HybridElements.add true hybridConstructed ⟨"Triangle", 3, 3⟩ 2 [0, 1, 2, 1, 3, 2] false =
      some (hybridTriangles, 0) := by
  rfl

/-- The `add` of one quadrilateral to `hybridTriangles` returns `hybridMesh` and the
index `1`. -/
theorem add_hybridTriangles :
    HybridElements.add true hybridTriangles ⟨"Quadrilateral", 4, 4⟩ 1 [4, 5, 6, 7] false =
      some (hybridMesh, 1) := by
  rfl

/-- The sequence of calls of `hybridExample` returns `hybridMesh` and the index `1`. -/
theorem hybridExample_eq : hybridExample = some (hybridMesh, 1) := by
  rfl

/-- The object `hybridMesh` is built by the constructor, an `add` of two elements and an
`add` of one element. -/
theorem built_hybridMesh : HybridElements.Built true [2, 1] hybridMesh :=
  HybridElements.Built.add [2] hybridTriangles hybridMesh ⟨"Quadrilateral", 4, 4⟩ 1
    [4, 5, 6, 7] false 1
    (HybridElements.Built.add [] hybridConstructed hybridTriangles ⟨"Triangle", 3, 3⟩ 2
      [0, 1, 2, 1, 3, 2] false 0
      (HybridElements.Built.ctor hybridConstructed ctor_eq_hybridConstructed)
      add_hybridConstructed)
    add_hybridTriangles

/-- Claim C21.  After the constructor and after every call of
`add( element_type, nb_elements, connectivity, fortran_array )` that returns, `size()` is
the sum of the `nb_elements` added; `nodes_begin_` has `size() + 1` entries, starts with
`0`, grows by `nb_nodes_[e]` from entry `e` to entry `e + 1` for every element `e` and
ends with the length of the node connectivity array; `elements_begin_` has
`nb_types() + 1` entries, starts with `0`, grows by `elements_size_[t]` from entry `t` to
entry `t + 1` for every type `t` and ends with `size()`. -/
theorem offset_tables_consistent (haveFortran : Bool) (added : List Nat)
    (he : HybridElements) (h : HybridElements.Built haveFortran added he) :
    he.size = added.sum ∧
    he.nodes_begin_.length = he.size + 1 ∧
    he.nodes_begin_[0]? = some 0 ∧
    (∀ e : Nat, e < he.size →
      ∃ a n : Nat, he.nodes_begin_[e]? = some a ∧ he.nb_nodes_[e]? = some n ∧
        he.nodes_begin_[e + 1]? = some (a + n)) ∧
    he.nodes_begin_[he.size]? = some he.node_connectivity_array_.length ∧
    he.elements_begin_.length = he.nb_types + 1 ∧
    he.elements_begin_[0]? = some 0 ∧
    (∀ t : Nat, t < he.nb_types →
      ∃ a n : Nat, he.elements_begin_[t]? = some a ∧ he.elements_size_[t]? = some n ∧
        he.elements_begin_[t + 1]? = some (a + n)) ∧
    he.elements_begin_[he.nb_types]? = some he.size := by
  obtain ⟨hc, _, hsum, _⟩ := HybridLoops.built_invariant haveFortran added he h
  exact ⟨hsum, hc.nodes_begin_len, hc.nodes_begin_zero, hc.nodes_begin_step,
    hc.nodes_begin_last, hc.elements_begin_len, hc.elements_begin_zero,
    hc.elements_begin_step, hc.elements_begin_last⟩

/-- The tables of `hybridMesh`, built by two calls of `add`, are consistent. -/
theorem offset_tables_consistent_witness :
    HybridElements.Built true [2, 1] hybridMesh ∧ hybridMesh.size = 3 ∧
      hybridMesh.nodes_begin_ = [0, 3, 6, 10] ∧
      hybridMesh.nodes_begin_[hybridMesh.size]? =
        some hybridMesh.node_connectivity_array_.length :=
  ⟨built_hybridMesh, (offset_tables_consistent true [2, 1] hybridMesh built_hybridMesh).1,
    rfl, (offset_tables_consistent true [2, 1] hybridMesh built_hybridMesh).2.2.2.2.1⟩

end HybridElements

/-! ## Hybrid elements: what `add` returns, appends and leaves -/

namespace HybridElements

end HybridElements

/-! ## Hybrid elements: the field map -/

namespace FieldMap

/-- Looking up in a map with the head entry `(k, f)`. -/
theorem find_cons (k : String) (f : Field) (rest : List (String × Field)) (name : String) :
    FieldMap.find ((k, f) :: rest) name = if name = k then some f else FieldMap.find rest name := by
  unfold FieldMap.find
  rw [List.lookup_cons]
  by_cases h : name = k
  · rw [if_pos h, beq_iff_eq.mpr h]
  · rw [if_neg h, beq_eq_false_iff_ne.mpr h]

/-- Erasing `name` removes it from the map and leaves the other names as they are. -/
theorem find_erase (name other : String) : ∀ m : List (String × Field),
    FieldMap.find (FieldMap.erase m name) other =
      if other = name then none else FieldMap.find m other := by
  intro m
  induction m with
  | nil =>
    by_cases h : other = name
    · rw [if_pos h]; rfl
    · rw [if_neg h]; rfl
  | cons x rest ih =>
    obtain ⟨k, f⟩ := x
    by_cases hk : k = name
    · have he : FieldMap.erase ((k, f) :: rest) name = FieldMap.erase rest name := by
        simp [FieldMap.erase, hk]
      rw [he, ih, find_cons]
      by_cases h : other = name
      · rw [if_pos h, if_pos h]
      · rw [if_neg h, if_neg h, if_neg (by rw [hk]; exact h)]
    · have he : FieldMap.erase ((k, f) :: rest) name = (k, f) :: FieldMap.erase rest name := by
        simp [FieldMap.erase, hk]
      rw [he, find_cons, find_cons, ih]
      by_cases h : other = k
      · rw [if_pos h, if_neg (by rw [h]; exact hk), if_pos h]
      · rw [if_neg h, if_neg h]

/-- Assigning `field` to `name` makes it the entry of `name` and leaves the other names
as they are. -/
theorem find_assign (name other : String) (field : Field) (m : List (String × Field)) :
    FieldMap.find (FieldMap.assign m name field) other =
      if other = name then some field else FieldMap.find m other := by
  unfold FieldMap.assign
  rw [find_cons, find_erase]
  by_cases h : other = name
  · rw [if_pos h, if_pos h]
  · rw [if_neg h, if_neg h, if_neg h]

/-- Erasing a name keeps the keys distinct and the fields under their names. -/
theorem unique_erase (name : String) (m : List (String × Field)) (h : FieldMap.Unique m) :
    FieldMap.Unique (FieldMap.erase m name) := by
  refine ⟨List.Nodup.sublist (List.Sublist.map _ (List.filter_sublist _)) h.1, ?_⟩
  intro e he
  exact h.2 e (List.mem_of_mem_filter he)

/-- Assigning a field to its own name keeps the keys distinct and the fields under
their names. -/
theorem unique_assign (field : Field) (m : List (String × Field)) (h : FieldMap.Unique m) :
    FieldMap.Unique (FieldMap.assign m field.name field) := by
  have hu := unique_erase field.name m h
  refine ⟨?_, ?_⟩
  · show ((field.name, field) :: FieldMap.erase m field.name |>.map Prod.fst).Nodup
    rw [List.map_cons, List.nodup_cons]
    refine ⟨?_, hu.1⟩
    intro hmem
    obtain ⟨e, he, hk⟩ := List.mem_map.mp hmem
    have hp := (List.mem_filter.mp he).2
    simp only [bne_iff_ne, ne_eq] at hp
    exact hp hk
  · intro e he
    rcases List.mem_cons.mp he with rfl | he
    · rfl
    · exact hu.2 e he

end FieldMap

namespace HybridElements

/-- The constructed object holds its four fields under distinct names. -/
theorem unique_hybridConstructed : FieldMap.Unique hybridConstructed.fields_ := by
  refine ⟨by decide, ?_⟩
  intro e he
  simp only [hybridConstructed, List.mem_cons, List.mem_singleton, List.not_mem_nil,
    or_false] at he
  rcases he with rfl | rfl | rfl | rfl <;> rfl

/-- The claim C23 as stated fails for a field without a name: the constructed object
has no field named `""`, and `add` of such a field raises all the same, by the `ASSERT`
on the name. -/
theorem add_field_raises_on_empty_name :
    hybridConstructed.has_field "" = false ∧
      (hybridConstructed.add_field (some (Field.create "int" "" [0, 1]))).2 =
        .error (.assertion "! field->name().empty()") ∧
      ¬ ((∃ r, (hybridConstructed.add_field (some (Field.create "int" "" [0, 1]))).2 =
          .error r) ↔ hybridConstructed.has_field (Field.create "int" "" [0, 1]).name = true) := by
  refine ⟨rfl, rfl, ?_⟩
  intro h
  have h1 := h.mp ⟨_, rfl⟩
  exact absurd h1 (by decide)

end HybridElements

namespace HybridElements

/-- The three outcomes of `add( Field* )`. -/
theorem add_field_cases (he : HybridElements) (field : Option Field) :
    (field = none ∧ he.add_field field = (he, .error (.assertion "field != NULL"))) ∨
    (∃ f, field = some f ∧ f.name = "" ∧
      he.add_field field = (he, .error (.assertion "! field->name().empty()"))) ∨
    (∃ f, field = some f ∧ f.name ≠ "" ∧ he.has_field f.name = true ∧
      ∃ msg, he.add_field field = (he, .error (.exception msg))) ∨
    (∃ f, field = some f ∧ f.name ≠ "" ∧ he.has_field f.name = false ∧
      he.add_field field =
        ({ he with fields_ := FieldMap.assign he.fields_ f.name f }, .ok f)) := by
  cases field with
  | none => exact Or.inl ⟨rfl, rfl⟩
  | some f =>
    by_cases hn : f.name = ""
    · refine Or.inr (Or.inl ⟨f, rfl, hn, ?_⟩)
      simp only [HybridElements.add_field, if_pos hn]
    · cases hp : he.has_field f.name with
      | true =>
        refine Or.inr (Or.inr (Or.inl ⟨f, rfl, hn, hp, "Trying to add field '" ++ f.name ++
          "' to Nodes, but Nodes already has a field with this name.", ?_⟩))
        simp only [HybridElements.add_field, if_neg hn, hp, if_true]
      | false =>
        refine Or.inr (Or.inr (Or.inr ⟨f, rfl, hn, hp, ?_⟩))
        simp only [HybridElements.add_field, if_neg hn, hp, Bool.false_eq_true, if_false]

/-- Claim C23, amended.  `add( field )` raises iff the field is null, its name is empty
or a field with the same name is already present, and then the object is unchanged;
otherwise it returns the field, afterwards `field( name )` returns that field, and the
other names are as before.  `remove_field( name )` and `field( name )` raise iff no field
with that name is present; a `remove_field( name )` that returns makes
`has_field( name )` false and leaves every other field in place.  Both operations keep
the names of the stored fields distinct. -/
theorem field_map_add_remove_lookup (he : HybridElements) :
    (∀ field : Option Field,
      ((∃ r, (he.add_field field).2 = .error r) ↔
        (field = none ∨
          ∃ f, field = some f ∧ (f.name = "" ∨ he.has_field f.name = true))) ∧
      ((∃ r, (he.add_field field).2 = .error r) → (he.add_field field).1 = he)) ∧
    (∀ f : Field, f.name ≠ "" → he.has_field f.name = false →
      (he.add_field (some f)).2 = .ok f ∧
      (he.add_field (some f)).1.field f.name = .ok f ∧
      (∀ other : String, other ≠ f.name →
        FieldMap.find (he.add_field (some f)).1.fields_ other =
          FieldMap.find he.fields_ other) ∧
      (FieldMap.Unique he.fields_ → FieldMap.Unique (he.add_field (some f)).1.fields_)) ∧
    (∀ name : String,
      ((∃ r, (he.remove_field name).2 = .error r) ↔ he.has_field name = false) ∧
      ((∃ r, he.field name = .error r) ↔ he.has_field name = false) ∧
      (he.has_field name = false → (he.remove_field name).1 = he) ∧
      (he.has_field name = true →
        (he.remove_field name).2 = .ok () ∧
        (∃ f, FieldMap.find he.fields_ name = some f ∧ he.field name = .ok f) ∧
        (he.remove_field name).1.has_field name = false ∧
        (∀ other : String, other ≠ name →
          FieldMap.find (he.remove_field name).1.fields_ other =
            FieldMap.find he.fields_ other) ∧
        (FieldMap.Unique he.fields_ →
          FieldMap.Unique (he.remove_field name).1.fields_))) := by
  refine ⟨fun field => ⟨⟨?_, ?_⟩, ?_⟩, ?_, ?_⟩
  · rintro ⟨r, hr⟩
    rcases add_field_cases he field with ⟨h, _⟩ | ⟨f, h, hn, _⟩ | ⟨f, h, _, hp, _⟩ |
      ⟨f, h, _, _, he'⟩
    · exact Or.inl h
    · exact Or.inr ⟨f, h, Or.inl hn⟩
    · exact Or.inr ⟨f, h, Or.inr hp⟩
    · rw [he'] at hr; cases hr
  · intro h
    rcases add_field_cases he field with ⟨_, he'⟩ | ⟨f, _, _, he'⟩ | ⟨f, _, _, _, msg, he'⟩ |
      ⟨f, hf, hn, hp, _⟩
    · exact ⟨_, by rw [he']⟩
    · exact ⟨_, by rw [he']⟩
    · exact ⟨_, by rw [he']⟩
    · rcases h with h | ⟨g, hg, h⟩
      · rw [h] at hf; cases hf
      · rw [hg] at hf
        injection hf with hf
        subst hf
        rcases h with h | h
        · exact absurd h hn
        · rw [hp] at h; cases h
  · rintro ⟨r, hr⟩
    rcases add_field_cases he field with ⟨_, he'⟩ | ⟨f, _, _, he'⟩ | ⟨f, _, _, _, msg, he'⟩ |
      ⟨f, _, _, _, he'⟩
    · rw [he']
    · rw [he']
    · rw [he']
    · rw [he'] at hr; cases hr
  · intro f hn hp
    have he' : he.add_field (some f) =
        ({ he with fields_ := FieldMap.assign he.fields_ f.name f }, .ok f) := by
      simp only [HybridElements.add_field, if_neg hn, hp, Bool.false_eq_true, if_false]
    have hfind : FieldMap.find (FieldMap.assign he.fields_ f.name f) f.name = some f := by
      rw [FieldMap.find_assign, if_pos rfl]
    rw [he']
    refine ⟨rfl, ?_, ?_, ?_⟩
    · simp only [HybridElements.field, HybridElements.has_field, hfind, Option.isSome_some,
        Bool.not_true, Bool.false_eq_true, if_false]
    · intro other ho
      simp only []
      rw [FieldMap.find_assign, if_neg ho]
    · intro hu
      exact FieldMap.unique_assign f he.fields_ hu
  · intro name
    cases hp : he.has_field name with
    | false =>
      have hr : he.remove_field name = (he, .error (.exception ("Trying to remove field `" ++
          name ++ "' in Nodes, but no field with this name is present in Nodes."))) := by
        simp only [HybridElements.remove_field, hp, Bool.not_false, if_true]
      have hf : he.field name = .error (.exception ("Trying to access field `" ++
          name ++ "' in Nodes, but no field with this name is present in Nodes.")) := by
        simp only [HybridElements.field, hp, Bool.not_false, if_true]
      refine ⟨⟨fun _ => rfl, fun _ => ⟨_, by rw [hr]⟩⟩, ⟨fun _ => rfl, fun _ => ⟨_, hf⟩⟩,
        fun _ => (by rw [hr]), fun h => (by cases h)⟩
    | true =>
      have hr : he.remove_field name =
          ({ he with fields_ := FieldMap.erase he.fields_ name }, .ok ()) := by
        simp only [HybridElements.remove_field, hp, Bool.not_true, Bool.false_eq_true,
          if_false]
      obtain ⟨f, hfind⟩ : ∃ f, FieldMap.find he.fields_ name = some f := by
        have h := hp
        simp only [HybridElements.has_field] at h
        exact Option.isSome_iff_exists.mp h
      have hf : he.field name = .ok f := by
        simp only [HybridElements.field, hp, Bool.not_true, Bool.false_eq_true, if_false,
          hfind]
      refine ⟨⟨?_, fun h => (by cases h)⟩, ⟨?_, fun h => (by cases h)⟩,
        fun h => (by cases h), fun _ => ⟨(by rw [hr]), ⟨f, hfind, hf⟩, ?_, ?_, ?_⟩⟩
      · rintro ⟨r, h⟩
        rw [hr] at h; cases h
      · rintro ⟨r, h⟩
        rw [hf] at h; cases h
      · rw [hr]
        simp only [HybridElements.has_field]
        rw [FieldMap.find_erase, if_pos rfl]
        rfl
      · intro other ho
        rw [hr]
        simp only []
        rw [FieldMap.find_erase, if_neg ho]
      · intro hu
        rw [hr]
        exact FieldMap.unique_erase name he.fields_ hu

end HybridElements

/-! ## Creation of a field from an array specification -/

namespace FieldCreatorArraySpec

/-- The conversion from `long` to `idx_t` leaves a value that `idx_t` holds as it is. -/
theorem idx_t_of_long_eq (idx_bits : Nat) (v : Int) (h : idx_t_holds idx_bits v) :
    idx_t_of_long idx_bits v = v := by
  obtain ⟨h1, h2⟩ := h
  have hpos : (0 : Int) < 2 ^ idx_bits := by positivity
  have hhalf : (2 : Int) ^ idx_bits / 2 + 2 ^ idx_bits / 2 ≤ 2 ^ idx_bits := by omega
  unfold idx_t_of_long
  rw [Int.emod_eq_of_lt (by omega) (by omega)]
  omega

/-- The conversion from `long` to `idx_t` leaves a list of values that `idx_t` holds as
it is. -/
theorem map_idx_t_of_long_eq (idx_bits : Nat) (l : List Int)
    (h : ∀ v ∈ l, idx_t_holds idx_bits v) : l.map (idx_t_of_long idx_bits) = l := by
  induction l with
  | nil => rfl
  | cons a l ih =>
    rw [List.map_cons, idx_t_of_long_eq idx_bits a (h a (List.mem_cons_self _ _)),
      ih (fun v hv => h v (List.mem_cons_of_mem _ hv))]

/-- What decides whether `createField` raises, when `shape` is given, is the data type
it gets; the shape of the field is the converted `shape`, reversed when `fortran` is
present and true. -/
theorem createField_eq (idx_bits : Nat) (dt : DataTypeInterface) (params : Parametrisation)
    (shape : List Int) (hs : params.shape = some shape) :
    createField idx_bits dt params =
      match (match params.datatype with
        | some datatype_str =>
          match dt.str_to_kind datatype_str with
          | none => Except.error (CreateRaised.datatype datatype_str)
          | some k => Except.ok (DataType.mk k)
        | none =>
          if !dt.kind_valid (params.kind.getD dt.kind_double) then
            Except.error
              (CreateRaised.exception "Could not create field. kind parameter unrecognized")
          else Except.ok (DataType.mk (params.kind.getD dt.kind_double))) with
      | .error e => .error e
      | .ok datatype =>
        .ok (FieldImpl.create (params.name.getD "") datatype
          ((if params.fortran = some true then shape.reverse else shape).map
            (idx_t_of_long idx_bits))) := by
  unfold createField
  rw [hs]
  have hfort : (if params.fortran.getD false = true
        then shape.reverse.map (idx_t_of_long idx_bits)
        else shape.map (idx_t_of_long idx_bits)) =
      (if params.fortran = some true then shape.reverse else shape).map
        (idx_t_of_long idx_bits) := by
    cases hfo : params.fortran with
    | none => rfl
    | some b => cases b <;> rfl
  simp only [hfort]

/-- The field `createField` returns has the shape built from `shape` and `fortran`. -/
theorem createField_ok_shape (idx_bits : Nat) (dt : DataTypeInterface)
    (params : Parametrisation) (shape : List Int) (hs : params.shape = some shape)
    (f : FieldImpl) (h : createField idx_bits dt params = .ok f) :
    f.shape = (if params.fortran = some true then shape.reverse else shape).map
      (idx_t_of_long idx_bits) := by
  rw [createField_eq idx_bits dt params shape hs] at h
  split at h
  · cases h
  · injection h with h
    rw [← h]
    rfl

/-- The claim C24 as stated fails for an extent that `idx_t` does not hold: with `idx_t`
of 32 bits, `fortran` absent and the `shape` list `(2147483653, 2)`, the shape of the
field is `(-2147483643, 2)`, which is neither the `shape` list nor a list with its
multiset of extents. -/
theorem createField_narrows_extents :
    createField 32 exampleDataTypes wideParams = .ok ⟨"", ⟨8⟩, [-2147483643, 2]⟩ ∧
      wideParams.shape = some [2147483653, 2] ∧ wideParams.fortran ≠ some true ∧
      ([-2147483643, 2] : List Int) ≠ [2147483653, 2] ∧
      (([-2147483643, 2] : List Int) : Multiset Int) ≠ (([2147483653, 2] : List Int) : Multiset Int) := by
  refine ⟨rfl, rfl, by decide, by decide, ?_⟩
  intro h
  have hm : (2147483653 : Int) ∈ (([-2147483643, 2] : List Int) : Multiset Int) := by
    rw [h]; simp
  simp at hm

/-- Claim C24, amended.  The field `createField` returns has as its shape the `shape`
list, every extent converted from `long` to `idx_t`, reversed when `fortran` is present
and true and in the given order otherwise (`fortran` false or absent); in both cases
its rank is that of `shape`.  When `idx_t` holds every extent of `shape`, the shape is
the `shape` list reversed, or the `shape` list, itself, its multiset of extents is that
of `shape`, and creating a field from the shape of the returned field, with the other
parameters as they are, returns the field with the original `shape`: reversing twice
gives back the original. -/
theorem createField_shape_from_fortran (idx_bits : Nat) (dt : DataTypeInterface)
    (params : Parametrisation) (shape : List Int) (hs : params.shape = some shape)
    (f : FieldImpl) (h : createField idx_bits dt params = .ok f) :
    (params.fortran = some true → f.shape = shape.reverse.map (idx_t_of_long idx_bits)) ∧
    (params.fortran ≠ some true → f.shape = shape.map (idx_t_of_long idx_bits)) ∧
    f.shape.length = shape.length ∧
    ((∀ v ∈ shape, idx_t_holds idx_bits v) →
      (params.fortran = some true → f.shape = shape.reverse) ∧
      (params.fortran ≠ some true → f.shape = shape) ∧
      (f.shape : Multiset Int) = (shape : Multiset Int) ∧
      createField idx_bits dt { params with shape := some f.shape } =
        .ok { f with shape := shape }) := by
  have hshape := createField_ok_shape idx_bits dt params shape hs f h
  refine ⟨fun ht => by rw [hshape, if_pos ht], fun hf => by rw [hshape, if_neg hf], ?_, ?_⟩
  · rw [hshape, List.length_map]
    split
    · exact List.length_reverse shape
    · rfl
  · intro hfit
    have hfit' : ∀ v ∈ (if params.fortran = some true then shape.reverse else shape),
        idx_t_holds idx_bits v := by
      intro v hv
      split at hv
      · exact hfit v (List.mem_reverse.mp hv)
      · exact hfit v hv
    have hshape' : f.shape = if params.fortran = some true then shape.reverse else shape := by
      rw [hshape, map_idx_t_of_long_eq idx_bits _ hfit']
    refine ⟨fun ht => by rw [hshape', if_pos ht], fun hf => by rw [hshape', if_neg hf],
      ?_, ?_⟩
    · rw [hshape']
      split
      · exact Multiset.coe_reverse shape
      · rfl
    · rw [createField_eq idx_bits dt params shape hs] at h
      rw [createField_eq idx_bits dt { params with shape := some f.shape } f.shape rfl]
      simp only [] at h ⊢
      split at h
      · cases h
      · injection h with h
        subst h
        simp only [FieldImpl.create]
        have hfit2 : ∀ v ∈ (if params.fortran = some true then shape.reverse else shape).map
            (idx_t_of_long idx_bits),
            idx_t_holds idx_bits v := by
          rw [map_idx_t_of_long_eq idx_bits _ hfit']
          exact hfit'
        by_cases ht : params.fortran = some true
        · simp only [if_pos ht] at hfit2 ⊢
          rw [map_idx_t_of_long_eq idx_bits shape.reverse
            (fun v hv => hfit v (List.mem_reverse.mp hv)), List.reverse_reverse,
            map_idx_t_of_long_eq idx_bits shape hfit]
        · simp only [if_neg ht] at hfit2 ⊢
          rw [map_idx_t_of_long_eq idx_bits shape hfit,
            map_idx_t_of_long_eq idx_bits shape hfit]

/-- With `idx_t` of 32 bits, `fortran` true and the shape `(2, 3, 4)`, whose extents
`idx_t` holds, `createField` returns a field of shape `(4, 3, 2)`, and from that shape it
returns a field of shape `(2, 3, 4)`. -/
theorem createField_shape_from_fortran_witness :
    createField 32 exampleDataTypes fortranParams = .ok ⟨"f", ⟨8⟩, [4, 3, 2]⟩ ∧
      (∀ v ∈ ([2, 3, 4] : List Int), idx_t_holds 32 v) ∧
      createField 32 exampleDataTypes { fortranParams with shape := some [4, 3, 2] } =
        .ok ⟨"f", ⟨8⟩, [2, 3, 4]⟩ :=
  ⟨rfl, by decide,
    ((createField_shape_from_fortran 32 exampleDataTypes fortranParams [2, 3, 4] rfl
      ⟨"f", ⟨8⟩, [4, 3, 2]⟩ rfl).2.2.2 (by decide)).2.2.2⟩

/-- Claim C25.  With a `DataType` for which the kind of `double` is valid, and whatever
the number of bits of `idx_t`, `createField` raises, and so returns no field, iff `shape` is missing, or a `datatype`
name is given and `DataType` rejects it, or no `datatype` is given and `kind` is present
with a value that is not a valid kind.  When `shape` is given: with neither `datatype`
nor `kind` the field has the data type of `double`; with a `datatype` that `DataType`
accepts the field has that data type whatever `kind` is; with no `datatype` and a valid
`kind` the field has the data type of that kind. -/
theorem createField_raises_iff (idx_bits : Nat) (dt : DataTypeInterface)
    (hd : dt.kind_valid dt.kind_double = true) (params : Parametrisation) :
    ((∃ e, createField idx_bits dt params = .error e) ↔
      (params.shape = none ∨
        (∃ s, params.datatype = some s ∧ dt.str_to_kind s = none) ∨
        (params.datatype = none ∧ ∃ k, params.kind = some k ∧ dt.kind_valid k = false))) ∧
    (∀ shape : List Int, params.shape = some shape →
      (params.datatype = none → params.kind = none →
        ∃ f, createField idx_bits dt params = .ok f ∧ f.datatype = DataType.create_double dt) ∧
      (∀ (s : String) (k : Int), params.datatype = some s → dt.str_to_kind s = some k →
        ∃ f, createField idx_bits dt params = .ok f ∧ f.datatype = ⟨k⟩) ∧
      (∀ k : Int, params.datatype = none → params.kind = some k → dt.kind_valid k = true →
        ∃ f, createField idx_bits dt params = .ok f ∧ f.datatype = ⟨k⟩)) := by
  constructor
  · cases hs : params.shape with
    | none =>
      refine ⟨fun _ => Or.inl rfl, fun _ =>
        ⟨.exception "Could not find parameter 'shape' in Parametrisation", ?_⟩⟩
      unfold createField
      rw [hs]
    | some shape =>
      rw [createField_eq idx_bits dt params shape hs]
      cases hdt : params.datatype with
      | some s =>
        cases hk : dt.str_to_kind s with
        | none =>
          simp only [hk]
          exact ⟨fun _ => Or.inr (Or.inl ⟨s, rfl, hk⟩), fun _ => ⟨_, rfl⟩⟩
        | some k =>
          simp only [hk]
          constructor
          · rintro ⟨e, he⟩
            cases he
          · rintro (h | ⟨s', h1, h2⟩ | ⟨h, _⟩)
            · cases h
            · injection h1 with h1
              subst h1
              rw [hk] at h2
              cases h2
            · cases h
      | none =>
        cases hkind : params.kind with
        | none =>
          simp only [Option.getD_none, hd, Bool.not_true, Bool.false_eq_true, if_false]
          constructor
          · rintro ⟨e, he⟩
            cases he
          · rintro (h | ⟨s', h1, _⟩ | ⟨_, k, h1, _⟩)
            · cases h
            · cases h1
            · cases h1
        | some k =>
          cases hv : dt.kind_valid k with
          | false =>
            simp only [Option.getD_some, hv, Bool.not_false, if_true]
            exact ⟨fun _ => Or.inr (Or.inr (by simp [hv])), fun _ => ⟨_, rfl⟩⟩
          | true =>
            simp only [Option.getD_some, hv, Bool.not_true, Bool.false_eq_true, if_false]
            constructor
            · rintro ⟨e, he⟩
              cases he
            · rintro (h | ⟨s', h1, _⟩ | ⟨_, k', h1, h2⟩)
              · cases h
              · cases h1
              · injection h1 with h1
                subst h1
                rw [hv] at h2
                cases h2
  · intro shape hs
    rw [createField_eq idx_bits dt params shape hs]
    refine ⟨fun hdt hkind => ?_, fun s k hdt hk => ?_, fun k hdt hkind hv => ?_⟩
    · rw [hdt, hkind]
      simp only [Option.getD_none, hd, Bool.not_true, Bool.false_eq_true, if_false]
      exact ⟨_, rfl, rfl⟩
    · rw [hdt]
      simp only [hk]
      exact ⟨_, rfl, rfl⟩
    · rw [hdt, hkind]
      simp only [Option.getD_some, hv, Bool.not_true, Bool.false_eq_true, if_false]
      exact ⟨_, rfl, rfl⟩

/-- With the kinds of `exampleDataTypes`, for which the kind `8` of `double` is valid:
`createField` raises on the kind `3`, and without `datatype` and `kind` it returns a
field of the data type of `double`. -/
theorem createField_raises_iff_witness :
    exampleDataTypes.kind_valid exampleDataTypes.kind_double = true ∧
      (∃ e, createField 32 exampleDataTypes badKindParams = .error e) ∧
      ∃ f, createField 32 exampleDataTypes fortranParams = .ok f ∧
        f.datatype = DataType.create_double exampleDataTypes :=
  ⟨rfl,
    (createField_raises_iff 32 exampleDataTypes rfl badKindParams).1.mpr
      (Or.inr (Or.inr ⟨rfl, 3, rfl, rfl⟩)),
    ((createField_raises_iff 32 exampleDataTypes rfl fortranParams).2 [2, 3, 4] rfl).1 rfl rfl⟩

end FieldCreatorArraySpec

end Atlas
